import Mathlib

/-! RedisRaft: wire codec, commit queue and command handlers.

A shallow embedding of the parts of `src/src/serialization.c`,
`src/src/serialization_utils.c`, `src/src/migrate.c` and `src/redisraft.c`
that the statements below are about.

Conventions of the embedding.

* A byte is a `Nat` (its unsigned value); a byte string is a `List Nat`.
  `'*'` is 42, `'$'` is 36, `'\n'` is 10, `'0'..'9'` are 48..57, NUL is 0.
* A C pair `(ptr, sz)` of a read pointer and the number of bytes that remain
  is the list of the `sz` bytes that start at `ptr`; `ptr += n; sz -= n` is
  `List.drop n`.
* `size_t` is 64 bits wide and `int` is 32 bits wide.  Arithmetic that can
  wrap on inputs the code can receive carries an explicit `% 2 ^ 64`, and the
  conversion `(int) sz` is `toInt`.
* A function that can stop on a failed `assert` returns `Option`, with `none`
  for the abort; a decoder returns `none` for its error value.
-/

namespace RedisRaft

/-! ## Machine integers -/

/-- The conversion `(int) x` of a `size_t` value: reduction modulo `2 ^ 32`
into the range `[-2 ^ 31, 2 ^ 31)`. -/
def toInt (x : Nat) : Int :=
  if x % 2 ^ 32 < 2 ^ 31 then ((x % 2 ^ 32 : Nat) : Int)
  else ((x % 2 ^ 32 : Nat) : Int) - 2 ^ 32

/-! ## Data model -/

/-- A `RaftRedisCommand`: the list `argv`; `argc` is its length. -/
abbrev RaftRedisCommand := List (List Nat)

/-- A `RaftRedisCommandArray`: the commands `commands[0 .. len)`. -/
abbrev RaftRedisCommandArray := List RaftRedisCommand

/-- A `raft_entry_t`, reduced to its payload: `data_len` and the bytes of
`data`. -/
structure raft_entry_t where
  data_len : Nat
  data : List Nat
deriving DecidableEq, Repr

/-- The entry returned by the Raft library's `raft_entry_new(data_len)`: a
payload buffer of `data_len` bytes.  The library is not part of the
repository; `fill i` is the byte that the fresh buffer holds at offset `i`,
whatever it is. -/
def raft_entry_new (fill : Nat → Nat) (data_len : Nat) : raft_entry_t :=
  { data_len := data_len, data := (List.range data_len).map fill }

/-! ## Decimal output of `snprintf` -/

/-- The digits that `%lu` prints for `n`, most significant first, as ASCII
codes; `fuel` bounds the number of digits. -/
def decimalFuel : Nat → Nat → List Nat
  | 0, _ => []
  | fuel + 1, n =>
    if n < 10 then [48 + n] else decimalFuel fuel (n / 10) ++ [48 + n % 10]

/-- The digits that `%lu` prints for `n`. -/
def decimal (n : Nat) : List Nat := decimalFuel (n + 1) n

/-! ## `serialization.c`: sizes -/

/-- The `calcIntSerializedLen` of `serialization.c`. -/
def calcIntSerializedLen (val : Nat) : Nat :=
  if val < 10 then 3
  else if val < 100 then 4
  else if val < 1000 then 5
  else if val < 10000 then 6
  else if val < 100000 then 7
  else if val < 1000000 then 8
  else if val < 10000000 then 9
  else 22

/-- The loop `sz += calcIntSerializedLen(len) + len + 1` of
`calcSerializedSize` over the arguments of a command. -/
def argsSize : List (List Nat) → Nat
  | [] => 0
  | arg :: rest => calcIntSerializedLen arg.length + arg.length + 1 + argsSize rest

/-- The `calcSerializedSize` of `serialization.c`: the size reserved for one
command. -/
def calcSerializedSize (cmd : RaftRedisCommand) : Nat :=
  calcIntSerializedLen (cmd.length + 1) + argsSize cmd

/-- The loop `sz += calcSerializedSize(source->commands[i])` of
`RaftRedisCommandArraySerialize`. -/
def commandsSize : List RaftRedisCommand → Nat
  | [] => 0
  | cmd :: rest => calcSerializedSize cmd + commandsSize rest

/-- The size that `RaftRedisCommandArraySerialize` computes in its
"Compute sizes" loop and passes to `raft_entry_new`. -/
def serializedSize (source : RaftRedisCommandArray) : Nat :=
  calcIntSerializedLen source.length + commandsSize source

/-! ## `serialization.c`: encoder -/

/-- The `encodeInteger` of `serialization.c`.  `snprintf(ptr, sz, "%c%lu\n",
pfx, val)` returns the length `n` of the full text; the result is `-1`
(`none`) when `n >= (int) sz`, and otherwise the `n` bytes written at `ptr`
(`snprintf` also stores a NUL after them, which the next write of the caller
overwrites). -/
def encodeInteger (pfx : Nat) (sz : Nat) (val : Nat) : Option (List Nat) :=
  let out := pfx :: (decimal (val % 2 ^ 64) ++ [10])
  if toInt sz ≤ (out.length : Int) then none else some out

/-- The inner loop of `RaftRedisCommandArraySerialize` over the arguments of
one command, started with `sz` bytes left: the bytes written and the size
left, or `none` when an `assert` fails.  The first test is `assert(sz > len)`.
The size left is never smaller than what is written (each header takes at
most the bytes that `calcIntSerializedLen` reserved for it), so `sz -= n` and
`sz -= (len + 1)` do not wrap and are subtractions of `Nat`. -/
def encodeArgs : List (List Nat) → Nat → Option (List Nat × Nat)
  | [], sz => some ([], sz)
  | e :: rest, sz =>
    if sz ≤ e.length then none
    else
      match encodeInteger 36 sz e.length with
      | none => none
      | some hdr =>
        match encodeArgs rest (sz - hdr.length - (e.length + 1)) with
        | none => none
        | some (out, sz') => some (hdr ++ e ++ [10] ++ out, sz')

/-- The outer loop of `RaftRedisCommandArraySerialize` over the commands. -/
def encodeCommands : List RaftRedisCommand → Nat → Option (List Nat × Nat)
  | [], sz => some ([], sz)
  | src :: rest, sz =>
    match encodeInteger 42 sz src.length with
    | none => none
    | some hdr =>
      match encodeArgs src (sz - hdr.length) with
      | none => none
      | some (args, sz1) =>
        match encodeCommands rest sz1 with
        | none => none
        | some (out, sz') => some (hdr ++ args ++ out, sz')

/-- The function `RaftRedisCommandArraySerialize`: `none` when an `assert`
fails, otherwise the entry, whose payload is the bytes written followed by
the part of the fresh buffer that was not written. -/
def RaftRedisCommandArraySerialize (fill : Nat → Nat)
    (source : RaftRedisCommandArray) : Option raft_entry_t :=
  let sz := serializedSize source
  let ety := raft_entry_new fill sz
  match encodeInteger 42 sz source.length with
  | none => none
  | some hdr =>
    match encodeCommands source (sz - hdr.length) with
    | none => none
    | some (out, _) =>
      some { ety with data := hdr ++ out ++ ety.data.drop (hdr.length + out.length) }

/-! ## `serialization.c`: decoder -/

/-- The `while` loop of `decodeInteger`: `tmp` and `len` are the C locals,
the list is the `sz` bytes left at `ptr`.  The loop is entered with
`sz >= 2` and repeated only with `sz >= 1`, so the empty list is not
reached. -/
def decodeIntegerLoop : List Nat → Nat → Nat → Option (Nat × Nat)
  | [], _, _ => none
  | c :: rest, tmp, len =>
    if c = 10 then some (len + 1, tmp)
    else if c < 48 ∨ c > 57 then none
    else
      let tmp1 := (tmp * 10) % 2 ^ 64
      let tmp2 := (tmp1 + (c - 48)) % 2 ^ 64
      if rest.length = 0 then none else decodeIntegerLoop rest tmp2 (len + 1)

/-- The `decodeInteger` of `serialization.c`: `none` for `-1`, otherwise the
number of bytes consumed and the value stored in `*val`.  The `decodeInteger`
of `serialization_utils.c` has the same statements, without the two
assignments to the locals `sz` and `ptr` after the loop. -/
def decodeInteger (buf : List Nat) (pfx : Nat) : Option (Nat × Nat) :=
  match buf with
  | [] => none
  | c :: rest =>
    if buf.length < 3 ∨ c ≠ pfx then none else decodeIntegerLoop rest 0 1

/-- The "Read args" loop of `RaftRedisCommandDeserialize` for the `argc`
arguments still to read: the arguments and the bytes left, or `none` for
`goto error`. -/
def deserializeArgs : Nat → List Nat → Option (List (List Nat) × List Nat)
  | 0, buf => some ([], buf)
  | argc + 1, buf =>
    match decodeInteger buf 36 with
    | none => none
    | some (n, len) =>
      if (buf.drop n).length ≤ len then none
      else
        match deserializeArgs argc ((buf.drop n).drop (len + 1)) with
        | none => none
        | some (args, rest) => some ((buf.drop n).take len :: args, rest)

/-- The function `RaftRedisCommandDeserialize`: `none` for the error value
`0`, otherwise the command and the number of bytes consumed.  The declaration
of `RaftRedisCommand` is not in the sources at hand: `argc` is taken to hold
the count read from the buffer as it is. -/
def RaftRedisCommandDeserialize (buf : List Nat) : Option (RaftRedisCommand × Nat) :=
  match decodeInteger buf 42 with
  | none => none
  | some (n, len) =>
    if len = 0 then none
    else
      match deserializeArgs len (buf.drop n) with
      | none => none
      | some (argv, rest) => some (argv, buf.length - rest.length)

/-- The loop of `RaftRedisCommandArrayDeserialize` over the commands still to
read: the commands and the bytes left, or `none` for `RR_ERROR`. -/
def deserializeCommands : Nat → List Nat → Option (List RaftRedisCommand × List Nat)
  | 0, buf => some ([], buf)
  | k + 1, buf =>
    match RaftRedisCommandDeserialize buf with
    | none => none
    | some (cmd, len) =>
      match deserializeCommands k (buf.drop len) with
      | none => none
      | some (cmds, rest) => some (cmd :: cmds, rest)

/-- The function `RaftRedisCommandArrayDeserialize` on the `buf_size` bytes
of `buf`: `none` for `RR_ERROR`, otherwise (`RR_OK`) the commands stored in
`target`. -/
def RaftRedisCommandArrayDeserialize (buf : List Nat) : Option RaftRedisCommandArray :=
  match decodeInteger buf 42 with
  | none => none
  | some (n, commands_num) =>
    if commands_num = 0 then none
    else
      match deserializeCommands commands_num (buf.drop n) with
      | none => none
      | some (cmds, _) => some cmds

/-! ## The command-array grammar

The encoding that the grammar of the specification assigns to a command
array, with every `uint` written the way `%lu` prints it:

    array   := '*' uint '\n' command{N}
    command := '*' uint '\n' field{M}
    field   := '$' uint '\n' bytes(len) '\n'
-/

/-- The text `pfx uint '\n'`. -/
def encUint (pfx v : Nat) : List Nat := pfx :: (decimal v ++ [10])

/-- The encoding of one field. -/
def encField (arg : List Nat) : List Nat := encUint 36 arg.length ++ arg ++ [10]

/-- The concatenated encodings of a list of fields. -/
def encFields : List (List Nat) → List Nat
  | [] => []
  | arg :: rest => encField arg ++ encFields rest

/-- The encoding of one command. -/
def encCommand (cmd : RaftRedisCommand) : List Nat :=
  encUint 42 cmd.length ++ encFields cmd

/-- The concatenated encodings of a list of commands. -/
def encCommands : List RaftRedisCommand → List Nat
  | [] => []
  | cmd :: rest => encCommand cmd ++ encCommands rest

/-- The grammar encoding of a command array. -/
def encArray (a : RaftRedisCommandArray) : List Nat :=
  encUint 42 a.length ++ encCommands a

/-- A command array is well formed: at least one command, and at least one
argument in every command. -/
def WellFormed (a : RaftRedisCommandArray) : Prop :=
  a ≠ [] ∧ ∀ cmd ∈ a, cmd ≠ []

instance (a : RaftRedisCommandArray) : Decidable (WellFormed a) := by
  unfold WellFormed; infer_instance

/-- A byte is an ASCII decimal digit. -/
def isDigit (c : Nat) : Prop := 48 ≤ c ∧ c ≤ 57

instance (c : Nat) : Decidable (isDigit c) := by unfold isDigit; infer_instance

/-- The value that `decodeInteger` accumulates in `tmp` over the digit bytes
`ds`, started from `tmp`. -/
def decVal (tmp : Nat) (ds : List Nat) : Nat :=
  ds.foldl (fun a c => ((a * 10) % 2 ^ 64 + (c - 48)) % 2 ^ 64) tmp

/-- The counts and lengths of a command array fit the type `size_t`, as
they do for every array held in memory. -/
def Fits (a : RaftRedisCommandArray) : Prop :=
  a.length < 2 ^ 64 ∧ ∀ cmd ∈ a, cmd.length < 2 ^ 64 ∧ ∀ arg ∈ cmd, arg.length < 2 ^ 64

/-- The sizes reserved by `calcIntSerializedLen` are the sizes written: every
count and length is below `10 ^ 7`, and no `argc + 1` has more digits than
`argc`. -/
def ExactSize (a : RaftRedisCommandArray) : Prop :=
  a.length < 10 ^ 7 ∧
    ∀ cmd ∈ a, calcIntSerializedLen (cmd.length + 1) = calcIntSerializedLen cmd.length ∧
      cmd.length < 10 ^ 7 ∧ ∀ arg ∈ cmd, arg.length < 10 ^ 7

/-- The number that a run of decimal digit bytes denotes, with no bound. -/
def uintValue (ds : List Nat) : Nat :=
  ds.foldl (fun a c => a * 10 + (c - 48)) 0

/-! ## The grammar of the specification, as written

A recognizer for the grammar with `uint` read as one or more decimal digits
and every field closed by `'\n'`.  Each function returns the bytes that follow
the recognized text, or `none` when the buffer does not begin with such a
text. -/

/-- Specification grammar: `uint '\n'`, one or more decimal digits and a
newline; the value and the bytes that follow. -/
def grammarUint (buf : List Nat) : Option (Nat × List Nat) :=
  match buf.dropWhile (fun c => decide (isDigit c)) with
  | 10 :: rest =>
    if buf.takeWhile (fun c => decide (isDigit c)) = [] then none
    else some (uintValue (buf.takeWhile (fun c => decide (isDigit c))), rest)
  | _ => none

/-- Specification grammar: `field := '$' uint '\n' bytes(len) '\n'`. -/
def grammarField : List Nat → Option (List Nat)
  | 36 :: buf =>
    match grammarUint buf with
    | some (len, rest) => if rest[len]? = some 10 then some (rest.drop (len + 1)) else none
    | none => none
  | _ => none

/-- Specification grammar: `field{M}`. -/
def grammarFields : Nat → List Nat → Option (List Nat)
  | 0, buf => some buf
  | m + 1, buf =>
    match grammarField buf with
    | some rest => grammarFields m rest
    | none => none

/-- Specification grammar: `command := '*' uint '\n' field{M}`. -/
def grammarCommand : List Nat → Option (List Nat)
  | 42 :: buf =>
    match grammarUint buf with
    | some (m, rest) => grammarFields m rest
    | none => none
  | _ => none

/-- Specification grammar: `command{N}`. -/
def grammarCommands : Nat → List Nat → Option (List Nat)
  | 0, buf => some buf
  | n + 1, buf =>
    match grammarCommand buf with
    | some rest => grammarCommands n rest
    | none => none

/-- Specification grammar: `array := '*' uint '\n' command{N}`. -/
def grammarArray : List Nat → Option (List Nat)
  | 42 :: buf =>
    match grammarUint buf with
    | some (n, rest) => grammarCommands n rest
    | none => none
  | _ => none

/-- The buffer begins with a string derived from the command-array grammar. -/
def BeginsWithArray (buf : List Nat) : Prop := (grammarArray buf).isSome = true

instance (buf : List Nat) : Decidable (BeginsWithArray buf) := by
  unfold BeginsWithArray; infer_instance

/-! ## The texts that the decoder accepts

The same grammar with `uint` read as zero or more decimal digits, taken
modulo `2 ^ 64`, and with an arbitrary byte after the data bytes of a
field. -/

/-- A field as the decoder reads it: the digits of the length, the data
bytes, and the byte that follows them. -/
structure LaxField where
  digits : List Nat
  bytes : List Nat
  last : Nat

/-- The text of a field. -/
def LaxField.render (f : LaxField) : List Nat :=
  36 :: (f.digits ++ 10 :: (f.bytes ++ [f.last]))

/-- The digits are decimal digits and denote the number of data bytes modulo
`2 ^ 64`. -/
def LaxField.Valid (f : LaxField) : Prop :=
  (∀ c ∈ f.digits, isDigit c) ∧ uintValue f.digits % 2 ^ 64 = f.bytes.length

/-- The concatenated texts of a list of fields. -/
def renderFields : List LaxField → List Nat
  | [] => []
  | f :: rest => f.render ++ renderFields rest

/-- A command as the decoder reads it: the digits of the argument count and
the fields. -/
structure LaxCommand where
  digits : List Nat
  fields : List LaxField

/-- The text of a command. -/
def LaxCommand.render (c : LaxCommand) : List Nat :=
  42 :: (c.digits ++ 10 :: renderFields c.fields)

/-- The digits denote the number of fields modulo `2 ^ 64`, which is not 0,
and every field is valid. -/
def LaxCommand.Valid (c : LaxCommand) : Prop :=
  (∀ d ∈ c.digits, isDigit d) ∧ uintValue c.digits % 2 ^ 64 = c.fields.length ∧
    c.fields ≠ [] ∧ ∀ f ∈ c.fields, f.Valid

/-- The arguments that a command carries. -/
def LaxCommand.argv (c : LaxCommand) : RaftRedisCommand := c.fields.map (fun f => f.bytes)

/-- The concatenated texts of a list of commands. -/
def renderCommands : List LaxCommand → List Nat
  | [] => []
  | c :: rest => c.render ++ renderCommands rest

/-- A command array as the decoder reads it. -/
structure LaxArray where
  digits : List Nat
  commands : List LaxCommand

/-- The text of a command array. -/
def LaxArray.render (t : LaxArray) : List Nat :=
  42 :: (t.digits ++ 10 :: renderCommands t.commands)

/-- The digits denote the number of commands modulo `2 ^ 64`, which is not 0,
and every command is valid. -/
def LaxArray.Valid (t : LaxArray) : Prop :=
  (∀ d ∈ t.digits, isDigit d) ∧ uintValue t.digits % 2 ^ 64 = t.commands.length ∧
    t.commands ≠ [] ∧ ∀ c ∈ t.commands, c.Valid

/-- The command array that the text carries. -/
def LaxArray.content (t : LaxArray) : RaftRedisCommandArray := t.commands.map (fun c => c.argv)

/-! ## `serialization.c`: key-lock format -/

/-- The lexicographic order of byte strings, in which a `RedisModuleDict` is
traversed from `"^"`. -/
def keyLt : List Nat → List Nat → Bool
  | [], [] => false
  | [], _ :: _ => true
  | _ :: _, [] => false
  | x :: xs, y :: ys => if x < y then true else if y < x then false else keyLt xs ys

/-- The keys of a dictionary in traversal order, with one more key, which is
not among them. -/
def dictInsert (key : List Nat) : List (List Nat) → List (List Nat)
  | [] => [key]
  | k :: ks => if keyLt key k then key :: k :: ks else k :: dictInsert key ks

/-- The host's `RedisModule_DictSet(keys, key, NULL)` on a dictionary held as
the list of its keys in traversal order: `REDISMODULE_OK` (`true`) and the key
added when it was absent, `REDISMODULE_ERR` (`false`) and no change when it
was present. -/
def RedisModule_DictSet (keys : List (List Nat)) (key : List Nat) :
    Bool × List (List Nat) :=
  if key ∈ keys then (false, keys) else (true, dictInsert key keys)

/-- The first loop of `RaftRedisLockKeysSerialize`, on the state
`(keys, total_key_size, num_keys)`. -/
def lockKeysCollect :
    List (List Nat) → List (List Nat) × Nat × Nat → List (List Nat) × Nat × Nat
  | [], st => st
  | arg :: rest, (keys, total_key_size, num_keys) =>
    if (RedisModule_DictSet keys arg).1 then
      lockKeysCollect rest
        ((RedisModule_DictSet keys arg).2, total_key_size + (arg.length + 1), num_keys + 1)
    else
      lockKeysCollect rest ((RedisModule_DictSet keys arg).2, total_key_size, num_keys)

/-- The `while` loop of `RaftRedisLockKeysSerialize` over the keys of the
dictionary: the bytes written and the value left in `total_key_size`, or
`none` when `RedisModule_Assert(total_key_size >= (key_len + 1))` fails. -/
def lockKeysWrite : List (List Nat) → Nat → Option (List Nat × Nat)
  | [], total_key_size => some ([], total_key_size)
  | key :: rest, total_key_size =>
    if total_key_size < key.length + 1 then none
    else
      match lockKeysWrite rest (total_key_size - (key.length + 1)) with
      | none => none
      | some (out, left) => some (key ++ [0] ++ out, left)

/-- The function `RaftRedisLockKeysSerialize`: `none` when an assertion
fails, otherwise the entry.  The size handed to `encodeInteger` is
`total_key_size`, as in the source. -/
def RaftRedisLockKeysSerialize (fill : Nat → Nat) (argv : List (List Nat)) :
    Option raft_entry_t :=
  match lockKeysCollect argv ([], 0, 0) with
  | (keys, total_key_size, num_keys) =>
    let ety := raft_entry_new fill (calcIntSerializedLen num_keys + total_key_size)
    match encodeInteger 42 total_key_size num_keys with
    | none => none
    | some hdr =>
      match lockKeysWrite keys total_key_size with
      | none => none
      | some (out, left) =>
        if left ≠ 0 then none
        else some { ety with data := hdr ++ out ++ ety.data.drop (hdr.length + out.length) }

/-! ## `redisraft.c`: requests and host calls -/

/-- The `msg_entry_response_t` that `raft_recv_entry` fills in. -/
structure msg_entry_response_t where
  id : Int
  term : Int
  idx : Int
deriving DecidableEq, Repr

/-- The members of a `raft_req_t` of type `RAFT_REQ_REDISCOMMAND` that the
commit queue reads: the blocked-client handle `client` and `r.raft`. -/
structure raft_req_t where
  client : Nat
  argv : List (List Nat)
  response : msg_entry_response_t
deriving DecidableEq, Repr

/-- The error texts that the command handlers reply with. -/
inductive ErrorReply where
  | invalid_source_node_id
  | invalid_message
  | retry
  | noleader
  | leaderis (host : List Nat) (port : Nat)
  | invalid_node_id
  | invalid_node_address
deriving DecidableEq, Repr

/-- The calls into the host (the `RedisModule_*` API) that the code makes, in
the order in which it makes them.  `Call argv` is `RedisModule_Call`, the
execution of a command against the data store; the other calls carry the
blocked-client handle they concern; `ModuleContextLock` and
`ModuleContextUnlock` are the lock calls on the module's own context
`redis_raft.ctx`. -/
inductive HostCall where
  | WrongArity
  | BlockClient (client : Nat)
  | GetThreadSafeContext (client : Nat)
  | ThreadSafeContextLock (client : Nat)
  | Call (argv : List (List Nat))
  | ThreadSafeContextUnlock (client : Nat)
  | ReplyWithCallReply (client : Nat)
  | ReplyWithError (client : Nat) (msg : ErrorReply)
  | FreeThreadSafeContext (client : Nat)
  | UnblockClient (client : Nat)
  | Free (client : Nat)
  | ModuleContextLock
  | ModuleContextUnlock
  | ReplyWithSimpleStringERROR (client : Nat)
deriving DecidableEq, Repr

/-! ## `redisraft.c`: commit queue -/

/-- The function `execute_committed_req`: the host calls it makes. -/
def execute_committed_req (req : raft_req_t) : List HostCall :=
  [HostCall.ThreadSafeContextLock req.client,
   HostCall.Call req.argv,
   HostCall.ThreadSafeContextUnlock req.client,
   HostCall.ReplyWithCallReply req.client,
   HostCall.FreeThreadSafeContext req.client,
   HostCall.UnblockClient req.client]

/-- The function `iterate_cqueue` on the commit queue `cqueue`: the host calls
made and the queue that is left.  `committed resp` is the value that the Raft
library's `raft_msg_entry_response_committed(redis_raft.raft, &resp)` returns
(1 committed, 0 not yet committed, -1 no longer valid); the library's state
does not change during the drain.  The C test `!x` holds when `x` is 0. -/
def iterate_cqueue (committed : msg_entry_response_t → Int) :
    List raft_req_t → List HostCall × List raft_req_t
  | [] => ([], [])
  | req :: rest =>
    if committed req.response = 0 then ([], req :: rest)
    else
      (execute_committed_req req ++ (iterate_cqueue committed rest).1,
       (iterate_cqueue committed rest).2)

/-- The host calls of executing the requests of a list one after the other. -/
def executeAll : List raft_req_t → List HostCall
  | [] => []
  | req :: rest => execute_committed_req req ++ executeAll rest

/-- The commands that a sequence of host calls executes against the data
store, in order. -/
def executedCommands : List HostCall → List (List (List Nat))
  | [] => []
  | HostCall.Call argv :: rest => argv :: executedCommands rest
  | _ :: rest => executedCommands rest

/-! ## `redisraft.c`: the RAFT.REQUESTVOTE handler -/

/-- The function `cmd_raft_requestvote`: the host calls it makes and whether
the request is handed to `enqueue_request`.  `client` is the handle that
`RedisModule_BlockClient` returns inside `raft_req_init`.  The helper
`rmstring_to_int` (not in the sources at hand) and the C library's `sscanf`
with `"%d:%d:%d:%d"` are parameters: each returns `none` when it fails.
`free_request` is `RedisModule_Free(req)` and nothing else. -/
def cmd_raft_requestvote (rmstring_to_int : List Nat → Option Int)
    (sscanf4 : List Nat → Option (Int × Int × Int × Int))
    (client : Nat) (argv : List (List Nat)) : List HostCall × Bool :=
  match argv with
  | [_, arg1, arg2] =>
    match rmstring_to_int arg1 with
    | none =>
      ([HostCall.BlockClient client, HostCall.GetThreadSafeContext client,
        HostCall.ReplyWithError client ErrorReply.invalid_source_node_id,
        HostCall.Free client], false)
    | some _ =>
      match sscanf4 arg2 with
      | none =>
        ([HostCall.BlockClient client, HostCall.GetThreadSafeContext client,
          HostCall.ReplyWithError client ErrorReply.invalid_message,
          HostCall.Free client], false)
      | some _ =>
        ([HostCall.BlockClient client, HostCall.GetThreadSafeContext client], true)
  | _ => ([HostCall.WrongArity], false)

/-- A reader of decimal numbers, used where an example needs a value for the
parameter `rmstring_to_int`: the value of a non-empty run of digits. -/
def readDecimal (s : List Nat) : Option Int :=
  if s ≠ [] ∧ ∀ c ∈ s, isDigit c then some (uintValue s : Int) else none

/-! ## `redisraft.c`: the argv-list format -/

/-- The object representation of an unsigned integer in `k` bytes, least
significant byte first (the native order of the x86-64 target). -/
def storeBytes : Nat → Nat → List Nat
  | 0, _ => []
  | k + 1, v => v % 256 :: storeBytes k (v / 256)

/-- The bytes stored by `*(size_t *)p = v`; `sizeof(size_t)` is 8. -/
def storeSize (v : Nat) : List Nat := storeBytes 8 (v % 2 ^ 64)

/-- The unsigned integer held in the first `k` bytes, least significant byte
first; `none` when fewer than `k` bytes are left. -/
def loadBytes : Nat → List Nat → Option Nat
  | 0, _ => some 0
  | _ + 1, [] => none
  | k + 1, b :: rest =>
    match loadBytes k rest with
    | none => none
    | some x => some (b + 256 * x)

/-- The value read by `*(size_t *)p`; `none` stands for a read outside the
buffer, which the code does not test for. -/
def loadSize (p : List Nat) : Option Nat := loadBytes 8 p

/-- A `raft_entry_data_t`: the buffer `buf` and its length `len`. -/
structure raft_entry_data_t where
  buf : List Nat
  len : Nat
deriving DecidableEq, Repr

/-- The loop `sz += len` of `serialize_argv`. -/
def argvBytes : List (List Nat) → Nat
  | [] => 0
  | d :: rest => d.length + argvBytes rest

/-- The loop of `serialize_argv` that stores the arguments. -/
def serializeArgs : List (List Nat) → List Nat
  | [] => []
  | d :: rest => storeSize d.length ++ d ++ serializeArgs rest

/-- The function `serialize_argv`, for `argc + 1` within `int`: the buffer of
`sz` bytes that it allocates and fills, and `len = sz`. -/
def serialize_argv (argv : List (List Nat)) : raft_entry_data_t :=
  { buf := storeSize argv.length ++ serializeArgs argv,
    len := 8 * (argv.length + 1) + argvBytes argv }

/-- The loop of `deserialize_argv` for the `argc` arguments still to read;
`none` stands for a read outside the buffer. -/
def deserializeArgvLoop : Nat → List Nat → Option (List (List Nat))
  | 0, _ => some []
  | argc + 1, p =>
    match loadSize p with
    | none => none
    | some len =>
      if (p.drop 8).length < len then none
      else
        match deserializeArgvLoop argc ((p.drop 8).drop len) with
        | none => none
        | some argv => some ((p.drop 8).take len :: argv)

/-- The function `deserialize_argv`: the `int` it returns and the strings it
stores in `*argv`; `none` stands for a read outside the buffer. -/
def deserialize_argv (source : raft_entry_data_t) : Option (Int × List (List Nat)) :=
  match loadSize source.buf with
  | none => none
  | some argc =>
    match deserializeArgvLoop argc (source.buf.drop 8) with
    | none => none
    | some argv => some (toInt argc, argv)

/-! ## `redisraft.c`: applying and submitting entries -/

/-- The entry types of the Raft library that the code names. -/
inductive raft_logtype where
  | RAFT_LOGTYPE_NORMAL
  | RAFT_LOGTYPE_DELETE_UNLOCK_KEYS
deriving DecidableEq, Repr

/-- The members of the entry (`raft_entry_t`, alias `msg_entry_t`, of
`redisraft.c`) that the code sets. -/
structure msg_entry_t where
  id : Int
  type : raft_logtype
  data : raft_entry_data_t
deriving DecidableEq, Repr

/-- The function `execute_log_entry`, which `__raft_applylog` calls for every
entry that the library applies: the host calls it makes; `none` when it reads
outside the entry data or `argv[0]` does not exist. -/
def execute_log_entry (entry : msg_entry_t) : Option (List HostCall) :=
  match deserialize_argv entry.data with
  | none => none
  | some (_, []) => none
  | some (_, cmd :: args) =>
    some [HostCall.ModuleContextLock, HostCall.Call (cmd :: args),
          HostCall.ModuleContextUnlock]

/-- A `node_addr_t`. -/
structure node_addr_t where
  host : List Nat
  port : Nat
deriving DecidableEq, Repr

/-- What `_cmd_raft` does: the host calls, the entry passed to
`raft_recv_entry` (if the call is made), and the commit queue afterwards. -/
structure CmdRaftOutcome where
  calls : List HostCall
  entry : Option msg_entry_t
  cqueue : List raft_req_t
deriving DecidableEq, Repr

/-- The decision of the function `_cmd_raft` (its effect on the links of the
queues is `cmd_raft_links` below).  `leader` is the node returned by
`raft_get_current_leader_node` (its id and the address in its user data),
`nodeid` the value of `raft_get_nodeid`, `rand` the value of `rand()`, and
`raft_recv_entry` the library call: its return value and the response it
stores in `req->r.raft.response`. -/
def _cmd_raft (leader : Option (Int × node_addr_t)) (nodeid : Int) (rand : Int)
    (raft_recv_entry : msg_entry_t → Int × msg_entry_response_t)
    (cqueue : List raft_req_t) (req : raft_req_t) : CmdRaftOutcome :=
  match leader with
  | none =>
    { calls := [HostCall.ReplyWithError req.client ErrorReply.noleader,
                HostCall.FreeThreadSafeContext req.client,
                HostCall.UnblockClient req.client],
      entry := none, cqueue := cqueue }
  | some (leader_id, addr) =>
    if leader_id ≠ nodeid then
      { calls := [HostCall.ReplyWithError req.client (ErrorReply.leaderis addr.host addr.port),
                  HostCall.FreeThreadSafeContext req.client,
                  HostCall.UnblockClient req.client],
        entry := none, cqueue := cqueue }
    else
      if (raft_recv_entry
            { id := rand, type := raft_logtype.RAFT_LOGTYPE_NORMAL,
              data := serialize_argv req.argv }).1 ≠ 0 then
        { calls := [HostCall.ReplyWithSimpleStringERROR req.client,
                    HostCall.FreeThreadSafeContext req.client,
                    HostCall.UnblockClient req.client],
          entry := some { id := rand, type := raft_logtype.RAFT_LOGTYPE_NORMAL,
                          data := serialize_argv req.argv },
          cqueue := cqueue }
      else
        { calls := [],
          entry := some { id := rand, type := raft_logtype.RAFT_LOGTYPE_NORMAL,
                          data := serialize_argv req.argv },
          cqueue := cqueue ++
            [{ req with response :=
                (raft_recv_entry
                  { id := rand, type := raft_logtype.RAFT_LOGTYPE_NORMAL,
                    data := serialize_argv req.argv }).2 }] }

/-! ## `redisraft.c`: the links of the request queue and the commit queue

Both queues are `STAILQ`s of `<sys/queue.h>` over the one link member
`entries` of `raft_req_t`.  A request is named by its address, a `Nat`. -/

/-- A `STAILQ_HEAD`: `stqh_first`, and `stqh_last`, the address of the last
link: `none` for `&head.stqh_first`, `some e` for `&e->entries.stqe_next`. -/
structure stailq_head where
  stqh_first : Option Nat
  stqh_last : Option Nat
deriving DecidableEq, Repr

/-- The memory that `handle_cmd` works on: `next e` is `e->entries.stqe_next`,
`rqueue` and `cqueue` are the two heads of `redis_raft`; `dispatched` records
the requests whose dispatch handler was invoked and `freed` the requests
passed to `raft_req_free`, both in order. -/
structure Links where
  next : Nat → Option Nat
  rqueue : stailq_head
  cqueue : stailq_head
  dispatched : List Nat
  freed : List Nat

/-- The state after `STAILQ_INIT` of both heads. -/
def Links.init : Links :=
  { next := fun _ => none,
    rqueue := { stqh_first := none, stqh_last := none },
    cqueue := { stqh_first := none, stqh_last := none },
    dispatched := [], freed := [] }

/-- The macro `STAILQ_INSERT_TAIL(head, elm, entries)`:
`elm->entries.stqe_next = NULL; *head->stqh_last = elm;
head->stqh_last = &elm->entries.stqe_next`. -/
def STAILQ_INSERT_TAIL (next : Nat → Option Nat) (head : stailq_head) (elm : Nat) :
    (Nat → Option Nat) × stailq_head :=
  match head.stqh_last with
  | none =>
    (fun x => if x = elm then none else next x,
     { stqh_first := some elm, stqh_last := some elm })
  | some l =>
    (fun x => if x = l then some elm else if x = elm then none else next x,
     { stqh_first := head.stqh_first, stqh_last := some elm })

/-- The macro `STAILQ_REMOVE_HEAD(head, entries)`:
`if ((head->stqh_first = head->stqh_first->entries.stqe_next) == NULL)
head->stqh_last = &head->stqh_first`.  It is used on a queue that is not
empty. -/
def STAILQ_REMOVE_HEAD (next : Nat → Option Nat) (head : stailq_head) : stailq_head :=
  match head.stqh_first with
  | none => head
  | some f =>
    match next f with
    | none => { stqh_first := none, stqh_last := none }
    | some n => { stqh_first := some n, stqh_last := head.stqh_last }

/-- The function `enqueue_request`: `STAILQ_INSERT_TAIL(&redis_raft.rqueue,
req, entries)` (and the wake-up signal). -/
def enqueue_request (st : Links) (req : Nat) : Links :=
  { st with next := (STAILQ_INSERT_TAIL st.next st.rqueue req).1,
            rqueue := (STAILQ_INSERT_TAIL st.next st.rqueue req).2 }

/-- The effect on the links of a run of `_cmd_raft` that reaches
`STAILQ_INSERT_TAIL(&redis_raft.cqueue, req, entries)`. -/
def cmd_raft_links (st : Links) (req : Nat) : Links :=
  { st with next := (STAILQ_INSERT_TAIL st.next st.cqueue req).1,
            cqueue := (STAILQ_INSERT_TAIL st.next st.cqueue req).2 }

/-- The function `handle_cmd`.  `enters req` tells whether the dispatch
handler of `req` is `_cmd_raft` and reaches the insertion into the commit
queue (the node is the leader and `raft_recv_entry` returns 0); the other
handlers do not touch the links.  `fuel` bounds the number of iterations;
`none` when it runs out. -/
def handle_cmd (enters : Nat → Bool) : Nat → Links → Option Links
  | 0, _ => none
  | fuel + 1, st =>
    match st.rqueue.stqh_first with
    | none => some st
    | some req =>
      handle_cmd enters fuel
        { next := (if enters req then cmd_raft_links st req else st).next,
          rqueue := STAILQ_REMOVE_HEAD (if enters req then cmd_raft_links st req else st).next
                      (if enters req then cmd_raft_links st req else st).rqueue,
          cqueue := (if enters req then cmd_raft_links st req else st).cqueue,
          dispatched := st.dispatched ++ [req],
          freed := st.freed ++ [req] }

/-- The requests linked from `first`, at most `fuel` of them. -/
def stailqList (next : Nat → Option Nat) : Nat → Option Nat → List Nat
  | 0, _ => []
  | _ + 1, none => []
  | fuel + 1, some e => e :: stailqList next fuel (next e)

/-- What a run of `handle_cmd` leaves: the requests dispatched, in order, the
contents of the request queue and of the commit queue, and the requests
freed. -/
def handle_cmd_result (enters : Nat → Bool) (fuel : Nat) (st : Links) :
    Option (List Nat × List Nat × List Nat × List Nat) :=
  match handle_cmd enters fuel st with
  | none => none
  | some st' =>
    some (st'.dispatched, stailqList st'.next fuel st'.rqueue.stqh_first,
          stailqList st'.next fuel st'.cqueue.stqh_first, st'.freed)

/-! ## `migrate.c` -/

/-- The reply types of hiredis. -/
inductive redis_reply_type where
  | REDIS_REPLY_STRING
  | REDIS_REPLY_ARRAY
  | REDIS_REPLY_INTEGER
  | REDIS_REPLY_NIL
  | REDIS_REPLY_STATUS
  | REDIS_REPLY_ERROR
deriving DecidableEq, Repr

/-- A `redisReply`: its `type` and the `len` bytes of `str`. -/
structure redisReply where
  type : redis_reply_type
  str : List Nat
deriving DecidableEq, Repr

/-- The members of `req->r.migrate_keys`: `keys` (`num_keys` is its length),
the parallel array `keys_serialized`, in which `none` is a `NULL` slot,
`num_serialized_keys` and `migrate_term`. -/
structure migrate_keys_t where
  keys : List (List Nat)
  keys_serialized : List (Option (List Nat))
  num_serialized_keys : Nat
  migrate_term : Nat
deriving DecidableEq, Repr

/-- The two error texts of `transferKeysResponse`:
`"ERR: Migrate failed importing keys into remote cluster, try again"` and
`"ERR: received unexpected response from remote cluster, see logs"`. -/
inductive MigrateError where
  | migrate_failed_try_again
  | unexpected_response
deriving DecidableEq, Repr

/-- The calls that the migration code makes, in order.  `raft_recv_entry`
carries the id, the type and the payload of the entry submitted. -/
inductive MigrateCall where
  | ConnMarkDisconnected
  | ConnAsyncTerminate
  | ReplyWithError (msg : MigrateError)
  | RaftReqFree
  | raft_recv_entry (id : Int) (type : raft_logtype) (entry : raft_entry_t)
  | replyRaftError (e : Int)
  | redisAsyncDisconnect
deriving DecidableEq, Repr

/-- The function `raftAppendRaftDeleteEntry`: `none` when
`RaftRedisLockKeysSerialize` stops on an assertion, otherwise the calls made.
`rand` is the value of `rand()` and `e` the value that `raft_recv_entry`
returns. -/
def raftAppendRaftDeleteEntry (fill : Nat → Nat) (rand e : Int) (req : migrate_keys_t) :
    Option (List MigrateCall) :=
  match RaftRedisLockKeysSerialize fill req.keys with
  | none => none
  | some entry =>
    if e ≠ 0 then
      some [MigrateCall.raft_recv_entry rand raft_logtype.RAFT_LOGTYPE_DELETE_UNLOCK_KEYS entry,
            MigrateCall.replyRaftError e, MigrateCall.RaftReqFree]
    else
      some [MigrateCall.raft_recv_entry rand raft_logtype.RAFT_LOGTYPE_DELETE_UNLOCK_KEYS entry]

/-- The function `transferKeysResponse`; `reply` is `none` for a `NULL`
reply.  With `reply->len == 2`, `strncmp(reply->str, "OK", 2)` is 0 exactly
when the two bytes are `O` and `K`. -/
def transferKeysResponse (fill : Nat → Nat) (rand e : Int) (req : migrate_keys_t)
    (reply : Option redisReply) : Option (List MigrateCall) :=
  match reply with
  | none => some [MigrateCall.ConnMarkDisconnected, MigrateCall.redisAsyncDisconnect]
  | some r =>
    if r.type = redis_reply_type.REDIS_REPLY_ERROR then
      some [MigrateCall.ConnAsyncTerminate,
            MigrateCall.ReplyWithError MigrateError.migrate_failed_try_again,
            MigrateCall.RaftReqFree, MigrateCall.redisAsyncDisconnect]
    else if r.type ≠ redis_reply_type.REDIS_REPLY_STATUS ∨ r.str.length ≠ 2 ∨
        r.str.take 2 ≠ [79, 75] then
      some [MigrateCall.ConnAsyncTerminate,
            MigrateCall.ReplyWithError MigrateError.unexpected_response,
            MigrateCall.RaftReqFree, MigrateCall.redisAsyncDisconnect]
    else
      match raftAppendRaftDeleteEntry fill rand e req with
      | none => none
      | some calls =>
        some (MigrateCall.ConnAsyncTerminate :: (calls ++ [MigrateCall.redisAsyncDisconnect]))

/-- The calls of a list that submit an entry to Raft. -/
def submittedEntries : List MigrateCall → List (raft_logtype × raft_entry_t)
  | [] => []
  | MigrateCall.raft_recv_entry _ type entry :: rest => (type, entry) :: submittedEntries rest
  | _ :: rest => submittedEntries rest

/-- A store into slot `i` of an array of `argv.length` slots; `none` for a
store outside the array. -/
def setSlot (argv : List (Option (List Nat))) (i : Nat) (v : List Nat) :
    Option (List (Option (List Nat))) :=
  if i < argv.length then some (argv.set i (some v)) else none

/-- The `for` loop of `transferKeys` from index `i` on, over the pairs
`(keys[i], keys_serialized[i])`.  A slot holds the `argv_len` bytes that
`redisAsyncCommandArgv` will send from it.  `none` stands for a store outside
the `argc` slots, or for a key with a NUL byte: `RedisModule_Strdup` copies
the key up to its first NUL while `argv_len` is the whole `key_len`. -/
def transferKeysLoop :
    Nat → List (List Nat × Option (List Nat)) → List (Option (List Nat)) →
      Option (List (Option (List Nat)))
  | _, [], argv => some argv
  | i, (_, none) :: rest, argv => transferKeysLoop (i + 1) rest argv
  | i, (key, some str) :: rest, argv =>
    if 0 ∈ key then none
    else
      match setSlot argv (3 + i * 2) key with
      | none => none
      | some argv1 =>
        match setSlot argv1 (3 + i * 2 + 1) str with
        | none => none
        | some argv2 => transferKeysLoop (i + 1) rest argv2

/-- The bytes of `"RAFT.IMPORT"`. -/
def RAFT_IMPORT : List Nat := [82, 65, 70, 84, 46, 73, 77, 80, 79, 82, 84]

/-- The argument vector that `transferKeys` hands to `redisAsyncCommandArgv`
on a connected link: `argc = 3 + num_serialized_keys * 2` slots from
`RedisModule_Calloc` (`none` is a `NULL` slot), `argv[0]`, `argv[1]` (the term
printed with `%ld`), `argv[2]` (allocated, with `argv_len[2]` left at 0), and
the slots stored by the loop. -/
def transferKeysArgv (req : migrate_keys_t) : Option (List (Option (List Nat))) :=
  transferKeysLoop 0 (List.zip req.keys req.keys_serialized)
    (some RAFT_IMPORT :: some (decimal req.migrate_term) :: some [] ::
      List.replicate (req.num_serialized_keys * 2) none)

/-- The names and dump payloads of a list of keys, each name followed by its
payload. -/
def importPairs : List (List Nat × List Nat) → List (List Nat)
  | [] => []
  | p :: rest => p.1 :: p.2 :: importPairs rest

/-- The bytes that the keys of a list take in the key-lock format: each key
and its NUL byte. -/
def keysSize : List (List Nat) → Nat
  | [] => 0
  | k :: rest => k.length + 1 + keysSize rest

/-- The keys of a list, each followed by a NUL byte. -/
def keysBytes : List (List Nat) → List Nat
  | [] => []
  | k :: rest => k ++ [0] ++ keysBytes rest

/-! ## `redisraft.c`: node ids -/

/-- The members of an AddNode request: the blocked-client handle (`none` when
`raft_req_init` is called with a `NULL` context) and `r.addnode`. -/
structure addnode_req_t where
  client : Option Nat
  id : Int
  addr : node_addr_t
deriving DecidableEq, Repr

/-- The macro `VALID_NODE_ID(x)`: `((x) > 0)`. -/
def VALID_NODE_ID (x : Int) : Bool := decide (x > 0)

/-- The function `cmd_raft_addnode`: the host calls it makes and the request
it hands to `enqueue_request`, if any.  `client` is the calling client.  The
host's `RedisModule_StringToLongLong` and the helper `parse_node_addr` (not in
the sources at hand) are parameters that return `none` when they fail.  The
declaration of `r.addnode.id` is not in the sources at hand either: the
member is taken to hold `node_id` as it is. -/
def cmd_raft_addnode (StringToLongLong : List Nat → Option Int)
    (parse_node_addr : List Nat → Option node_addr_t)
    (client : Nat) (argv : List (List Nat)) : List HostCall × Option addnode_req_t :=
  match argv with
  | [_, arg1, arg2] =>
    match StringToLongLong arg1 with
    | none => ([HostCall.ReplyWithError client ErrorReply.invalid_node_id], none)
    | some node_id =>
      if ¬ VALID_NODE_ID node_id then
        ([HostCall.ReplyWithError client ErrorReply.invalid_node_id], none)
      else
        match parse_node_addr arg2 with
        | none => ([HostCall.ReplyWithError client ErrorReply.invalid_node_address], none)
        | some node_addr =>
          ([HostCall.BlockClient client, HostCall.GetThreadSafeContext client],
           some { client := some client, id := node_id, addr := node_addr })
  | _ => ([HostCall.WrongArity], none)

/-- The loop of `RedisModule_OnLoad` over the peer arguments `argv[1 ..]`: the
status and the requests handed to `enqueue_request` so far (`true` is
`REDISMODULE_OK`).  `memchr(tmpstr, ':', tmplen)` splits the argument at its
first colon; `none` stands for an argument without a colon, where
`colon - tmpstr` is not defined.  `strtoul` is the C library function applied
to the text before the colon, its result converted to `int`. -/
def onLoadPeers (strtoul : List Nat → Nat)
    (parse_node_addr : List Nat → Option node_addr_t) :
    List (List Nat) → List addnode_req_t → Option (Bool × List addnode_req_t)
  | [], enqueued => some (true, enqueued)
  | arg :: rest, enqueued =>
    if 58 ∉ arg then none
    else
      match parse_node_addr ((arg.dropWhile (fun c => decide (c ≠ 58))).drop 1) with
      | none => some (false, enqueued)
      | some node_addr =>
        onLoadPeers strtoul parse_node_addr rest
          (enqueued ++
            [{ client := none,
               id := toInt (strtoul (arg.takeWhile (fun c => decide (c ≠ 58)))),
               addr := node_addr }])

/-- The function `RedisModule_OnLoad`: the status it returns and the AddNode
requests it enqueues.  `module_ok` tells whether `RedisModule_Init` succeeds,
`setup_ok` whether the four `RedisModule_CreateCommand` calls and
`redis_raft_init` succeed. -/
def RedisModule_OnLoad (StringToLongLong : List Nat → Option Int)
    (strtoul : List Nat → Nat) (parse_node_addr : List Nat → Option node_addr_t)
    (module_ok setup_ok : Bool) (argv : List (List Nat)) :
    Option (Bool × List addnode_req_t) :=
  if ¬ module_ok then some (false, [])
  else
    match argv with
    | [] => some (false, [])
    | arg0 :: peers =>
      match StringToLongLong arg0 with
      | none => some (false, [])
      | some id =>
        if id ≤ 0 then some (false, [])
        else if ¬ setup_ok then some (false, [])
        else onLoadPeers strtoul parse_node_addr peers []

/-- A reading of `strtoul(s, NULL, 10)` on texts that begin with a digit or
hold none, used where an example needs a value for the parameter `strtoul`:
the value of the leading run of decimal digits, 0 when there is none. -/
def readLeadingDigits (s : List Nat) : Nat :=
  uintValue (s.takeWhile (fun c => decide (isDigit c)))

/-! ## `serialization_utils.c` -/

namespace Utils

/-- The `calcIntSerializedLen` of `serialization_utils.c`. -/
def calcIntSerializedLen (val : Nat) : Nat :=
  if val < 10 then 3
  else if val < 100 then 4
  else if val < 1000 then 5
  else if val < 10000 then 6
  else if val < 100000 then 7
  else if val < 1000000 then 8
  else if val < 10000000 then 9
  else if val < 100000000 then 10
  else if val < 1000000000 then 11
  else if val < 10000000000 then 12
  else if val < 100000000000 then 13
  else if val < 1000000000000 then 14
  else if val < 10000000000000 then 15
  else if val < 100000000000000 then 16
  else if val < 1000000000000000 then 17
  else if val < 10000000000000000 then 18
  else if val < 100000000000000000 then 19
  else if val < 1000000000000000000 then 20
  else if val < 10000000000000000000 then 21
  else 22

/-- The function `calcSerializeStringSize`; `none` is a `NULL` string. -/
def calcSerializeStringSize (str : Option (List Nat)) : Nat :=
  match str with
  | some s => calcIntSerializedLen s.length + s.length + 1
  | none => calcIntSerializedLen 0 + 0 + 1

/-- The function `encodeString` with `sz` bytes left: `none` for `-1`,
otherwise the `int` returned and the bytes written.  Its `encodeInteger` has
the statements of the one of `serialization.c`.  When `encodeInteger`
succeeds `n` is below `sz`, so `sz -= n` does not wrap. -/
def encodeString (sz : Nat) (str : Option (List Nat)) : Option (Int × List Nat) :=
  match encodeInteger 36 sz (str.getD []).length with
  | none => none
  | some hdr =>
    if (str.getD []).length ≥ sz - hdr.length then none
    else some (toInt (hdr.length + (str.getD []).length + 1), hdr ++ str.getD [] ++ [10])

/-- The function `decodeString` on the `sz` bytes of `buf`: `none` for `-1`,
otherwise the `int` returned and the string created. -/
def decodeString (buf : List Nat) : Option (Int × List Nat) :=
  match decodeInteger buf 36 with
  | none => none
  | some (n, len) =>
    if len ≥ (buf.drop n).length then none
    else some (toInt (n + len + 1), (buf.drop n).take len)

end Utils

/-! ## `serialization.c`: reading the key-lock format -/

/-- The loop of `RaftRedisLockKeysDeserialize` for the `num_keys` keys still
to read.  `strlen(p)` is the number of bytes before the first NUL; `none`
stands for a buffer with no NUL left, where `strlen` reads outside it. -/
def lockKeysRead : Nat → List Nat → Option (List (List Nat))
  | 0, _ => some []
  | num_keys + 1, p =>
    if 0 ∉ p then none
    else
      match lockKeysRead num_keys
          (p.drop ((p.takeWhile (fun c => decide (c ≠ 0))).length + 1)) with
      | none => none
      | some keys => some (p.takeWhile (fun c => decide (c ≠ 0)) :: keys)

/-- The function `RaftRedisLockKeysDeserialize`: the value stored in
`*num_keys` and the strings returned; `none` for the `NULL` result (and for a
read outside the buffer).  The test `!num_keys` is on the pointer, which the
callers do not pass as `NULL`. -/
def RaftRedisLockKeysDeserialize (buf : List Nat) : Option (Nat × List (List Nat)) :=
  match decodeInteger buf 42 with
  | none => none
  | some (n, num_keys) =>
    match lockKeysRead num_keys (buf.drop n) with
    | none => none
    | some keys => some (num_keys, keys)

/-! # Theorems -/

/-! ## Facts about `decimal` -/

theorem decimalFuel_congr (f1 : Nat) :
    ∀ (f2 n : Nat), n < f1 → n < f2 → decimalFuel f1 n = decimalFuel f2 n := by
  induction f1 with
  | zero => intro f2 n h; omega
  | succ f1 ih =>
    intro f2 n h1 h2
    cases f2 with
    | zero => omega
    | succ f2 =>
      simp only [decimalFuel]
      by_cases h : n < 10
      · simp [h]
      · simp only [h, if_false]
        rw [ih f2 (n / 10) (by omega) (by omega)]

theorem decimal_unfold (n : Nat) :
    decimal n = if n < 10 then [48 + n] else decimal (n / 10) ++ [48 + n % 10] := by
  have step : decimalFuel (n + 1) n =
      if n < 10 then [48 + n] else decimalFuel n (n / 10) ++ [48 + n % 10] := rfl
  unfold decimal
  rw [step]
  by_cases h : n < 10
  · simp [h]
  · simp only [h, if_false]
    rw [decimalFuel_congr n (n / 10 + 1) (n / 10) (by omega) (by omega)]

theorem decimal_small {n : Nat} (h : n < 10) : decimal n = [48 + n] := by
  rw [decimal_unfold, if_pos h]

theorem decimal_large {n : Nat} (h : ¬ n < 10) :
    decimal n = decimal (n / 10) ++ [48 + n % 10] := by
  rw [decimal_unfold, if_neg h]

theorem decimal_isDigit (n : Nat) : ∀ c ∈ decimal n, isDigit c := by
  induction n using Nat.strong_induction_on with
  | _ n ih =>
    intro c hc
    by_cases h : n < 10
    · rw [decimal_small h] at hc
      simp at hc
      unfold isDigit; omega
    · rw [decimal_large h] at hc
      rcases List.mem_append.1 hc with hc | hc
      · exact ih (n / 10) (by omega) c hc
      · simp at hc
        unfold isDigit; omega

theorem decimal_length_pos (n : Nat) : 1 ≤ (decimal n).length := by
  by_cases h : n < 10
  · rw [decimal_small h]; simp
  · rw [decimal_large h]; simp

theorem decimal_length_le (k : Nat) :
    ∀ n : Nat, n < 10 ^ (k + 1) → (decimal n).length ≤ k + 1 := by
  induction k with
  | zero => intro n h; rw [decimal_small (by simpa using h)]; simp
  | succ k ih =>
    intro n h
    by_cases h10 : n < 10
    · rw [decimal_small h10]; simp
    · rw [decimal_large h10]
      have : n / 10 < 10 ^ (k + 1) := by
        rw [Nat.div_lt_iff_lt_mul (by decide)]
        calc n < 10 ^ (k + 1 + 1) := h
          _ = 10 ^ (k + 1) * 10 := by ring
      have := ih (n / 10) this
      simp; omega

theorem decVal_append (tmp : Nat) (xs ys : List Nat) :
    decVal tmp (xs ++ ys) = decVal (decVal tmp xs) ys := by
  simp [decVal, List.foldl_append]

theorem decVal_decimal (n : Nat) : decVal 0 (decimal n) = n % 2 ^ 64 := by
  induction n using Nat.strong_induction_on with
  | _ n ih =>
    by_cases h : n < 10
    · rw [decimal_small h]
      simp [decVal]
    · rw [decimal_large h, decVal_append, ih (n / 10) (by omega)]
      simp only [decVal, List.foldl_cons, List.foldl_nil]
      have e : 48 + n % 10 - 48 = n % 10 := by omega
      rw [e]
      omega

theorem decimal_length_ge (k : Nat) :
    ∀ n : Nat, 10 ^ k ≤ n → k + 1 ≤ (decimal n).length := by
  induction k with
  | zero => intro n _; exact decimal_length_pos n
  | succ k ih =>
    intro n h
    have h10 : ¬ n < 10 := by
      have : 10 ^ 1 ≤ 10 ^ (k + 1) := Nat.pow_le_pow_right (by decide) (by omega)
      omega
    rw [decimal_large h10]
    have : 10 ^ k ≤ n / 10 := by
      rw [Nat.le_div_iff_mul_le (by decide)]
      calc 10 ^ k * 10 = 10 ^ (k + 1) := by ring
        _ ≤ n := h
    have := ih (n / 10) this
    simp; omega

/-! ## Facts about `decodeInteger` -/

theorem isDigit_ne_newline {c : Nat} (h : isDigit c) : c ≠ 10 := by
  unfold isDigit at h; omega

theorem decodeIntegerLoop_digits (ds : List Nat) (hds : ∀ c ∈ ds, isDigit c) :
    ∀ (rest : List Nat) (tmp len : Nat),
      decodeIntegerLoop (ds ++ 10 :: rest) tmp len
        = some (len + ds.length + 1, decVal tmp ds) := by
  induction ds with
  | nil => intro rest tmp len; simp [decodeIntegerLoop, decVal]
  | cons c ds ih =>
    intro rest tmp len
    have hc : isDigit c := hds c (List.mem_cons_self _ _)
    have hne : c ≠ 10 := isDigit_ne_newline hc
    have hrange : ¬ (c < 48 ∨ c > 57) := by unfold isDigit at hc; omega
    have hlen : ¬ (ds ++ 10 :: rest).length = 0 := by simp
    rw [List.cons_append, decodeIntegerLoop]
    simp only [hne, hrange, hlen, if_false]
    rw [ih (fun x hx => hds x (List.mem_cons_of_mem _ hx))]
    simp only [decVal, List.foldl_cons, List.length_cons]
    congr 2
    omega

theorem decodeInteger_digits (pfx : Nat) (ds rest : List Nat)
    (hds : ∀ c ∈ ds, isDigit c) (hlen : 3 ≤ (pfx :: (ds ++ 10 :: rest)).length) :
    decodeInteger (pfx :: (ds ++ 10 :: rest)) pfx = some (ds.length + 2, decVal 0 ds) := by
  have h3 : ¬ ((pfx :: (ds ++ 10 :: rest)).length < 3 ∨ pfx ≠ pfx) := by
    simp only [ne_eq, not_true_eq_false, or_false]; omega
  rw [decodeInteger]
  simp only [h3, if_false]
  rw [decodeIntegerLoop_digits ds hds]
  congr 2
  omega

theorem encUint_length (pfx v : Nat) : (encUint pfx v).length = (decimal v).length + 2 := by
  simp [encUint]

theorem decodeInteger_encUint (pfx v : Nat) (rest : List Nat) :
    decodeInteger (encUint pfx v ++ rest) pfx
      = some ((encUint pfx v).length, v % 2 ^ 64) := by
  have hl := decimal_length_pos v
  have e : encUint pfx v ++ rest = pfx :: (decimal v ++ 10 :: rest) := by
    simp [encUint]
  rw [e, decodeInteger_digits pfx (decimal v) rest (decimal_isDigit v)
    (by simp; omega), decVal_decimal, encUint_length]

/-! ## The decoder on grammar encodings -/

theorem deserializeArgs_encFields (args : List (List Nat))
    (hargs : ∀ arg ∈ args, arg.length < 2 ^ 64) :
    ∀ rest : List Nat,
      deserializeArgs args.length (encFields args ++ rest) = some (args, rest) := by
  induction args with
  | nil => intro rest; simp [deserializeArgs, encFields]
  | cons arg args ih =>
    intro rest
    have harg : arg.length < 2 ^ 64 := hargs arg (List.mem_cons_self _ _)
    have e : encFields (arg :: args) ++ rest
        = encUint 36 arg.length ++ (arg ++ 10 :: (encFields args ++ rest)) := by
      simp [encFields, encField]
    rw [List.length_cons, deserializeArgs, e, decodeInteger_encUint]
    simp only [List.drop_left, Nat.mod_eq_of_lt harg]
    have hlen : ¬ (arg ++ 10 :: (encFields args ++ rest)).length ≤ arg.length := by
      simp
    simp only [hlen, if_false]
    have hd : List.drop (arg.length + 1) (arg ++ 10 :: (encFields args ++ rest))
        = encFields args ++ rest := by
      rw [← List.drop_drop, List.drop_left]
      rfl
    rw [hd, ih (fun x hx => hargs x (List.mem_cons_of_mem _ hx)), List.take_left]

theorem encCommand_length (cmd : RaftRedisCommand) :
    (encCommand cmd).length = (encUint 42 cmd.length).length + (encFields cmd).length := by
  simp [encCommand]

theorem RaftRedisCommandDeserialize_encCommand (cmd : RaftRedisCommand) (hne : cmd ≠ [])
    (hargc : cmd.length < 2 ^ 64) (hargs : ∀ arg ∈ cmd, arg.length < 2 ^ 64)
    (rest : List Nat) :
    RaftRedisCommandDeserialize (encCommand cmd ++ rest)
      = some (cmd, (encCommand cmd).length) := by
  have e : encCommand cmd ++ rest = encUint 42 cmd.length ++ (encFields cmd ++ rest) := by
    simp [encCommand]
  have h0 : ¬ cmd.length = 0 := by
    intro h; exact hne (List.length_eq_zero.1 h)
  rw [RaftRedisCommandDeserialize, e, decodeInteger_encUint]
  simp only [Nat.mod_eq_of_lt hargc, h0, if_false, List.drop_left]
  rw [deserializeArgs_encFields cmd hargs]
  simp only [List.length_append, encCommand_length]
  congr 2
  omega

theorem deserializeCommands_encCommands (cmds : List RaftRedisCommand)
    (hcmds : ∀ cmd ∈ cmds, cmd ≠ [] ∧ cmd.length < 2 ^ 64 ∧ ∀ arg ∈ cmd, arg.length < 2 ^ 64) :
    ∀ rest : List Nat,
      deserializeCommands cmds.length (encCommands cmds ++ rest) = some (cmds, rest) := by
  induction cmds with
  | nil => intro rest; simp [deserializeCommands, encCommands]
  | cons cmd cmds ih =>
    intro rest
    obtain ⟨hne, hargc, hargs⟩ := hcmds cmd (List.mem_cons_self _ _)
    have e : encCommands (cmd :: cmds) ++ rest
        = encCommand cmd ++ (encCommands cmds ++ rest) := by
      simp [encCommands]
    rw [List.length_cons, deserializeCommands, e,
      RaftRedisCommandDeserialize_encCommand cmd hne hargc hargs]
    simp only [List.drop_left]
    rw [ih (fun x hx => hcmds x (List.mem_cons_of_mem _ hx))]

theorem RaftRedisCommandArrayDeserialize_encArray (a : RaftRedisCommandArray)
    (hwf : WellFormed a) (hfit : Fits a) (rest : List Nat) :
    RaftRedisCommandArrayDeserialize (encArray a ++ rest) = some a := by
  have e : encArray a ++ rest = encUint 42 a.length ++ (encCommands a ++ rest) := by
    simp [encArray]
  have h0 : ¬ a.length = 0 := by
    intro h; exact hwf.1 (List.length_eq_zero.1 h)
  rw [RaftRedisCommandArrayDeserialize, e, decodeInteger_encUint]
  simp only [Nat.mod_eq_of_lt hfit.1, h0, if_false, List.drop_left]
  rw [deserializeCommands_encCommands a
    (fun cmd hc => ⟨hwf.2 cmd hc, (hfit.2 cmd hc).1, (hfit.2 cmd hc).2⟩)]

/-! ## Facts about the reserved sizes -/

theorem toInt_of_lt {sz : Nat} (h : sz < 2 ^ 31) : toInt sz = (sz : Int) := by
  have h1 : sz % 2 ^ 32 = sz := Nat.mod_eq_of_lt (by omega)
  unfold toInt
  rw [h1, if_pos h]

theorem encUint_length_le_calc (pfx : Nat) {v : Nat} (h : v < 2 ^ 64) :
    (encUint pfx v).length ≤ calcIntSerializedLen v := by
  rw [encUint_length]
  unfold calcIntSerializedLen
  have h20 := decimal_length_le 19 v (by omega)
  split_ifs with h1 h2 h3 h4 h5 h6 h7
  · have := decimal_length_le 0 v (by omega); omega
  · have := decimal_length_le 1 v (by omega); omega
  · have := decimal_length_le 2 v (by omega); omega
  · have := decimal_length_le 3 v (by omega); omega
  · have := decimal_length_le 4 v (by omega); omega
  · have := decimal_length_le 5 v (by omega); omega
  · have := decimal_length_le 6 v (by omega); omega
  · omega

theorem encUint_length_eq_calc (pfx : Nat) {v : Nat} (h : v < 10 ^ 7) :
    (encUint pfx v).length = calcIntSerializedLen v := by
  rw [encUint_length]
  unfold calcIntSerializedLen
  split_ifs with h1 h2 h3 h4 h5 h6 h7
  · have := decimal_length_le 0 v (by omega); have := decimal_length_pos v; omega
  · have := decimal_length_le 1 v (by omega); have := decimal_length_ge 1 v (by omega); omega
  · have := decimal_length_le 2 v (by omega); have := decimal_length_ge 2 v (by omega); omega
  · have := decimal_length_le 3 v (by omega); have := decimal_length_ge 3 v (by omega); omega
  · have := decimal_length_le 4 v (by omega); have := decimal_length_ge 4 v (by omega); omega
  · have := decimal_length_le 5 v (by omega); have := decimal_length_ge 5 v (by omega); omega
  · have := decimal_length_le 6 v (by omega); have := decimal_length_ge 6 v (by omega); omega
  · omega

theorem calcIntSerializedLen_ge (v : Nat) : 3 ≤ calcIntSerializedLen v := by
  unfold calcIntSerializedLen
  split_ifs <;> omega

theorem calcIntSerializedLen_cases (v : Nat) :
    (v < 10 ∧ calcIntSerializedLen v = 3) ∨
    (10 ≤ v ∧ v < 100 ∧ calcIntSerializedLen v = 4) ∨
    (100 ≤ v ∧ v < 1000 ∧ calcIntSerializedLen v = 5) ∨
    (1000 ≤ v ∧ v < 10000 ∧ calcIntSerializedLen v = 6) ∨
    (10000 ≤ v ∧ v < 100000 ∧ calcIntSerializedLen v = 7) ∨
    (100000 ≤ v ∧ v < 1000000 ∧ calcIntSerializedLen v = 8) ∨
    (1000000 ≤ v ∧ v < 10000000 ∧ calcIntSerializedLen v = 9) ∨
    (10000000 ≤ v ∧ calcIntSerializedLen v = 22) := by
  unfold calcIntSerializedLen
  by_cases h1 : v < 10
  · rw [if_pos h1]; omega
  rw [if_neg h1]
  by_cases h2 : v < 100
  · rw [if_pos h2]; omega
  rw [if_neg h2]
  by_cases h3 : v < 1000
  · rw [if_pos h3]; omega
  rw [if_neg h3]
  by_cases h4 : v < 10000
  · rw [if_pos h4]; omega
  rw [if_neg h4]
  by_cases h5 : v < 100000
  · rw [if_pos h5]; omega
  rw [if_neg h5]
  by_cases h6 : v < 1000000
  · rw [if_pos h6]; omega
  rw [if_neg h6]
  by_cases h7 : v < 10000000
  · rw [if_pos h7]; omega
  rw [if_neg h7]
  omega

theorem calcIntSerializedLen_succ (v : Nat) :
    calcIntSerializedLen v ≤ calcIntSerializedLen (v + 1) := by
  have h1 := calcIntSerializedLen_cases v
  have h2 := calcIntSerializedLen_cases (v + 1)
  omega

theorem encodeInteger_ok (pfx : Nat) {sz v : Nat} (hv : v < 2 ^ 64)
    (hlen : (encUint pfx v).length < sz) (hsz : sz < 2 ^ 31) :
    encodeInteger pfx sz v = some (encUint pfx v) := by
  unfold encodeInteger
  rw [Nat.mod_eq_of_lt hv, toInt_of_lt hsz]
  have : ¬ ((sz : Int) ≤ ((pfx :: (decimal v ++ [10])).length : Int)) := by
    have e : (pfx :: (decimal v ++ [10])).length = (encUint pfx v).length := rfl
    rw [e]; omega
  simp only [this, if_false]
  rfl

theorem encFields_cons_length (arg : List Nat) (rest : List (List Nat)) :
    (encFields (arg :: rest)).length
      = (encUint 36 arg.length).length + arg.length + 1 + (encFields rest).length := by
  simp [encFields, encField]
  omega

theorem encodeArgs_ok (args : List (List Nat)) :
    ∀ sz : Nat, argsSize args ≤ sz → sz < 2 ^ 31 →
      encodeArgs args sz = some (encFields args, sz - (encFields args).length) ∧
        (encFields args).length ≤ argsSize args := by
  induction args with
  | nil => intro sz _ _; simp [encodeArgs, encFields, argsSize]
  | cons arg args ih =>
    intro sz hsz h31
    have hcalc := calcIntSerializedLen_ge arg.length
    simp only [argsSize] at hsz ⊢
    have hv : arg.length < 2 ^ 64 := by omega
    have hhdr := encUint_length_le_calc 36 hv
    have hguard : ¬ sz ≤ arg.length := by omega
    obtain ⟨ihe, ihl⟩ := ih (sz - (encUint 36 arg.length).length - (arg.length + 1))
      (by omega) (by omega)
    rw [encodeArgs]
    simp only [hguard, if_false]
    rw [encodeInteger_ok 36 hv (by omega) h31]
    simp only [ihe]
    rw [encFields_cons_length]
    refine ⟨?_, by omega⟩
    have e1 : encUint 36 arg.length ++ arg ++ [10] ++ encFields args
        = encFields (arg :: args) := rfl
    have e2 : sz - (encUint 36 arg.length).length - (arg.length + 1) - (encFields args).length
        = sz - ((encUint 36 arg.length).length + arg.length + 1 + (encFields args).length) := by
      omega
    rw [e1, e2]

theorem argsSize_pos {args : List (List Nat)} (h : args ≠ []) : 1 ≤ argsSize args := by
  cases args with
  | nil => exact absurd rfl h
  | cons arg rest => simp only [argsSize]; omega

theorem encCommands_cons_length (cmd : RaftRedisCommand) (rest : List RaftRedisCommand) :
    (encCommands (cmd :: rest)).length
      = (encUint 42 cmd.length).length + (encFields cmd).length + (encCommands rest).length := by
  simp [encCommands, encCommand]
  omega

theorem encodeCommands_ok (cmds : List RaftRedisCommand) (hne : ∀ cmd ∈ cmds, cmd ≠ []) :
    ∀ sz : Nat, commandsSize cmds ≤ sz → sz < 2 ^ 31 →
      encodeCommands cmds sz = some (encCommands cmds, sz - (encCommands cmds).length) ∧
        (encCommands cmds).length ≤ commandsSize cmds := by
  induction cmds with
  | nil => intro sz _ _; simp [encodeCommands, encCommands, commandsSize]
  | cons cmd cmds ih =>
    intro sz hsz h31
    simp only [commandsSize, calcSerializedSize] at hsz ⊢
    have hpos := argsSize_pos (hne cmd (List.mem_cons_self _ _))
    have hcalc := calcIntSerializedLen_ge (cmd.length + 1)
    have hv : cmd.length < 2 ^ 64 := by
      have : cmd.length < 2 ^ 31 ∨ 2 ^ 31 ≤ cmd.length := by omega
      rcases this with h | h
      · omega
      · have := List.length_pos.2 (hne cmd (List.mem_cons_self _ _))
        have hs : ∀ l : List (List Nat), l.length ≤ argsSize l := by
          intro l
          induction l with
          | nil => simp [argsSize]
          | cons x xs ihx => simp only [argsSize, List.length_cons]; omega
        have := hs cmd
        omega
    have hhdr := encUint_length_le_calc 42 hv
    have hmono := calcIntSerializedLen_succ cmd.length
    obtain ⟨hae, hal⟩ := encodeArgs_ok cmd (sz - (encUint 42 cmd.length).length)
      (by omega) (by omega)
    obtain ⟨ihe, ihl⟩ := ih (fun x hx => hne x (List.mem_cons_of_mem _ hx))
      (sz - (encUint 42 cmd.length).length - (encFields cmd).length) (by omega) (by omega)
    rw [encodeCommands, encodeInteger_ok 42 hv (by omega) h31]
    simp only [hae, ihe]
    rw [encCommands_cons_length]
    refine ⟨?_, by omega⟩
    have e1 : encUint 42 cmd.length ++ encFields cmd ++ encCommands cmds
        = encCommands (cmd :: cmds) := rfl
    have e2 : sz - (encUint 42 cmd.length).length - (encFields cmd).length
          - (encCommands cmds).length
        = sz - ((encUint 42 cmd.length).length + (encFields cmd).length
          + (encCommands cmds).length) := by
      omega
    rw [e1, e2]

theorem length_le_argsSize (args : List (List Nat)) : args.length ≤ argsSize args := by
  induction args with
  | nil => simp [argsSize]
  | cons x xs ih => simp only [argsSize, List.length_cons]; omega

theorem length_lt_argsSize {args : List (List Nat)} {arg : List Nat} (h : arg ∈ args) :
    arg.length < argsSize args := by
  induction args with
  | nil => cases h
  | cons x xs ih =>
    simp only [argsSize]
    rcases List.mem_cons.1 h with h | h
    · subst h; omega
    · have := ih h; omega

theorem length_le_commandsSize (cmds : List RaftRedisCommand) :
    cmds.length ≤ commandsSize cmds := by
  induction cmds with
  | nil => simp [commandsSize]
  | cons x xs ih =>
    have := calcIntSerializedLen_ge (x.length + 1)
    simp only [commandsSize, calcSerializedSize, List.length_cons]; omega

theorem calcSerializedSize_le_commandsSize {cmds : List RaftRedisCommand}
    {cmd : RaftRedisCommand} (h : cmd ∈ cmds) :
    calcSerializedSize cmd ≤ commandsSize cmds := by
  induction cmds with
  | nil => cases h
  | cons x xs ih =>
    simp only [commandsSize]
    rcases List.mem_cons.1 h with h | h
    · subst h; omega
    · have := ih h; omega

theorem fits_of_serializedSize {a : RaftRedisCommandArray} {bound : Nat}
    (h : serializedSize a < bound) (hb : bound ≤ 2 ^ 64) : Fits a := by
  unfold serializedSize at h
  refine ⟨?_, ?_⟩
  · have := length_le_commandsSize a; omega
  · intro cmd hc
    have h1 := calcSerializedSize_le_commandsSize hc
    unfold calcSerializedSize at h1
    refine ⟨?_, ?_⟩
    · have := length_le_argsSize cmd; omega
    · intro arg ha
      have := length_lt_argsSize ha; omega

theorem RaftRedisCommandArraySerialize_ok (fill : Nat → Nat) (a : RaftRedisCommandArray)
    (hwf : WellFormed a) (h31 : serializedSize a < 2 ^ 31) :
    RaftRedisCommandArraySerialize fill a
        = some { data_len := serializedSize a,
                 data := encArray a ++
                   ((List.range (serializedSize a)).map fill).drop (encArray a).length } ∧
      (encArray a).length ≤ serializedSize a := by
  have hfit : Fits a := fits_of_serializedSize h31 (by omega)
  have hhdr := encUint_length_le_calc 42 hfit.1
  have hpos : 1 ≤ commandsSize a := by
    have := length_le_commandsSize a
    have := List.length_pos.2 hwf.1
    omega
  have hsz : serializedSize a = calcIntSerializedLen a.length + commandsSize a := rfl
  obtain ⟨hce, hcl⟩ := encodeCommands_ok a hwf.2
    (serializedSize a - (encUint 42 a.length).length) (by omega) (by omega)
  have hlen : (encArray a).length
      = (encUint 42 a.length).length + (encCommands a).length := by
    simp [encArray]
  refine ⟨?_, by omega⟩
  unfold RaftRedisCommandArraySerialize
  simp only []
  rw [encodeInteger_ok 42 hfit.1 (by omega) h31]
  simp only [hce, raft_entry_new]
  rw [← hlen]
  rfl

theorem encFields_length_exact (args : List (List Nat))
    (h : ∀ arg ∈ args, arg.length < 10 ^ 7) : (encFields args).length = argsSize args := by
  induction args with
  | nil => simp [encFields, argsSize]
  | cons x xs ih =>
    rw [encFields_cons_length, ih (fun y hy => h y (List.mem_cons_of_mem _ hy)),
      encUint_length_eq_calc 36 (h x (List.mem_cons_self _ _))]
    simp only [argsSize]

theorem encCommands_length_exact (cmds : List RaftRedisCommand)
    (h : ∀ cmd ∈ cmds, calcIntSerializedLen (cmd.length + 1) = calcIntSerializedLen cmd.length ∧
      cmd.length < 10 ^ 7 ∧ ∀ arg ∈ cmd, arg.length < 10 ^ 7) :
    (encCommands cmds).length = commandsSize cmds := by
  induction cmds with
  | nil => simp [encCommands, commandsSize]
  | cons x xs ih =>
    obtain ⟨h1, h2, h3⟩ := h x (List.mem_cons_self _ _)
    rw [encCommands_cons_length, ih (fun y hy => h y (List.mem_cons_of_mem _ hy)),
      encUint_length_eq_calc 42 h2, encFields_length_exact x h3]
    simp only [commandsSize, calcSerializedSize]
    omega

theorem encArray_length_exact (a : RaftRedisCommandArray) (h : ExactSize a) :
    (encArray a).length = serializedSize a := by
  have hlen : (encArray a).length
      = (encUint 42 a.length).length + (encCommands a).length := by
    simp [encArray]
  rw [hlen, encUint_length_eq_calc 42 h.1, encCommands_length_exact a h.2]
  rfl

/-! ## Round trip and payload of the command-array codec -/

/-- Claim C1, as amended: for every well-formed command array whose reserved size
(the size passed to `raft_entry_new`) is below `2 ^ 31`,
`RaftRedisCommandArraySerialize` returns an entry, the payload has `data_len`
bytes, and `RaftRedisCommandArrayDeserialize` applied to the payload returns
`RR_OK` and a command array equal to the original. -/
theorem commandArray_roundtrip (fill : Nat → Nat) (a : RaftRedisCommandArray)
    (hwf : WellFormed a) (h31 : serializedSize a < 2 ^ 31) :
    ∃ e, RaftRedisCommandArraySerialize fill a = some e ∧
      e.data.length = e.data_len ∧
      RaftRedisCommandArrayDeserialize e.data = some a := by
  obtain ⟨hs, hle⟩ := RaftRedisCommandArraySerialize_ok fill a hwf h31
  refine ⟨_, hs, ?_, ?_⟩
  · simp only [List.length_append, List.length_drop, List.length_map, List.length_range]
    omega
  · exact RaftRedisCommandArrayDeserialize_encArray a hwf
      (fits_of_serializedSize h31 (by omega)) _

theorem commandArray_roundtrip_witness :
    WellFormed [[[83, 69, 84], [107], [118]]] ∧
    serializedSize [[[83, 69, 84], [107], [118]]] < 2 ^ 31 ∧
    ∃ e, RaftRedisCommandArraySerialize (fun _ => 0) [[[83, 69, 84], [107], [118]]] = some e ∧
      e.data.length = e.data_len ∧
      RaftRedisCommandArrayDeserialize e.data = some [[[83, 69, 84], [107], [118]]] :=
  ⟨by decide, by decide,
    commandArray_roundtrip (fun _ => 0) [[[83, 69, 84], [107], [118]]] (by decide) (by decide)⟩

theorem serialize_aborts_of_length (fill : Nat → Nat) (arg : List Nat)
    (h : arg.length = 2 ^ 31) :
    WellFormed [[arg]] ∧ serializedSize [[arg]] = 2 ^ 31 + 29 ∧
      RaftRedisCommandArraySerialize fill [[arg]] = none := by
  have hs : serializedSize [[arg]] = 2 ^ 31 + 29 := by
    simp [serializedSize, commandsSize, calcSerializedSize, argsSize, calcIntSerializedLen, h]
  have hne : arg ≠ [] := by
    intro h0; rw [h0] at h; simp at h
  refine ⟨⟨by simp, by simp [hne]⟩, hs, ?_⟩
  unfold RaftRedisCommandArraySerialize
  simp only [hs]
  have he : encodeInteger 42 (2 ^ 31 + 29) 1 = none := by decide
  rw [show [[arg]].length = 1 from rfl, he]

/-- Claim C1 fails as stated: the command array that holds one command with one
argument of `2 ^ 31` bytes is well formed, and the serializer stops at its
first `assert (n != -1)`, because `(int) sz` is negative for the reserved size
`2 ^ 31 + 29`. -/
theorem commandArray_roundtrip_counterexample :
    WellFormed [[List.replicate (2 ^ 31) 0]] ∧
    serializedSize [[List.replicate (2 ^ 31) 0]] = 2 ^ 31 + 29 ∧
    RaftRedisCommandArraySerialize (fun _ => 0) [[List.replicate (2 ^ 31) 0]] = none :=
  serialize_aborts_of_length (fun _ => 0) (List.replicate (2 ^ 31) 0)
    (List.length_replicate _ _)

/-- Claim C2, as amended: for every well-formed command array whose reserved size
is below `2 ^ 31`, the payload has `data_len` bytes, `data_len` is the
reserved size, the payload begins with the grammar encoding, whose length is
at most `data_len`; when every count and length is below `10 ^ 7` and no
`argc + 1` has more digits than `argc`, the payload is exactly the grammar
encoding and `data_len` is its length. -/
theorem serialize_payload (fill : Nat → Nat) (a : RaftRedisCommandArray)
    (hwf : WellFormed a) (h31 : serializedSize a < 2 ^ 31) :
    ∃ e, RaftRedisCommandArraySerialize fill a = some e ∧
      e.data_len = serializedSize a ∧
      e.data.length = e.data_len ∧
      encArray a <+: e.data ∧
      (encArray a).length ≤ e.data_len ∧
      (ExactSize a → e.data = encArray a ∧ e.data_len = (encArray a).length) := by
  obtain ⟨hs, hle⟩ := RaftRedisCommandArraySerialize_ok fill a hwf h31
  refine ⟨_, hs, rfl, ?_, List.prefix_append _ _, hle, ?_⟩
  · simp only [List.length_append, List.length_drop, List.length_map, List.length_range]
    omega
  · intro hex
    have hlen := encArray_length_exact a hex
    refine ⟨?_, hlen.symm⟩
    simp only [hlen]
    rw [List.drop_of_length_le (by simp), List.append_nil]

theorem serialize_payload_witness :
    WellFormed [[[83, 69, 84], [107], [118]]] ∧
    serializedSize [[[83, 69, 84], [107], [118]]] < 2 ^ 31 ∧
    ∃ e, RaftRedisCommandArraySerialize (fun _ => 0) [[[83, 69, 84], [107], [118]]] = some e ∧
      e.data_len = serializedSize [[[83, 69, 84], [107], [118]]] ∧
      e.data.length = e.data_len ∧
      encArray [[[83, 69, 84], [107], [118]]] <+: e.data ∧
      (encArray [[[83, 69, 84], [107], [118]]]).length ≤ e.data_len ∧
      (ExactSize [[[83, 69, 84], [107], [118]]] →
        e.data = encArray [[[83, 69, 84], [107], [118]]] ∧
        e.data_len = (encArray [[[83, 69, 84], [107], [118]]]).length) :=
  ⟨by decide, by decide,
    serialize_payload (fun _ => 0) [[[83, 69, 84], [107], [118]]] (by decide) (by decide)⟩

theorem serialize_nine_args :
    WellFormed [[[1], [1], [1], [1], [1], [1], [1], [1], [1]]] ∧
    (encArray [[[1], [1], [1], [1], [1], [1], [1], [1], [1]]]).length = 51 ∧
    RaftRedisCommandArraySerialize (fun _ => 0) [[[1], [1], [1], [1], [1], [1], [1], [1], [1]]]
      = some { data_len := 52,
               data := encArray [[[1], [1], [1], [1], [1], [1], [1], [1], [1]]] ++ [0] } := by
  decide

theorem serialize_slack_of_length (fill : Nat → Nat) (arg : List Nat)
    (h : arg.length = 10 ^ 7) :
    (encArray [[arg]]).length = 10 ^ 7 + 17 ∧
    (RaftRedisCommandArraySerialize fill [[arg]]).map (fun e => e.data_len)
      = some (10 ^ 7 + 29) := by
  have hs : serializedSize [[arg]] = 10 ^ 7 + 29 := by
    simp [serializedSize, commandsSize, calcSerializedSize, argsSize, calcIntSerializedLen, h]
  have hne : arg ≠ [] := by
    intro h0; rw [h0] at h; simp at h
  have hwf : WellFormed [[arg]] := ⟨by simp, by simp [hne]⟩
  have hd1 : (decimal 1).length = 1 := by decide
  have hd7 : (decimal (10 ^ 7)).length = 8 := by decide
  refine ⟨?_, ?_⟩
  · simp only [encArray, encCommands, encCommand, encFields, encField, encUint,
      List.length_append, List.length_cons, List.length_nil, h, hd1, hd7]
    norm_num
  · rw [(RaftRedisCommandArraySerialize_ok fill [[arg]] hwf (by rw [hs]; decide)).1, hs]
    rfl

/-- Claim C2 fails as stated, in two ways.  For one command with nine
one-byte arguments the grammar encoding has 51 bytes, the size passed to
`raft_entry_new` is 52 (it reserves `calcIntSerializedLen(argc + 1)` for the
`argc` header), and the payload is the encoding followed by one byte of the
fresh buffer.  For one command with one argument of `10 ^ 7` bytes the
encoding has `10 ^ 7 + 17` bytes and the size passed to `raft_entry_new` is
`10 ^ 7 + 29` (`calcIntSerializedLen` reserves 22 bytes for a length that
takes 10). -/
theorem serialize_payload_counterexample :
    (WellFormed [[[1], [1], [1], [1], [1], [1], [1], [1], [1]]] ∧
     (encArray [[[1], [1], [1], [1], [1], [1], [1], [1], [1]]]).length = 51 ∧
     RaftRedisCommandArraySerialize (fun _ => 0)
        [[[1], [1], [1], [1], [1], [1], [1], [1], [1]]]
       = some { data_len := 52,
                data := encArray [[[1], [1], [1], [1], [1], [1], [1], [1], [1]]] ++ [0] }) ∧
    ((encArray [[List.replicate (10 ^ 7) 0]]).length = 10 ^ 7 + 17 ∧
     (RaftRedisCommandArraySerialize (fun _ => 0) [[List.replicate (10 ^ 7) 0]]).map
        (fun e => e.data_len) = some (10 ^ 7 + 29)) :=
  ⟨serialize_nine_args,
   serialize_slack_of_length (fun _ => 0) (List.replicate (10 ^ 7) 0)
     (List.length_replicate _ _)⟩

/-- The codec scenario of the specification: `[[SET, k, v]]` is serialized to
the 23 bytes `"*1\n*3\n$3\nSET\n$1\nk\n$1\nv\n"`, whatever the fresh buffer
holds, and these bytes are deserialized to `[[SET, k, v]]`. -/
theorem serialize_SET_k_v (fill : Nat → Nat) :
    RaftRedisCommandArraySerialize fill [[[83, 69, 84], [107], [118]]]
      = some { data_len := 23,
               data := [42, 49, 10, 42, 51, 10, 36, 51, 10, 83, 69, 84, 10,
                        36, 49, 10, 107, 10, 36, 49, 10, 118, 10] } ∧
    RaftRedisCommandArrayDeserialize
        [42, 49, 10, 42, 51, 10, 36, 51, 10, 83, 69, 84, 10,
         36, 49, 10, 107, 10, 36, 49, 10, 118, 10]
      = some [[[83, 69, 84], [107], [118]]] := by
  refine ⟨?_, by decide⟩
  rw [(RaftRedisCommandArraySerialize_ok fill [[[83, 69, 84], [107], [118]]]
    (by decide) (by decide)).1]
  have h1 : serializedSize [[[83, 69, 84], [107], [118]]] = 23 := by decide
  have h2 : encArray [[[83, 69, 84], [107], [118]]]
      = [42, 49, 10, 42, 51, 10, 36, 51, 10, 83, 69, 84, 10,
         36, 49, 10, 107, 10, 36, 49, 10, 118, 10] := by decide
  rw [h1, h2]
  simp

/-! ## Truncated encodings -/

theorem encFields_ne_nil {args : List (List Nat)} (h : args ≠ []) : encFields args ≠ [] := by
  cases args with
  | nil => exact absurd rfl h
  | cons x xs => simp [encFields, encField, encUint]

theorem encCommands_ne_nil {cmds : List RaftRedisCommand} (h : cmds ≠ []) :
    encCommands cmds ≠ [] := by
  cases cmds with
  | nil => exact absurd rfl h
  | cons x xs => simp [encCommands, encCommand, encUint]

theorem deserializeArgs_dropLast (args : List (List Nat)) (hne : args ≠ [])
    (hargs : ∀ arg ∈ args, arg.length < 2 ^ 64) :
    deserializeArgs args.length (encFields args).dropLast = none := by
  induction args with
  | nil => exact absurd rfl hne
  | cons arg rest ih =>
    have harg : arg.length < 2 ^ 64 := hargs arg (List.mem_cons_self _ _)
    by_cases hrest : rest = []
    · subst hrest
      have e : (encFields [arg]).dropLast = encUint 36 arg.length ++ arg := by
        have : encFields [arg] = (encUint 36 arg.length ++ arg) ++ [10] := by
          simp [encFields, encField]
        rw [this, List.dropLast_concat]
      rw [e, List.length_cons, deserializeArgs, decodeInteger_encUint]
      simp only [List.drop_left, Nat.mod_eq_of_lt harg, le_refl, if_true]
    · have e : (encFields (arg :: rest)).dropLast
          = encUint 36 arg.length ++ (arg ++ 10 :: (encFields rest).dropLast) := by
        have : encFields (arg :: rest) = encField arg ++ encFields rest := rfl
        rw [this, List.dropLast_append_of_ne_nil _ (encFields_ne_nil hrest)]
        simp [encField]
      rw [e, List.length_cons, deserializeArgs, decodeInteger_encUint]
      simp only [List.drop_left, Nat.mod_eq_of_lt harg]
      have hlen : ¬ (arg ++ 10 :: (encFields rest).dropLast).length ≤ arg.length := by
        simp
      simp only [hlen, if_false]
      have hd : List.drop (arg.length + 1) (arg ++ 10 :: (encFields rest).dropLast)
          = (encFields rest).dropLast := by
        rw [← List.drop_drop, List.drop_left]
        rfl
      rw [hd, ih hrest (fun x hx => hargs x (List.mem_cons_of_mem _ hx))]

theorem RaftRedisCommandDeserialize_dropLast (cmd : RaftRedisCommand) (hne : cmd ≠ [])
    (hargc : cmd.length < 2 ^ 64) (hargs : ∀ arg ∈ cmd, arg.length < 2 ^ 64) :
    RaftRedisCommandDeserialize (encCommand cmd).dropLast = none := by
  have e : (encCommand cmd).dropLast = encUint 42 cmd.length ++ (encFields cmd).dropLast := by
    unfold encCommand
    rw [List.dropLast_append_of_ne_nil _ (encFields_ne_nil hne)]
  have h0 : ¬ cmd.length = 0 := by
    intro h; exact hne (List.length_eq_zero.1 h)
  rw [RaftRedisCommandDeserialize, e, decodeInteger_encUint]
  simp only [Nat.mod_eq_of_lt hargc, h0, if_false, List.drop_left]
  rw [deserializeArgs_dropLast cmd hne hargs]

theorem deserializeCommands_dropLast (cmds : List RaftRedisCommand) (hne : cmds ≠ [])
    (hcmds : ∀ cmd ∈ cmds, cmd ≠ [] ∧ cmd.length < 2 ^ 64 ∧ ∀ arg ∈ cmd, arg.length < 2 ^ 64) :
    deserializeCommands cmds.length (encCommands cmds).dropLast = none := by
  induction cmds with
  | nil => exact absurd rfl hne
  | cons cmd rest ih =>
    obtain ⟨hc, hargc, hargs⟩ := hcmds cmd (List.mem_cons_self _ _)
    by_cases hrest : rest = []
    · subst hrest
      have e : encCommands [cmd] = encCommand cmd := by simp [encCommands]
      rw [e, List.length_cons, deserializeCommands,
        RaftRedisCommandDeserialize_dropLast cmd hc hargc hargs]
    · have e : (encCommands (cmd :: rest)).dropLast
          = encCommand cmd ++ (encCommands rest).dropLast := by
        have : encCommands (cmd :: rest) = encCommand cmd ++ encCommands rest := rfl
        rw [this, List.dropLast_append_of_ne_nil _ (encCommands_ne_nil hrest)]
      rw [e, List.length_cons, deserializeCommands,
        RaftRedisCommandDeserialize_encCommand cmd hc hargc hargs]
      simp only [List.drop_left]
      rw [ih hrest (fun x hx => hcmds x (List.mem_cons_of_mem _ hx))]

/-- Claim C3: for every well-formed command array (whose counts and lengths fit
`size_t`), `RaftRedisCommandArrayDeserialize` applied to the grammar encoding
with its final byte removed returns `RR_ERROR`. -/
theorem truncated_encoding_rejected (a : RaftRedisCommandArray)
    (hwf : WellFormed a) (hfit : Fits a) :
    RaftRedisCommandArrayDeserialize (encArray a).dropLast = none := by
  have e : (encArray a).dropLast = encUint 42 a.length ++ (encCommands a).dropLast := by
    unfold encArray
    rw [List.dropLast_append_of_ne_nil _ (encCommands_ne_nil hwf.1)]
  have h0 : ¬ a.length = 0 := by
    intro h; exact hwf.1 (List.length_eq_zero.1 h)
  rw [RaftRedisCommandArrayDeserialize, e, decodeInteger_encUint]
  simp only [Nat.mod_eq_of_lt hfit.1, h0, if_false, List.drop_left]
  rw [deserializeCommands_dropLast a hwf.1
    (fun cmd hc => ⟨hwf.2 cmd hc, (hfit.2 cmd hc).1, (hfit.2 cmd hc).2⟩)]

theorem fits_SET_k_v : Fits [[[83, 69, 84], [107], [118]]] :=
  @fits_of_serializedSize [[[83, 69, 84], [107], [118]]] (2 ^ 31) (by decide) (by decide)

theorem truncated_encoding_rejected_witness :
    WellFormed [[[83, 69, 84], [107], [118]]] ∧ Fits [[[83, 69, 84], [107], [118]]] ∧
    RaftRedisCommandArrayDeserialize (encArray [[[83, 69, 84], [107], [118]]]).dropLast = none :=
  ⟨by decide, fits_SET_k_v,
    truncated_encoding_rejected [[[83, 69, 84], [107], [118]]] (by decide) fits_SET_k_v⟩

/-! ## Zero counts -/

theorem RaftRedisCommandDeserialize_zero_argc {buf : List Nat} {m : Nat}
    (h : decodeInteger buf 42 = some (m, 0)) : RaftRedisCommandDeserialize buf = none := by
  simp [RaftRedisCommandDeserialize, h]

theorem deserializeCommands_zero_argc (i : Nat) :
    ∀ (k : Nat) (buf : List Nat) (cmds : List RaftRedisCommand) (rest : List Nat) (m : Nat),
      i < k → deserializeCommands i buf = some (cmds, rest) →
      decodeInteger rest 42 = some (m, 0) → deserializeCommands k buf = none := by
  induction i with
  | zero =>
    intro k buf cmds rest m hk hi hz
    cases k with
    | zero => omega
    | succ k =>
      simp only [deserializeCommands, Option.some.injEq, Prod.mk.injEq] at hi
      rw [← hi.2] at hz
      simp [deserializeCommands, RaftRedisCommandDeserialize_zero_argc hz]
  | succ i ih =>
    intro k buf cmds rest m hk hi hz
    cases k with
    | zero => omega
    | succ k =>
      rw [deserializeCommands] at hi ⊢
      cases hc : RaftRedisCommandDeserialize buf with
      | none => rfl
      | some p =>
        obtain ⟨cmd, len⟩ := p
        rw [hc] at hi
        simp only at hi ⊢
        cases hr : deserializeCommands i (buf.drop len) with
        | none => rw [hr] at hi; simp at hi
        | some q =>
          obtain ⟨cmds', rest'⟩ := q
          rw [hr] at hi
          simp only [Option.some.injEq, Prod.mk.injEq] at hi
          rw [ih k (buf.drop len) cmds' rest' m (by omega) hr (by rw [hi.2]; exact hz)]

/-- Claim C4: `RaftRedisCommandArrayDeserialize` returns `RR_ERROR` for every buffer
whose top-level command count decodes to 0, and for every buffer in which the
argument count of one of the `commands_num` commands decodes to 0 (the
commands before it having been read, `rest` is where that command starts). -/
theorem zero_count_rejected (buf : List Nat) (n commands_num : Nat)
    (hdec : decodeInteger buf 42 = some (n, commands_num))
    (hzero : commands_num = 0 ∨
      ∃ i cmds rest m, i < commands_num ∧
        deserializeCommands i (buf.drop n) = some (cmds, rest) ∧
        decodeInteger rest 42 = some (m, 0)) :
    RaftRedisCommandArrayDeserialize buf = none := by
  rcases hzero with h0 | ⟨i, cmds, rest, m, hi, hcmds, hz⟩
  · subst h0
    simp [RaftRedisCommandArrayDeserialize, hdec]
  · have hne : ¬ commands_num = 0 := by omega
    simp only [RaftRedisCommandArrayDeserialize, hdec, hne, if_false]
    rw [deserializeCommands_zero_argc i commands_num (buf.drop n) cmds rest m hi hcmds hz]

theorem zero_count_rejected_witness :
    RaftRedisCommandArrayDeserialize [42, 48, 10] = none ∧
    RaftRedisCommandArrayDeserialize
      [42, 50, 10, 42, 49, 10, 36, 49, 10, 97, 10, 42, 48, 10] = none :=
  ⟨zero_count_rejected [42, 48, 10] 3 0 (by decide) (Or.inl rfl),
   zero_count_rejected [42, 50, 10, 42, 49, 10, 36, 49, 10, 97, 10, 42, 48, 10] 3 2
    (by decide) (Or.inr ⟨1, [[[97]]], [42, 48, 10], 3, by decide, by decide, by decide⟩)⟩

/-! ## Digits that do not fit `size_t` -/

theorem decVal_mod (ds : List Nat) :
    ∀ t t' : Nat, t % 2 ^ 64 = t' % 2 ^ 64 →
      decVal t ds % 2 ^ 64 = (ds.foldl (fun a c => a * 10 + (c - 48)) t') % 2 ^ 64 := by
  induction ds with
  | nil => intro t t' h; simpa [decVal] using h
  | cons c ds ih =>
    intro t t' h
    have step : decVal t (c :: ds) = decVal (((t * 10) % 2 ^ 64 + (c - 48)) % 2 ^ 64) ds := rfl
    rw [step, List.foldl_cons]
    apply ih
    omega

theorem decVal_lt (ds : List Nat) : ∀ t : Nat, t < 2 ^ 64 → decVal t ds < 2 ^ 64 := by
  induction ds with
  | nil => intro t h; simpa [decVal] using h
  | cons c ds ih =>
    intro t _
    have step : decVal t (c :: ds) = decVal (((t * 10) % 2 ^ 64 + (c - 48)) % 2 ^ 64) ds := rfl
    rw [step]
    exact ih _ (Nat.mod_lt _ (by decide))

theorem decVal_eq_uintValue (ds : List Nat) : decVal 0 ds = uintValue ds % 2 ^ 64 := by
  have h1 := decVal_mod ds 0 0 rfl
  have h2 := decVal_lt ds 0 (by decide)
  rw [Nat.mod_eq_of_lt h2] at h1
  exact h1

/-- Claim C5, as amended: `decodeInteger` has no overflow check.  For every run
`ds` of decimal digits between the expected first byte and `'\n'`, in a buffer
of at least three bytes, it returns the number of bytes consumed and stores
the value of the digits reduced modulo `2 ^ 64`. -/
theorem decodeInteger_wraps (pfx : Nat) (ds rest : List Nat)
    (hds : ∀ c ∈ ds, isDigit c) (hlen : 3 ≤ (pfx :: (ds ++ 10 :: rest)).length) :
    decodeInteger (pfx :: (ds ++ 10 :: rest)) pfx
      = some (ds.length + 2, uintValue ds % 2 ^ 64) := by
  rw [decodeInteger_digits pfx ds rest hds hlen, decVal_eq_uintValue]

theorem decodeInteger_wraps_witness :
    uintValue (decimal (2 ^ 64 + 1)) = 2 ^ 64 + 1 ∧
    decodeInteger (42 :: (decimal (2 ^ 64 + 1) ++ 10 :: [])) 42
      = some ((decimal (2 ^ 64 + 1)).length + 2, uintValue (decimal (2 ^ 64 + 1)) % 2 ^ 64) :=
  ⟨by decide,
   decodeInteger_wraps 42 (decimal (2 ^ 64 + 1)) [] (decimal_isDigit _) (by decide)⟩

/-- Claim C5 fails as stated: in the buffer `"*18446744073709551617\n*1\n$1\na\n"`
the command count is written with the digits of `2 ^ 64 + 1`; `decodeInteger`
returns 22 bytes consumed and the value 1, and
`RaftRedisCommandArrayDeserialize` returns `RR_OK` with the one command
`[a]`. -/
theorem decodeInteger_overflow_counterexample :
    uintValue [49, 56, 52, 52, 54, 55, 52, 52, 48, 55, 51, 55, 48, 57, 53, 53, 49, 54, 49, 55]
      = 2 ^ 64 + 1 ∧
    decodeInteger
      [42, 49, 56, 52, 52, 54, 55, 52, 52, 48, 55, 51, 55, 48, 57, 53, 53, 49, 54, 49, 55, 10,
       42, 49, 10, 36, 49, 10, 97, 10] 42 = some (22, 1) ∧
    RaftRedisCommandArrayDeserialize
      [42, 49, 56, 52, 52, 54, 55, 52, 52, 48, 55, 51, 55, 48, 57, 53, 53, 49, 54, 49, 55, 10,
       42, 49, 10, 36, 49, 10, 97, 10] = some [[[97]]] := by
  decide

/-! ## What the decoder accepts -/

theorem decodeIntegerLoop_inv (buf : List Nat) :
    ∀ (tmp len n v : Nat), decodeIntegerLoop buf tmp len = some (n, v) →
      ∃ ds rest, buf = ds ++ 10 :: rest ∧ (∀ c ∈ ds, isDigit c) ∧
        n = len + ds.length + 1 ∧ v = decVal tmp ds := by
  induction buf with
  | nil => intro tmp len n v h; simp [decodeIntegerLoop] at h
  | cons c r ih =>
    intro tmp len n v h
    rw [decodeIntegerLoop] at h
    by_cases h10 : c = 10
    · simp only [h10, if_true, Option.some.injEq, Prod.mk.injEq] at h
      exact ⟨[], r, by simp [h10], by simp, by simp [h.1], by simp [decVal, h.2]⟩
    · simp only [h10, if_false] at h
      by_cases hd : c < 48 ∨ c > 57
      · simp [hd] at h
      · simp only [hd, if_false] at h
        by_cases hr : r.length = 0
        · simp [hr] at h
        · simp only [hr, if_false] at h
          obtain ⟨ds, rest, hbuf, hds, hn, hv⟩ := ih _ _ _ _ h
          refine ⟨c :: ds, rest, by simp [hbuf], ?_, by simp [hn]; omega, ?_⟩
          · intro x hx
            rcases List.mem_cons.1 hx with hx | hx
            · subst hx; unfold isDigit; omega
            · exact hds x hx
          · rw [hv]; rfl

theorem decodeInteger_inv {buf : List Nat} {pfx n v : Nat}
    (h : decodeInteger buf pfx = some (n, v)) :
    ∃ ds rest, buf = pfx :: (ds ++ 10 :: rest) ∧ (∀ c ∈ ds, isDigit c) ∧
      n = ds.length + 2 ∧ v = uintValue ds % 2 ^ 64 := by
  cases buf with
  | nil => simp [decodeInteger] at h
  | cons c r =>
    rw [decodeInteger] at h
    by_cases hg : (c :: r).length < 3 ∨ c ≠ pfx
    · rw [if_pos hg] at h; cases h
    · rw [if_neg hg] at h
      obtain ⟨ds, rest, hbuf, hds, hn, hv⟩ := decodeIntegerLoop_inv r 0 1 n v h
      have hc : c = pfx := by
        by_contra hne; exact hg (Or.inr hne)
      refine ⟨ds, rest, by rw [hc, hbuf], hds, by omega, ?_⟩
      rw [hv, decVal_eq_uintValue]

theorem deserializeArgs_inv (argc : Nat) :
    ∀ (buf : List Nat) (args : List (List Nat)) (rest : List Nat),
      deserializeArgs argc buf = some (args, rest) →
      ∃ fs : List LaxField, (∀ f ∈ fs, f.Valid) ∧ buf = renderFields fs ++ rest ∧
        fs.map (fun f => f.bytes) = args ∧ fs.length = argc := by
  induction argc with
  | zero =>
    intro buf args rest h
    simp only [deserializeArgs, Option.some.injEq, Prod.mk.injEq] at h
    exact ⟨[], by simp, by simp [renderFields, h.2], by simp [h.1], rfl⟩
  | succ argc ih =>
    intro buf args rest h
    rw [deserializeArgs] at h
    cases hdec : decodeInteger buf 36 with
    | none => simp [hdec] at h
    | some p =>
      obtain ⟨n, len⟩ := p
      obtain ⟨ds, r1, hbuf, hds, hn, hv⟩ := decodeInteger_inv hdec
      have hdrop : buf.drop n = r1 := by
        rw [hbuf, hn]
        have : 36 :: (ds ++ 10 :: r1) = (36 :: (ds ++ [10])) ++ r1 := by simp
        rw [this]
        have hl : ds.length + 2 = (36 :: (ds ++ [10])).length := by simp
        rw [hl, List.drop_left]
      simp only [hdec, hdrop] at h
      by_cases hle : r1.length ≤ len
      · simp [hle] at h
      · simp only [hle, if_false] at h
        cases hrec : deserializeArgs argc (r1.drop (len + 1)) with
        | none => simp [hrec] at h
        | some q =>
          obtain ⟨args', rest'⟩ := q
          simp only [hrec, Option.some.injEq, Prod.mk.injEq] at h
          obtain ⟨fs, hfs, hren, hmap, hlen⟩ := ih _ _ _ hrec
          have hlt : len < r1.length := by omega
          have hsplit : r1 = r1.take len ++ (r1[len] :: r1.drop (len + 1)) := by
            rw [← List.drop_eq_getElem_cons hlt, List.take_append_drop]
          refine ⟨⟨ds, r1.take len, r1[len]⟩ :: fs, ?_, ?_, ?_, by simp [hlen]⟩
          · intro f hf
            rcases List.mem_cons.1 hf with hf | hf
            · subst hf
              refine ⟨hds, ?_⟩
              simp only [List.length_take]
              omega
            · exact hfs f hf
          · have hr : renderFields (⟨ds, r1.take len, r1[len]⟩ :: fs) ++ rest'
                = 36 :: (ds ++ 10 :: (r1.take len ++
                    (r1[len] :: (renderFields fs ++ rest')))) := by
              simp only [renderFields, LaxField.render, List.cons_append, List.append_assoc,
                List.singleton_append, List.nil_append]
            rw [hbuf, ← h.2, hr, ← hren, ← hsplit]
          · simp [hmap, h.1]

theorem drop_header (pfx : Nat) (ds r : List Nat) :
    (pfx :: (ds ++ 10 :: r)).drop (ds.length + 2) = r := by
  have e : pfx :: (ds ++ 10 :: r) = (pfx :: (ds ++ [10])) ++ r := by simp
  have hl : ds.length + 2 = (pfx :: (ds ++ [10])).length := by simp
  rw [e, hl, List.drop_left]

theorem RaftRedisCommandDeserialize_inv {buf : List Nat} {cmd : RaftRedisCommand}
    {consumed : Nat} (h : RaftRedisCommandDeserialize buf = some (cmd, consumed)) :
    ∃ (c : LaxCommand) (rest : List Nat), c.Valid ∧ buf = c.render ++ rest ∧
      consumed = c.render.length ∧ c.argv = cmd := by
  rw [RaftRedisCommandDeserialize] at h
  cases hdec : decodeInteger buf 42 with
  | none => rw [hdec] at h; cases h
  | some p =>
    obtain ⟨n, len⟩ := p
    obtain ⟨ds, r1, hbuf, hds, hn, hv⟩ := decodeInteger_inv hdec
    have hdrop : buf.drop n = r1 := by rw [hbuf, hn, drop_header]
    simp only [hdec, hdrop] at h
    by_cases h0 : len = 0
    · rw [if_pos h0] at h; cases h
    · rw [if_neg h0] at h
      cases hrec : deserializeArgs len r1 with
      | none => rw [hrec] at h; cases h
      | some q =>
        obtain ⟨argv, rest⟩ := q
        simp only [hrec, Option.some.injEq, Prod.mk.injEq] at h
        obtain ⟨fs, hfs, hren, hmap, hlen⟩ := deserializeArgs_inv len r1 argv rest hrec
        have hne : fs ≠ [] := by
          intro hnil; rw [hnil] at hlen; exact h0 hlen.symm
        have hb : buf = LaxCommand.render ⟨ds, fs⟩ ++ rest := by
          rw [hbuf, hren]
          simp only [LaxCommand.render, List.cons_append, List.append_assoc]
        refine ⟨⟨ds, fs⟩, rest, ⟨hds, hv.symm.trans hlen.symm, hne, hfs⟩, hb, ?_, ?_⟩
        · rw [← h.2, hb, List.length_append]
          omega
        · rw [← h.1, ← hmap]
          rfl

theorem deserializeCommands_inv (k : Nat) :
    ∀ (buf : List Nat) (cmds : List RaftRedisCommand) (rest : List Nat),
      deserializeCommands k buf = some (cmds, rest) →
      ∃ cs : List LaxCommand, (∀ c ∈ cs, c.Valid) ∧ buf = renderCommands cs ++ rest ∧
        cs.map (fun c => c.argv) = cmds ∧ cs.length = k := by
  induction k with
  | zero =>
    intro buf cmds rest h
    simp only [deserializeCommands, Option.some.injEq, Prod.mk.injEq] at h
    exact ⟨[], by simp, by simp [renderCommands, h.2], by simp [h.1], rfl⟩
  | succ k ih =>
    intro buf cmds rest h
    rw [deserializeCommands] at h
    cases hc : RaftRedisCommandDeserialize buf with
    | none => rw [hc] at h; cases h
    | some p =>
      obtain ⟨cmd, len⟩ := p
      obtain ⟨c, rest1, hval, hbuf, hlen, hargv⟩ := RaftRedisCommandDeserialize_inv hc
      have hdrop : buf.drop len = rest1 := by rw [hbuf, hlen, List.drop_left]
      simp only [hc, hdrop] at h
      cases hrec : deserializeCommands k rest1 with
      | none => rw [hrec] at h; cases h
      | some q =>
        obtain ⟨cmds', rest'⟩ := q
        simp only [hrec, Option.some.injEq, Prod.mk.injEq] at h
        obtain ⟨cs, hcs, hren, hmap, hk⟩ := ih rest1 cmds' rest' hrec
        refine ⟨c :: cs, ?_, ?_, ?_, by simp [hk]⟩
        · intro x hx
          rcases List.mem_cons.1 hx with hx | hx
          · subst hx; exact hval
          · exact hcs x hx
        · rw [hbuf, hren, ← h.2]
          simp only [renderCommands, List.append_assoc]
        · rw [← h.1, ← hmap, ← hargv]
          rfl

/-- Claim C6, as amended: `RaftRedisCommandArrayDeserialize` returns a decode error
for every buffer that does not begin with a text of the grammar read the way
the decoder reads it: `uint` is zero or more decimal digits and stands for
their value modulo `2 ^ 64`, the command count and every argument count are
not 0, and the byte after the `len` data bytes of a field is arbitrary.
Stated for the accepted buffers: each begins with such a text, and the text
carries the command array that is returned. -/
theorem accepted_buffer_is_lax_text (buf : List Nat) (a : RaftRedisCommandArray)
    (h : RaftRedisCommandArrayDeserialize buf = some a) :
    ∃ t : LaxArray, t.Valid ∧ t.render <+: buf ∧ t.content = a := by
  rw [RaftRedisCommandArrayDeserialize] at h
  cases hdec : decodeInteger buf 42 with
  | none => rw [hdec] at h; cases h
  | some p =>
    obtain ⟨n, num⟩ := p
    obtain ⟨ds, r1, hbuf, hds, hn, hv⟩ := decodeInteger_inv hdec
    have hdrop : buf.drop n = r1 := by rw [hbuf, hn, drop_header]
    simp only [hdec, hdrop] at h
    by_cases h0 : num = 0
    · rw [if_pos h0] at h; cases h
    · rw [if_neg h0] at h
      cases hrec : deserializeCommands num r1 with
      | none => rw [hrec] at h; cases h
      | some q =>
        obtain ⟨cmds, rest⟩ := q
        simp only [hrec, Option.some.injEq] at h
        obtain ⟨cs, hcs, hren, hmap, hlen⟩ := deserializeCommands_inv num r1 cmds rest hrec
        have hne : cs ≠ [] := by
          intro hnil; rw [hnil] at hlen; exact h0 hlen.symm
        refine ⟨⟨ds, cs⟩, ⟨hds, hv.symm.trans hlen.symm, hne, hcs⟩, ⟨rest, ?_⟩, ?_⟩
        · rw [hbuf, hren]
          simp only [LaxArray.render, List.cons_append, List.append_assoc]
        · rw [← h, ← hmap]
          rfl

theorem accepted_buffer_is_lax_text_witness :
    RaftRedisCommandArrayDeserialize [42, 49, 10, 42, 49, 10, 36, 10, 10] = some [[[]]] ∧
    ∃ t : LaxArray, t.Valid ∧ t.render <+: [42, 49, 10, 42, 49, 10, 36, 10, 10] ∧
      t.content = [[[]]] :=
  ⟨by decide,
   accepted_buffer_is_lax_text [42, 49, 10, 42, 49, 10, 36, 10, 10] [[[]]] (by decide)⟩

/-- Claim C6 fails as stated: the buffer `"*1\n*1\n$\n\n"` has no digit in its field
header and the buffer `"*1\n*1\n$1\naX"` has `'X'` where the field should end
with `'\n'`; neither begins with a string of the grammar, and
`RaftRedisCommandArrayDeserialize` returns `RR_OK` for both, with the
commands `[""]` and `["a"]`. -/
theorem malformed_buffer_accepted_counterexample :
    ¬ BeginsWithArray [42, 49, 10, 42, 49, 10, 36, 10, 10] ∧
    RaftRedisCommandArrayDeserialize [42, 49, 10, 42, 49, 10, 36, 10, 10] = some [[[]]] ∧
    ¬ BeginsWithArray [42, 49, 10, 42, 49, 10, 36, 49, 10, 97, 88] ∧
    RaftRedisCommandArrayDeserialize [42, 49, 10, 42, 49, 10, 36, 49, 10, 97, 88]
      = some [[[97]]] := by
  decide

/-! ## Key-lock format -/

/-- Claim C7, at the failing input: for the single key `"a"` (and for the single key
`"ab"`) `total_key_size` is 2 (3), `encodeInteger` is given that value as the
room left, returns `-1` for the three bytes `"*1\n"`, and
`RaftRedisLockKeysSerialize` stops at `assert (n != -1)`. -/
theorem lockKeysSerialize_single_key_aborts :
    lockKeysCollect [[97]] ([], 0, 0) = ([[97]], 2, 1) ∧
    encodeInteger 42 2 1 = none ∧
    RaftRedisLockKeysSerialize (fun _ => 0) [[97]] = none ∧
    RaftRedisLockKeysSerialize (fun _ => 0) [[97, 98]] = none := by
  decide

/-- The lock-keys scenario of the specification: `[b, a, a, c]` gives the
nine bytes `"*3\na\0b\0c\0"`. -/
theorem lockKeysSerialize_b_a_a_c :
    RaftRedisLockKeysSerialize (fun _ => 0) [[98], [97], [97], [99]]
      = some { data_len := 9, data := [42, 51, 10, 97, 0, 98, 0, 99, 0] } := by
  decide

/-! ## Commit queue -/

theorem iterate_cqueue_calls (committed : msg_entry_response_t → Int)
    (cqueue : List raft_req_t) :
    (iterate_cqueue committed cqueue).1
      = executeAll (cqueue.takeWhile (fun r => decide (committed r.response ≠ 0))) := by
  induction cqueue with
  | nil => rfl
  | cons req rest ih =>
    by_cases h : committed req.response = 0
    · simp [iterate_cqueue, h, executeAll]
    · simp [iterate_cqueue, h, executeAll, ih]

theorem iterate_cqueue_left (committed : msg_entry_response_t → Int)
    (cqueue : List raft_req_t) :
    (iterate_cqueue committed cqueue).2
      = cqueue.dropWhile (fun r => decide (committed r.response ≠ 0)) := by
  induction cqueue with
  | nil => rfl
  | cons req rest ih =>
    by_cases h : committed req.response = 0
    · simp [iterate_cqueue, h]
    · simp [iterate_cqueue, h, ih]

theorem executedCommands_executeAll (reqs : List raft_req_t) :
    executedCommands (executeAll reqs) = reqs.map (fun r => r.argv) := by
  induction reqs with
  | nil => rfl
  | cons req rest ih =>
    simp [executeAll, execute_committed_req, executedCommands, ih]

/-- Claim C8: for every commit queue, `iterate_cqueue` splits it into the requests
before the first one whose entry is not yet committed (`done`) and the
requests from that one on (`left`): it makes the host calls of executing the
requests of `done`, one after the other in queue order, and nothing else; the
commands run against the data store are those of `done` in order; every
request of `done` has a response other than "not yet committed"; the queue
that is left is `left`, in its original order, and it is empty or starts with
a request whose entry is not yet committed. -/
theorem iterate_cqueue_never_skips (committed : msg_entry_response_t → Int)
    (cqueue : List raft_req_t) :
    ∃ done left : List raft_req_t,
      cqueue = done ++ left ∧
      (iterate_cqueue committed cqueue).1 = executeAll done ∧
      executedCommands (iterate_cqueue committed cqueue).1 = done.map (fun r => r.argv) ∧
      (iterate_cqueue committed cqueue).2 = left ∧
      (∀ r ∈ done, committed r.response ≠ 0) ∧
      (left = [] ∨ ∃ r tail, left = r :: tail ∧ committed r.response = 0) := by
  refine ⟨cqueue.takeWhile (fun r => decide (committed r.response ≠ 0)),
    cqueue.dropWhile (fun r => decide (committed r.response ≠ 0)),
    (List.takeWhile_append_dropWhile _ _).symm, iterate_cqueue_calls committed cqueue, ?_,
    iterate_cqueue_left committed cqueue, ?_, ?_⟩
  · rw [iterate_cqueue_calls, executedCommands_executeAll]
  · intro r hr
    have := List.mem_takeWhile_imp hr
    simpa using this
  · cases hd : cqueue.dropWhile (fun r => decide (committed r.response ≠ 0)) with
    | nil => exact Or.inl rfl
    | cons r tail =>
      refine Or.inr ⟨r, tail, rfl, ?_⟩
      have h := List.head_dropWhile_not (fun r => decide (committed r.response ≠ 0)) cqueue
        (by rw [hd]; simp)
      simp only [hd, List.head_cons] at h
      simpa using h

/-- Claim C9, at the failing input: when the response of the head request is no
longer valid (`raft_msg_entry_response_committed` returns -1), the test
`!raft_msg_entry_response_committed(..)` is false, and `iterate_cqueue`
executes the command of the request against the data store and replies with
the result, as it does for a committed entry. -/
theorem lost_entry_is_executed (committed : msg_entry_response_t → Int)
    (req : raft_req_t) (rest : List raft_req_t) (h : committed req.response = -1) :
    (iterate_cqueue committed (req :: rest)).1
        = execute_committed_req req ++ (iterate_cqueue committed rest).1 ∧
      HostCall.Call req.argv ∈ (iterate_cqueue committed (req :: rest)).1 ∧
      ∀ msg, HostCall.ReplyWithError req.client msg ∉ execute_committed_req req := by
  have h0 : ¬ committed req.response = 0 := by rw [h]; decide
  refine ⟨by simp [iterate_cqueue, h0], ?_, ?_⟩
  · simp [iterate_cqueue, h0, execute_committed_req]
  · intro msg
    simp [execute_committed_req]

theorem lost_entry_is_executed_witness :
    (iterate_cqueue (fun _ => -1) [⟨7, [[83, 69, 84], [107], [118]], ⟨1, 2, 3⟩⟩]).1
        = execute_committed_req ⟨7, [[83, 69, 84], [107], [118]], ⟨1, 2, 3⟩⟩ ++
            (iterate_cqueue (fun _ => -1) []).1 ∧
      HostCall.Call [[83, 69, 84], [107], [118]] ∈
        (iterate_cqueue (fun _ => -1) [⟨7, [[83, 69, 84], [107], [118]], ⟨1, 2, 3⟩⟩]).1 ∧
      ∀ msg, HostCall.ReplyWithError 7 msg ∉
        execute_committed_req ⟨7, [[83, 69, 84], [107], [118]], ⟨1, 2, 3⟩⟩ :=
  lost_entry_is_executed (fun _ => -1) ⟨7, [[83, 69, 84], [107], [118]], ⟨1, 2, 3⟩⟩ [] rfl

/-! ## Blocked clients -/

/-- Claim C10, at the failing input: when `rmstring_to_int` fails on `argv[1]`, or
`sscanf` on `argv[2]`, `cmd_raft_requestvote` has blocked the client in
`raft_req_init`, replies with the error, frees the request with
`free_request` and returns: `RedisModule_UnblockClient` is not called for the
handle, and the request is not enqueued, so no later code can call it. -/
theorem requestvote_rejection_never_unblocks (rmstring_to_int : List Nat → Option Int)
    (sscanf4 : List Nat → Option (Int × Int × Int × Int))
    (client : Nat) (arg0 arg1 arg2 : List Nat)
    (h : rmstring_to_int arg1 = none ∨ sscanf4 arg2 = none) :
    ((cmd_raft_requestvote rmstring_to_int sscanf4 client [arg0, arg1, arg2]).1.count
        (HostCall.BlockClient client) = 1) ∧
    ((cmd_raft_requestvote rmstring_to_int sscanf4 client [arg0, arg1, arg2]).1.count
        (HostCall.UnblockClient client) = 0) ∧
    (cmd_raft_requestvote rmstring_to_int sscanf4 client [arg0, arg1, arg2]).2 = false := by
  unfold cmd_raft_requestvote
  cases h1 : rmstring_to_int arg1 with
  | none => simp [h1, List.count_cons]
  | some v =>
    cases h2 : sscanf4 arg2 with
    | none => simp [h1, h2, List.count_cons]
    | some w =>
      rcases h with h | h
      · rw [h1] at h; cases h
      · rw [h2] at h; cases h

theorem requestvote_rejection_never_unblocks_witness :
    readDecimal [120] = none ∧
    ((cmd_raft_requestvote readDecimal (fun _ => some (1, 2, 3, 4)) 7
        [[82, 65, 70, 84, 46, 82, 69, 81, 85, 69, 83, 84, 86, 79, 84, 69], [120],
         [49, 58, 50, 58, 51, 58, 52]]).1.count (HostCall.BlockClient 7) = 1) ∧
    ((cmd_raft_requestvote readDecimal (fun _ => some (1, 2, 3, 4)) 7
        [[82, 65, 70, 84, 46, 82, 69, 81, 85, 69, 83, 84, 86, 79, 84, 69], [120],
         [49, 58, 50, 58, 51, 58, 52]]).1.count (HostCall.UnblockClient 7) = 0) ∧
    (cmd_raft_requestvote readDecimal (fun _ => some (1, 2, 3, 4)) 7
        [[82, 65, 70, 84, 46, 82, 69, 81, 85, 69, 83, 84, 86, 79, 84, 69], [120],
         [49, 58, 50, 58, 51, 58, 52]]).2 = false :=
  ⟨by decide,
   requestvote_rejection_never_unblocks readDecimal (fun _ => some (1, 2, 3, 4)) 7
    [82, 65, 70, 84, 46, 82, 69, 81, 85, 69, 83, 84, 86, 79, 84, 69] [120]
    [49, 58, 50, 58, 51, 58, 52] (Or.inl (by decide))⟩

/-! ## The argv-list format -/

theorem storeBytes_length (k v : Nat) : (storeBytes k v).length = k := by
  induction k generalizing v with
  | zero => rfl
  | succ k ih => simp [storeBytes, ih]

theorem storeSize_length (v : Nat) : (storeSize v).length = 8 :=
  storeBytes_length 8 _

theorem loadBytes_storeBytes (k : Nat) :
    ∀ (v : Nat) (rest : List Nat),
      loadBytes k (storeBytes k v ++ rest) = some (v % 256 ^ k) := by
  induction k with
  | zero => intro v rest; simp [loadBytes, storeBytes, Nat.mod_one]
  | succ k ih =>
    intro v rest
    show (match loadBytes k (storeBytes k (v / 256) ++ rest) with
      | none => none
      | some x => some (v % 256 + 256 * x)) = some (v % 256 ^ (k + 1))
    rw [ih, Nat.pow_succ, Nat.mul_comm (256 ^ k) 256, Nat.mod_mul]

theorem loadSize_storeSize (v : Nat) (rest : List Nat) :
    loadSize (storeSize v ++ rest) = some (v % 2 ^ 64) := by
  unfold loadSize storeSize
  rw [loadBytes_storeBytes]
  have : (256 : Nat) ^ 8 = 2 ^ 64 := by norm_num
  rw [this, Nat.mod_mod]

theorem drop_storeSize (v : Nat) (rest : List Nat) : (storeSize v ++ rest).drop 8 = rest := by
  have h := storeSize_length v
  rw [← h, List.drop_left]

theorem deserializeArgvLoop_serializeArgs (argv : List (List Nat))
    (hlen : ∀ a ∈ argv, a.length < 2 ^ 64) :
    ∀ rest : List Nat,
      deserializeArgvLoop argv.length (serializeArgs argv ++ rest) = some argv := by
  induction argv with
  | nil => intro rest; rfl
  | cons d argv ih =>
    intro rest
    have hd : d.length < 2 ^ 64 := hlen d (List.mem_cons_self _ _)
    have e : serializeArgs (d :: argv) ++ rest
        = storeSize d.length ++ (d ++ (serializeArgs argv ++ rest)) := by
      simp [serializeArgs]
    rw [List.length_cons, deserializeArgvLoop, e, loadSize_storeSize, drop_storeSize]
    simp only [Nat.mod_eq_of_lt hd]
    have hnot : ¬ (d ++ (serializeArgs argv ++ rest)).length < d.length := by simp
    simp only [hnot, if_false, List.drop_left, List.take_left]
    rw [ih (fun a ha => hlen a (List.mem_cons_of_mem _ ha))]

theorem serializeArgs_length (argv : List (List Nat)) :
    (serializeArgs argv).length = 8 * argv.length + argvBytes argv := by
  induction argv with
  | nil => rfl
  | cons d argv ih =>
    simp only [serializeArgs, List.length_append, storeSize_length, ih, argvBytes,
      List.length_cons]
    omega

theorem argvBytes_eq_sum (argv : List (List Nat)) :
    argvBytes argv = (argv.map List.length).sum := by
  induction argv with
  | nil => rfl
  | cons d argv ih => simp [argvBytes, ih]

theorem serializeArgs_eq_flatten (argv : List (List Nat)) :
    serializeArgs argv = (argv.map (fun d => storeSize d.length ++ d)).flatten := by
  induction argv with
  | nil => rfl
  | cons d argv ih => simp [serializeArgs, ih]

theorem deserialize_argv_serialize_argv (argv : List (List Nat))
    (hargc : argv.length + 1 < 2 ^ 31) (hlen : ∀ a ∈ argv, a.length < 2 ^ 64) :
    deserialize_argv (serialize_argv argv) = some ((argv.length : Int), argv) := by
  have h64 : argv.length < 2 ^ 64 := by omega
  unfold deserialize_argv serialize_argv
  simp only [loadSize_storeSize, drop_storeSize, Nat.mod_eq_of_lt h64]
  have h := deserializeArgvLoop_serializeArgs argv hlen []
  rw [List.append_nil] at h
  rw [h, toInt_of_lt (by omega)]

/-- Claim C20: for every `argv` (with `argc + 1` within `int` and every length
within `size_t`), `serialize_argv` produces a buffer of exactly
`sizeof(size_t) * (argc + 1)` plus the sum of the argument lengths bytes, made
of a native `size_t` holding `argc` followed by `argc` records of a `size_t`
length and the raw bytes, and `deserialize_argv` applied to it returns `argc`
and the arguments of `argv`, byte for byte and in order. -/
theorem argv_list_roundtrip (argv : List (List Nat))
    (hargc : argv.length + 1 < 2 ^ 31) (hlen : ∀ a ∈ argv, a.length < 2 ^ 64) :
    (serialize_argv argv).len = 8 * (argv.length + 1) + (argv.map List.length).sum ∧
    (serialize_argv argv).buf.length = (serialize_argv argv).len ∧
    (serialize_argv argv).buf
      = storeSize argv.length ++ (argv.map (fun d => storeSize d.length ++ d)).flatten ∧
    deserialize_argv (serialize_argv argv) = some ((argv.length : Int), argv) := by
  refine ⟨?_, ?_, ?_, deserialize_argv_serialize_argv argv hargc hlen⟩
  · simp only [serialize_argv, argvBytes_eq_sum]
  · simp only [serialize_argv, List.length_append, storeSize_length, serializeArgs_length]
    omega
  · simp only [serialize_argv, serializeArgs_eq_flatten]

theorem argv_list_roundtrip_witness :
    (serialize_argv [[83, 69, 84], [107], [118]]).len
      = 8 * ([[83, 69, 84], [107], [118]].length + 1)
        + ([[83, 69, 84], [107], [118]].map List.length).sum ∧
    (serialize_argv [[83, 69, 84], [107], [118]]).buf.length
      = (serialize_argv [[83, 69, 84], [107], [118]]).len ∧
    (serialize_argv [[83, 69, 84], [107], [118]]).buf
      = storeSize [[83, 69, 84], [107], [118]].length ++
        ([[83, 69, 84], [107], [118]].map (fun d => storeSize d.length ++ d)).flatten ∧
    deserialize_argv (serialize_argv [[83, 69, 84], [107], [118]])
      = some (([[83, 69, 84], [107], [118]].length : Int), [[83, 69, 84], [107], [118]]) :=
  argv_list_roundtrip [[83, 69, 84], [107], [118]] (by decide) (by decide)

/-- The argv-list format on the arguments `SET k v`: 37 bytes. -/
theorem serialize_argv_SET_k_v :
    serialize_argv [[83, 69, 84], [107], [118]]
      = { buf := [3, 0, 0, 0, 0, 0, 0, 0, 3, 0, 0, 0, 0, 0, 0, 0, 83, 69, 84,
                  1, 0, 0, 0, 0, 0, 0, 0, 107, 1, 0, 0, 0, 0, 0, 0, 0, 118],
          len := 37 } := by
  decide

/-! ## Dispatch of a client command -/

/-- Claim C12: `_cmd_raft` is a three-way decision.  With no leader it replies
`-NOLEADER`, unblocks the client and submits nothing.  With a leader whose id
differs from the local node id it replies `LEADERIS host:port` with the
leader's address, unblocks the client and submits nothing.  Otherwise it
passes one entry of type Normal that holds `serialize_argv` of the request's
`argv` to `raft_recv_entry`; when the call returns 0 it appends the request to
the tail of the commit queue and makes no reply and no unblock, and when the
call fails it replies `ERROR`, unblocks the client and leaves the commit queue
as it was. -/
theorem cmd_raft_three_way (leader : Option (Int × node_addr_t)) (nodeid rand : Int)
    (raft_recv_entry : msg_entry_t → Int × msg_entry_response_t)
    (cqueue : List raft_req_t) (req : raft_req_t) :
    (leader = none →
      _cmd_raft leader nodeid rand raft_recv_entry cqueue req
        = { calls := [HostCall.ReplyWithError req.client ErrorReply.noleader,
                      HostCall.FreeThreadSafeContext req.client,
                      HostCall.UnblockClient req.client],
            entry := none, cqueue := cqueue }) ∧
    (∀ id addr, leader = some (id, addr) → id ≠ nodeid →
      _cmd_raft leader nodeid rand raft_recv_entry cqueue req
        = { calls := [HostCall.ReplyWithError req.client
                        (ErrorReply.leaderis addr.host addr.port),
                      HostCall.FreeThreadSafeContext req.client,
                      HostCall.UnblockClient req.client],
            entry := none, cqueue := cqueue }) ∧
    (∀ addr, leader = some (nodeid, addr) →
      (_cmd_raft leader nodeid rand raft_recv_entry cqueue req).entry
          = some { id := rand, type := raft_logtype.RAFT_LOGTYPE_NORMAL,
                   data := serialize_argv req.argv } ∧
      ((raft_recv_entry { id := rand, type := raft_logtype.RAFT_LOGTYPE_NORMAL,
                          data := serialize_argv req.argv }).1 = 0 →
        (_cmd_raft leader nodeid rand raft_recv_entry cqueue req).calls = [] ∧
        (_cmd_raft leader nodeid rand raft_recv_entry cqueue req).cqueue
          = cqueue ++ [{ req with response :=
              (raft_recv_entry { id := rand, type := raft_logtype.RAFT_LOGTYPE_NORMAL,
                                 data := serialize_argv req.argv }).2 }]) ∧
      ((raft_recv_entry { id := rand, type := raft_logtype.RAFT_LOGTYPE_NORMAL,
                          data := serialize_argv req.argv }).1 ≠ 0 →
        (_cmd_raft leader nodeid rand raft_recv_entry cqueue req).calls
          = [HostCall.ReplyWithSimpleStringERROR req.client,
             HostCall.FreeThreadSafeContext req.client,
             HostCall.UnblockClient req.client] ∧
        (_cmd_raft leader nodeid rand raft_recv_entry cqueue req).cqueue = cqueue)) := by
  refine ⟨?_, ?_, ?_⟩
  · intro h; subst h; rfl
  · intro id addr h hne; subst h
    simp [_cmd_raft, hne]
  · intro addr h; subst h
    refine ⟨?_, ?_, ?_⟩
    · unfold _cmd_raft
      simp only [ne_eq, not_true_eq_false, if_false]
      split <;> rfl
    · intro h0
      simp [_cmd_raft, h0]
    · intro hne
      simp [_cmd_raft, hne]

theorem cmd_raft_three_way_witness :
    (_cmd_raft (some (1, ⟨[104], 5001⟩)) 1 42 (fun _ => (0, ⟨42, 3, 9⟩)) []
        ⟨7, [[83, 69, 84], [107], [118]], ⟨0, 0, 0⟩⟩).entry
      = some { id := 42, type := raft_logtype.RAFT_LOGTYPE_NORMAL,
               data := serialize_argv [[83, 69, 84], [107], [118]] } ∧
    (_cmd_raft (some (1, ⟨[104], 5001⟩)) 1 42 (fun _ => (0, ⟨42, 3, 9⟩)) []
        ⟨7, [[83, 69, 84], [107], [118]], ⟨0, 0, 0⟩⟩).calls = [] ∧
    (_cmd_raft (some (1, ⟨[104], 5001⟩)) 1 42 (fun _ => (0, ⟨42, 3, 9⟩)) []
        ⟨7, [[83, 69, 84], [107], [118]], ⟨0, 0, 0⟩⟩).cqueue
      = [⟨7, [[83, 69, 84], [107], [118]], ⟨42, 3, 9⟩⟩] :=
  ⟨((cmd_raft_three_way (some (1, ⟨[104], 5001⟩)) 1 42 (fun _ => (0, ⟨42, 3, 9⟩)) []
      ⟨7, [[83, 69, 84], [107], [118]], ⟨0, 0, 0⟩⟩).2.2 ⟨[104], 5001⟩ rfl).1,
   (((cmd_raft_three_way (some (1, ⟨[104], 5001⟩)) 1 42 (fun _ => (0, ⟨42, 3, 9⟩)) []
      ⟨7, [[83, 69, 84], [107], [118]], ⟨0, 0, 0⟩⟩).2.2 ⟨[104], 5001⟩ rfl).2.1 rfl).1,
   (((cmd_raft_three_way (some (1, ⟨[104], 5001⟩)) 1 42 (fun _ => (0, ⟨42, 3, 9⟩)) []
      ⟨7, [[83, 69, 84], [107], [118]], ⟨0, 0, 0⟩⟩).2.2 ⟨[104], 5001⟩ rfl).2.1 rfl).2⟩

/-! ## Application of a committed command on the leader -/

theorem execute_log_entry_serialize_argv (id : Int) (type : raft_logtype)
    (cmd : List Nat) (args : List (List Nat))
    (hargc : (cmd :: args).length + 1 < 2 ^ 31)
    (hlen : ∀ a ∈ cmd :: args, a.length < 2 ^ 64) :
    execute_log_entry { id := id, type := type, data := serialize_argv (cmd :: args) }
      = some [HostCall.ModuleContextLock, HostCall.Call (cmd :: args),
              HostCall.ModuleContextUnlock] := by
  unfold execute_log_entry
  simp only [deserialize_argv_serialize_argv (cmd :: args) hargc hlen]

/-- Claim C11, at the failing input: on the leader, `_cmd_raft` submits the entry
of a client command and puts the request on the commit queue; once the entry
is committed the library applies it through `__raft_applylog`, which calls
`execute_log_entry`, and `iterate_cqueue` calls `execute_committed_req` for
the request: the command is run against the data store twice. -/
theorem leader_executes_twice (addr : node_addr_t) (nodeid rand : Int)
    (raft_recv_entry : msg_entry_t → Int × msg_entry_response_t)
    (committed : msg_entry_response_t → Int)
    (client : Nat) (cmd : List Nat) (args : List (List Nat)) (resp : msg_entry_response_t)
    (hargc : (cmd :: args).length + 1 < 2 ^ 31)
    (hlen : ∀ a ∈ cmd :: args, a.length < 2 ^ 64)
    (hrecv : (raft_recv_entry { id := rand, type := raft_logtype.RAFT_LOGTYPE_NORMAL,
                                data := serialize_argv (cmd :: args) }).1 = 0)
    (hcommitted : committed
      (raft_recv_entry { id := rand, type := raft_logtype.RAFT_LOGTYPE_NORMAL,
                         data := serialize_argv (cmd :: args) }).2 = 1) :
    ∃ entry applied,
      (_cmd_raft (some (nodeid, addr)) nodeid rand raft_recv_entry []
        ⟨client, cmd :: args, resp⟩).entry = some entry ∧
      execute_log_entry entry = some applied ∧
      executedCommands
        (applied ++
          (iterate_cqueue committed
            (_cmd_raft (some (nodeid, addr)) nodeid rand raft_recv_entry []
              ⟨client, cmd :: args, resp⟩).cqueue).1)
        = [cmd :: args, cmd :: args] := by
  refine ⟨{ id := rand, type := raft_logtype.RAFT_LOGTYPE_NORMAL,
            data := serialize_argv (cmd :: args) }, _, ?_,
    execute_log_entry_serialize_argv rand _ cmd args hargc hlen, ?_⟩
  · simp [_cmd_raft, hrecv]
  · have h1 : ¬ committed
        (raft_recv_entry { id := rand, type := raft_logtype.RAFT_LOGTYPE_NORMAL,
                           data := serialize_argv (cmd :: args) }).2 = 0 := by
      rw [hcommitted]; decide
    simp [_cmd_raft, hrecv, iterate_cqueue, h1, execute_committed_req, executedCommands]

theorem leader_executes_twice_witness :
    ∃ entry applied,
      (_cmd_raft (some (1, ⟨[104], 5001⟩)) 1 42 (fun _ => (0, ⟨42, 3, 9⟩)) []
        ⟨7, [[83, 69, 84], [107], [118]], ⟨0, 0, 0⟩⟩).entry = some entry ∧
      execute_log_entry entry = some applied ∧
      executedCommands
        (applied ++
          (iterate_cqueue (fun _ => 1)
            (_cmd_raft (some (1, ⟨[104], 5001⟩)) 1 42 (fun _ => (0, ⟨42, 3, 9⟩)) []
              ⟨7, [[83, 69, 84], [107], [118]], ⟨0, 0, 0⟩⟩).cqueue).1)
        = [[[83, 69, 84], [107], [118]], [[83, 69, 84], [107], [118]]] :=
  leader_executes_twice ⟨[104], 5001⟩ 1 42 (fun _ => (0, ⟨42, 3, 9⟩)) (fun _ => 1)
    7 [83, 69, 84] [[107], [118]] ⟨0, 0, 0⟩ (by decide) (by decide) rfl rfl

/-! ## Draining the request queue -/

/-- Claim C13, at the failing input: the request queue holds the requests 1, 2
and 3, in this order (the contents after three calls of `enqueue_request`),
and the handler of request 1 is `_cmd_raft` on the leader, which links the
request into the commit queue through `entries` and so sets
`entries.stqe_next` of the head of the request queue to `NULL`.
`handle_cmd` dispatches request 1 only, `STAILQ_REMOVE_HEAD` leaves the
request queue empty, and requests 2 and 3 are never dispatched; request 1 is
freed while it is the content of the commit queue.  When no handler links its
request into the commit queue the three requests are dispatched in order. -/
theorem handle_cmd_drops_requests :
    stailqList (enqueue_request (enqueue_request (enqueue_request Links.init 1) 2) 3).next 10
        (enqueue_request (enqueue_request (enqueue_request Links.init 1) 2) 3).rqueue.stqh_first
      = [1, 2, 3] ∧
    handle_cmd_result (fun req => decide (req = 1)) 10
        (enqueue_request (enqueue_request (enqueue_request Links.init 1) 2) 3)
      = some ([1], [], [1], [1]) ∧
    handle_cmd_result (fun _ => false) 10
        (enqueue_request (enqueue_request (enqueue_request Links.init 1) 2) 3)
      = some ([1, 2, 3], [], [], [1, 2, 3]) := by
  decide

/-! ## Migration: the reply to RAFT.IMPORT -/

theorem transferKeysResponse_submits_only_on_OK (fill : Nat → Nat) (rand e : Int)
    (req : migrate_keys_t) (reply : Option redisReply) (calls : List MigrateCall)
    (h : transferKeysResponse fill rand e req reply = some calls)
    (hs : submittedEntries calls ≠ []) :
    reply = some { type := redis_reply_type.REDIS_REPLY_STATUS, str := [79, 75] } := by
  cases reply with
  | none =>
    simp only [transferKeysResponse, Option.some.injEq] at h
    subst h; exact absurd rfl hs
  | some r =>
    simp only [transferKeysResponse] at h
    by_cases h1 : r.type = redis_reply_type.REDIS_REPLY_ERROR
    · rw [if_pos h1] at h
      simp only [Option.some.injEq] at h
      subst h; exact absurd rfl hs
    · rw [if_neg h1] at h
      by_cases h2 : r.type ≠ redis_reply_type.REDIS_REPLY_STATUS ∨ r.str.length ≠ 2 ∨
          r.str.take 2 ≠ [79, 75]
      · rw [if_pos h2] at h
        simp only [Option.some.injEq] at h
        subst h; exact absurd rfl hs
      · have ht : r.type = redis_reply_type.REDIS_REPLY_STATUS := by
          by_contra hc; exact h2 (Or.inl hc)
        have hl : r.str.length = 2 := by
          by_contra hc; exact h2 (Or.inr (Or.inl hc))
        have hk : r.str.take 2 = [79, 75] := by
          by_contra hc; exact h2 (Or.inr (Or.inr hc))
        have hstr : r.str = [79, 75] := by
          rw [← hk, List.take_of_length_le (by omega)]
        cases r with
        | mk type str =>
          simp only at ht hstr
          rw [ht, hstr]

theorem transferKeysResponse_on_OK (fill : Nat → Nat) (rand e : Int)
    (req : migrate_keys_t) (entry : raft_entry_t)
    (h : RaftRedisLockKeysSerialize fill req.keys = some entry) :
    ∃ calls,
      transferKeysResponse fill rand e req
        (some { type := redis_reply_type.REDIS_REPLY_STATUS, str := [79, 75] }) = some calls ∧
      submittedEntries calls = [(raft_logtype.RAFT_LOGTYPE_DELETE_UNLOCK_KEYS, entry)] := by
  by_cases he : e ≠ 0
  · exact ⟨_, by simp [transferKeysResponse, raftAppendRaftDeleteEntry, h, he]; rfl,
      by simp [submittedEntries]⟩
  · exact ⟨_, by simp [transferKeysResponse, raftAppendRaftDeleteEntry, h, he]; rfl,
      by simp [submittedEntries]⟩

/-- Claim C14, at the failing input: for a migration of the single key `"a"`
the remote reply is the status `OK`, `transferKeysResponse` calls
`raftAppendRaftDeleteEntry`, `RaftRedisLockKeysSerialize` stops on
`assert (n != -1)`, and no entry is submitted. -/
theorem import_ack_single_key_aborts :
    RaftRedisLockKeysSerialize (fun _ => 0) [[97]] = none ∧
    transferKeysResponse (fun _ => 0) 42 0
        { keys := [[97]], keys_serialized := [some [1, 2, 3]],
          num_serialized_keys := 1, migrate_term := 5 }
        (some { type := redis_reply_type.REDIS_REPLY_STATUS, str := [79, 75] })
      = none := by
  decide

/-- Claim C15, as amended: called with a `NULL` reply, `transferKeysResponse`
marks the connection as disconnected and disconnects; it sends no reply to
the client, does not free the request and submits no entry.  The reply
`ERR: Migrate failed importing keys into remote cluster, try again` is the
one sent, and the request is freed, when the remote reply is an error
reply. -/
theorem transferKeysResponse_null_and_error (fill : Nat → Nat) (rand e : Int)
    (req : migrate_keys_t) (str : List Nat) :
    transferKeysResponse fill rand e req none
      = some [MigrateCall.ConnMarkDisconnected, MigrateCall.redisAsyncDisconnect] ∧
    transferKeysResponse fill rand e req
        (some { type := redis_reply_type.REDIS_REPLY_ERROR, str := str })
      = some [MigrateCall.ConnAsyncTerminate,
              MigrateCall.ReplyWithError MigrateError.migrate_failed_try_again,
              MigrateCall.RaftReqFree, MigrateCall.redisAsyncDisconnect] := by
  refine ⟨rfl, ?_⟩
  simp [transferKeysResponse]

/-- Claim C15 fails as stated: with a `NULL` reply the calls of
`transferKeysResponse` are `ConnMarkDisconnected` and `redisAsyncDisconnect`;
no reply is sent and `RaftReqFree` is not called. -/
theorem transferKeysResponse_null_counterexample :
    transferKeysResponse (fun _ => 0) 42 0
        { keys := [[107, 49], [107, 50]], keys_serialized := [some [1], some [2]],
          num_serialized_keys := 2, migrate_term := 5 } none
      = some [MigrateCall.ConnMarkDisconnected, MigrateCall.redisAsyncDisconnect] ∧
    MigrateCall.ReplyWithError MigrateError.migrate_failed_try_again ∉
      [MigrateCall.ConnMarkDisconnected, MigrateCall.redisAsyncDisconnect] ∧
    MigrateCall.RaftReqFree ∉
      [MigrateCall.ConnMarkDisconnected, MigrateCall.redisAsyncDisconnect] := by
  decide

/-! ## Migration: the arguments of RAFT.IMPORT -/

theorem setSlot_append (pre : List (Option (List Nat))) (x : Option (List Nat))
    (rest : List (Option (List Nat))) (v : List Nat) :
    setSlot (pre ++ x :: rest) pre.length v = some (pre ++ some v :: rest) := by
  unfold setSlot
  have h : pre.length < (pre ++ x :: rest).length := by simp
  rw [if_pos h]
  congr 1
  induction pre with
  | nil => rfl
  | cons a pre ih =>
    simp only [List.cons_append, List.length_cons, List.set_cons_succ]
    rw [ih (by simp)]

theorem transferKeysLoop_missing (missing : List (List Nat)) :
    ∀ (i : Nat) (argv : List (Option (List Nat))),
      transferKeysLoop i (missing.map (fun k => (k, none))) argv = some argv := by
  induction missing with
  | nil => intro i argv; rfl
  | cons k missing ih =>
    intro i argv
    simp only [List.map_cons, transferKeysLoop]
    exact ih (i + 1) argv

theorem transferKeysLoop_present (present : List (List Nat × List Nat))
    (hnul : ∀ p ∈ present, 0 ∉ p.1) :
    ∀ (i : Nat) (pre : List (Option (List Nat)))
      (tailPairs : List (List Nat × Option (List Nat))),
      pre.length = 3 + i * 2 →
      transferKeysLoop i (present.map (fun p => (p.1, some p.2)) ++ tailPairs)
          (pre ++ List.replicate (present.length * 2) none)
        = transferKeysLoop (i + present.length) tailPairs
            (pre ++ (importPairs present).map some) := by
  induction present with
  | nil => intro i pre tailPairs _; simp [importPairs]
  | cons p present ih =>
    intro i pre tailPairs hpre
    have hp : 0 ∉ p.1 := hnul p (List.mem_cons_self _ _)
    have hrep : List.replicate ((p :: present).length * 2) (none : Option (List Nat))
        = none :: none :: List.replicate (present.length * 2) none := by
      rw [List.length_cons, Nat.succ_mul]
      rfl
    have h1 : setSlot (pre ++ none :: none :: List.replicate (present.length * 2) none)
        (3 + i * 2) p.1
        = some (pre ++ some p.1 :: none :: List.replicate (present.length * 2) none) := by
      rw [← hpre]; exact setSlot_append pre none _ p.1
    have h2 : setSlot (pre ++ some p.1 :: none :: List.replicate (present.length * 2) none)
        (3 + i * 2 + 1) p.2
        = some ((pre ++ [some p.1, some p.2]) ++ List.replicate (present.length * 2) none) := by
      have e : pre ++ some p.1 :: none :: List.replicate (present.length * 2) none
          = (pre ++ [some p.1]) ++ none :: List.replicate (present.length * 2) none := by
        simp
      have hl : 3 + i * 2 + 1 = (pre ++ [some p.1]).length := by simp [hpre]
      rw [e, hl, setSlot_append]
      simp
    rw [hrep, List.map_cons, List.cons_append, transferKeysLoop]
    simp only [hp, if_false, h1, h2]
    rw [ih (fun q hq => hnul q (List.mem_cons_of_mem _ hq)) (i + 1)
      (pre ++ [some p.1, some p.2]) tailPairs (by simp [hpre]; omega)]
    have e3 : i + 1 + present.length = i + (p :: present).length := by
      simp only [List.length_cons]; omega
    rw [e3]
    simp [importPairs]

theorem zip_present (present : List (List Nat × List Nat)) :
    List.zip (present.map (fun p => p.1)) (present.map (fun p => some p.2))
      = present.map (fun p => (p.1, some p.2)) := by
  induction present with
  | nil => rfl
  | cons p ps ih => simp only [List.map_cons, List.zip_cons_cons, ih]

theorem zip_missing (missing : List (List Nat)) :
    List.zip missing (missing.map (fun _ => (none : Option (List Nat))))
      = missing.map (fun k => (k, none)) := by
  induction missing with
  | nil => rfl
  | cons k ks ih => simp only [List.map_cons, List.zip_cons_cons, ih]

/-- Claim C16, as amended: when the keys that exist locally come first in the
key list and the missing keys (the holes of `keys_serialized`) after them,
no key name holds a NUL byte and `num_serialized_keys` is the number of
non-hole slots, the argument vector built by `transferKeys` has
`3 + 2 * num_serialized_keys` slots, all set: `RAFT.IMPORT`, the migrate
term, a third argument of length 0, and then for each non-hole key in key
order its name and its dump payload. -/
theorem transferKeys_argv (term : Nat) (present : List (List Nat × List Nat))
    (missing : List (List Nat)) (hnul : ∀ p ∈ present, 0 ∉ p.1) :
    transferKeysArgv
        { keys := present.map (fun p => p.1) ++ missing,
          keys_serialized := present.map (fun p => some p.2) ++ missing.map (fun _ => none),
          num_serialized_keys := present.length,
          migrate_term := term }
      = some ((RAFT_IMPORT :: decimal term :: [] :: importPairs present).map some) := by
  unfold transferKeysArgv
  have hz : List.zip (present.map (fun p => p.1) ++ missing)
      (present.map (fun p => some p.2) ++ missing.map (fun _ => (none : Option (List Nat))))
      = present.map (fun p => (p.1, some p.2)) ++ missing.map (fun k => (k, none)) := by
    rw [List.zip_append (by simp), zip_present, zip_missing]
  simp only [hz]
  have h := transferKeysLoop_present present hnul 0
    [some RAFT_IMPORT, some (decimal term), some []]
    (missing.map (fun k => (k, none))) (by simp)
  simp only [List.cons_append, List.nil_append] at h
  rw [h, transferKeysLoop_missing]
  simp

theorem transferKeys_argv_witness :
    (∀ p ∈ [([107, 49], [1, 1]), ([107, 50], [2, 2])], 0 ∉ p.1) ∧
    transferKeysArgv
        { keys := [([107, 49], [1, 1]), ([107, 50], [2, 2])].map (fun p => p.1) ++ [[107, 51]],
          keys_serialized :=
            [([107, 49], [1, 1]), ([107, 50], [2, 2])].map (fun p => some p.2) ++
              [[107, 51]].map (fun _ => none),
          num_serialized_keys := [([107, 49], [1, 1]), ([107, 50], [2, 2])].length,
          migrate_term := 5 }
      = some ((RAFT_IMPORT :: decimal 5 :: [] ::
          importPairs [([107, 49], [1, 1]), ([107, 50], [2, 2])]).map some) :=
  ⟨by decide,
   transferKeys_argv 5 [([107, 49], [1, 1]), ([107, 50], [2, 2])] [[107, 51]] (by decide)⟩

/-- Claim C16 fails as stated.  For the keys `k1`, `k2`, `k3` with `k3`
missing the vector has seven arguments, the third one of length 0, and not
the six of `RAFT.IMPORT <term> k1 dump(v1) k2 dump(v2)`.  For the keys `k1`,
`k2` with `k1` missing, `argc` is 5 and the loop stores the name of `k2` into
`argv[5]`, outside the array. -/
theorem transferKeys_argv_counterexample :
    transferKeysArgv
        { keys := [[107, 49], [107, 50], [107, 51]],
          keys_serialized := [some [1, 1], some [2, 2], none],
          num_serialized_keys := 2, migrate_term := 5 }
      = some [some RAFT_IMPORT, some [53], some [], some [107, 49], some [1, 1],
              some [107, 50], some [2, 2]] ∧
    transferKeysArgv
        { keys := [[107, 49], [107, 50]],
          keys_serialized := [none, some [2, 2]],
          num_serialized_keys := 1, migrate_term := 5 }
      = none := by
  decide

/-! ## Key-lock format: the keys that are listed -/

theorem keyLt_irrefl (a : List Nat) : keyLt a a = false := by
  induction a with
  | nil => rfl
  | cons x xs ih => simp [keyLt, ih]

theorem keyLt_trans (a : List Nat) :
    ∀ b c : List Nat, keyLt a b = true → keyLt b c = true → keyLt a c = true := by
  induction a with
  | nil =>
    intro b c hab hbc
    cases b with
    | nil => simp [keyLt] at hab
    | cons y ys =>
      cases c with
      | nil => simp [keyLt] at hbc
      | cons z zs => rfl
  | cons x xs ih =>
    intro b c hab hbc
    cases b with
    | nil => simp [keyLt] at hab
    | cons y ys =>
      cases c with
      | nil => simp [keyLt] at hbc
      | cons z zs =>
        simp only [keyLt] at hab hbc ⊢
        by_cases hxy : x < y
        · by_cases hyz : y < z
          · have : x < z := by omega
            simp [this]
          · simp only [hyz, if_false] at hbc
            by_cases hzy : z < y
            · simp [hzy] at hbc
            · have : x < z := by omega
              simp [this]
        · simp only [hxy, if_false] at hab
          by_cases hyx : y < x
          · simp [hyx] at hab
          · simp only [hyx, if_false] at hab
            have hxy' : x = y := by omega
            subst hxy'
            by_cases hxz : x < z
            · simp [hxz]
            · simp only [hxz, if_false] at hbc ⊢
              by_cases hzx : z < x
              · simp [hzx] at hbc
              · simp only [hzx, if_false] at hbc ⊢
                exact ih ys zs hab hbc

theorem keyLt_total (a : List Nat) :
    ∀ b : List Nat, keyLt a b = false → a ≠ b → keyLt b a = true := by
  induction a with
  | nil =>
    intro b hab hne
    cases b with
    | nil => exact absurd rfl hne
    | cons y ys => simp [keyLt] at hab
  | cons x xs ih =>
    intro b hab hne
    cases b with
    | nil => rfl
    | cons y ys =>
      simp only [keyLt] at hab ⊢
      by_cases hxy : x < y
      · simp [hxy] at hab
      · simp only [hxy, if_false] at hab
        by_cases hyx : y < x
        · simp [hyx]
        · simp only [hyx, if_false] at hab ⊢
          have hxy' : x = y := by omega
          subst hxy'
          simp only [Nat.lt_irrefl, if_false]
          exact ih ys hab (fun h => hne (by rw [h]))

theorem mem_dictInsert (key : List Nat) (keys : List (List Nat)) (x : List Nat) :
    x ∈ dictInsert key keys ↔ x = key ∨ x ∈ keys := by
  induction keys with
  | nil => simp [dictInsert]
  | cons k ks ih =>
    simp only [dictInsert]
    split
    · simp
    · simp only [List.mem_cons, ih]
      tauto

theorem length_dictInsert (key : List Nat) (keys : List (List Nat)) :
    (dictInsert key keys).length = keys.length + 1 := by
  induction keys with
  | nil => rfl
  | cons k ks ih =>
    simp only [dictInsert]
    split
    · simp
    · simp [ih]

theorem keysSize_dictInsert (key : List Nat) (keys : List (List Nat)) :
    keysSize (dictInsert key keys) = keysSize keys + (key.length + 1) := by
  induction keys with
  | nil => simp [dictInsert, keysSize]
  | cons k ks ih =>
    simp only [dictInsert]
    split
    · simp only [keysSize]; omega
    · simp only [keysSize, ih]; omega

theorem sorted_dictInsert (key : List Nat) (keys : List (List Nat))
    (hs : keys.Pairwise (fun a b => keyLt a b = true)) (hk : key ∉ keys) :
    (dictInsert key keys).Pairwise (fun a b => keyLt a b = true) := by
  induction keys with
  | nil => simp [dictInsert]
  | cons k ks ih =>
    rw [List.pairwise_cons] at hs
    have hne : key ≠ k := fun h => hk (by rw [h]; exact List.mem_cons_self _ _)
    have hks : key ∉ ks := fun h => hk (List.mem_cons_of_mem _ h)
    simp only [dictInsert]
    by_cases hlt : keyLt key k = true
    · rw [if_pos hlt, List.pairwise_cons]
      refine ⟨?_, List.pairwise_cons.2 hs⟩
      intro x hx
      rcases List.mem_cons.1 hx with hx | hx
      · rw [hx]; exact hlt
      · exact keyLt_trans key k x hlt (hs.1 x hx)
    · rw [if_neg hlt, List.pairwise_cons]
      refine ⟨?_, ih hs.2 hks⟩
      intro x hx
      rcases (mem_dictInsert key ks x).1 hx with hx | hx
      · rw [hx]
        exact keyLt_total key k (by simpa using hlt) hne
      · exact hs.1 x hx

theorem lockKeysCollect_spec (argv : List (List Nat)) :
    ∀ keys : List (List Nat), keys.Pairwise (fun a b => keyLt a b = true) →
      (lockKeysCollect argv (keys, keysSize keys, keys.length)).2
          = (keysSize (lockKeysCollect argv (keys, keysSize keys, keys.length)).1,
             (lockKeysCollect argv (keys, keysSize keys, keys.length)).1.length) ∧
      (lockKeysCollect argv (keys, keysSize keys, keys.length)).1.Pairwise
          (fun a b => keyLt a b = true) ∧
      ∀ x, x ∈ (lockKeysCollect argv (keys, keysSize keys, keys.length)).1
          ↔ x ∈ keys ∨ x ∈ argv := by
  induction argv with
  | nil => intro keys hs; simp [lockKeysCollect, hs]
  | cons arg rest ih =>
    intro keys hs
    by_cases hmem : arg ∈ keys
    · have e : lockKeysCollect (arg :: rest) (keys, keysSize keys, keys.length)
          = lockKeysCollect rest (keys, keysSize keys, keys.length) := by
        simp [lockKeysCollect, RedisModule_DictSet, hmem]
      rw [e]
      obtain ⟨h1, h2, h3⟩ := ih keys hs
      refine ⟨h1, h2, ?_⟩
      intro x
      rw [h3 x, List.mem_cons]
      constructor
      · rintro (h | h)
        · exact Or.inl h
        · exact Or.inr (Or.inr h)
      · rintro (h | h | h)
        · exact Or.inl h
        · rw [h]; exact Or.inl hmem
        · exact Or.inr h
    · have e : lockKeysCollect (arg :: rest) (keys, keysSize keys, keys.length)
          = lockKeysCollect rest (dictInsert arg keys, keysSize (dictInsert arg keys),
              (dictInsert arg keys).length) := by
        simp [lockKeysCollect, RedisModule_DictSet, hmem, keysSize_dictInsert,
          length_dictInsert]
      rw [e]
      obtain ⟨h1, h2, h3⟩ := ih (dictInsert arg keys) (sorted_dictInsert arg keys hs hmem)
      refine ⟨h1, h2, ?_⟩
      intro x
      rw [h3 x, mem_dictInsert, List.mem_cons]
      tauto

theorem lockKeysWrite_spec (keys : List (List Nat)) :
    ∀ extra : Nat, lockKeysWrite keys (keysSize keys + extra) = some (keysBytes keys, extra) := by
  induction keys with
  | nil => intro extra; simp [lockKeysWrite, keysSize, keysBytes]
  | cons k ks ih =>
    intro extra
    have hnot : ¬ (keysSize (k :: ks) + extra < k.length + 1) := by
      simp only [keysSize]; omega
    have hsub : keysSize (k :: ks) + extra - (k.length + 1) = keysSize ks + extra := by
      simp only [keysSize]; omega
    rw [lockKeysWrite, if_neg hnot, hsub, ih]
    rfl

theorem RaftRedisLockKeysSerialize_some (fill : Nat → Nat) (argv : List (List Nat))
    (e : raft_entry_t) (hn : argv.length < 2 ^ 64)
    (h : RaftRedisLockKeysSerialize fill argv = some e) :
    ∃ listed : List (List Nat),
      (∀ k, k ∈ listed ↔ k ∈ argv) ∧
      listed.Pairwise (fun a b => keyLt a b = true) ∧
      e.data_len = calcIntSerializedLen listed.length + keysSize listed ∧
      encUint 42 listed.length ++ keysBytes listed <+: e.data := by
  obtain ⟨h1, h2, h3⟩ := lockKeysCollect_spec argv [] List.Pairwise.nil
  have h0 : (([] : List (List Nat)), keysSize [], ([] : List (List Nat)).length)
      = (([] : List (List Nat)), 0, 0) := rfl
  rw [h0] at h1 h2 h3
  generalize hc : lockKeysCollect argv ([], 0, 0) = st at h1 h2 h3
  obtain ⟨keys, total, num⟩ := st
  simp only [Prod.mk.injEq] at h1
  obtain ⟨ht, hnum⟩ := h1
  simp only at h2 h3
  have hlen : keys.length ≤ argv.length := by
    have hnd : keys.Nodup := by
      refine List.Pairwise.imp_of_mem ?_ h2
      intro a b _ _ hab heq
      rw [heq, keyLt_irrefl] at hab
      cases hab
    have hsub : keys ⊆ argv := by
      intro x hx
      rcases (h3 x).1 hx with hx | hx
      · cases hx
      · exact hx
    exact (List.Nodup.subperm hnd hsub).length_le
  unfold RaftRedisLockKeysSerialize at h
  rw [hc] at h
  simp only at h
  cases henc : encodeInteger 42 total num with
  | none => rw [henc] at h; cases h
  | some hdr =>
    rw [henc] at h
    simp only at h
    have hw := lockKeysWrite_spec keys 0
    rw [Nat.add_zero, ← ht] at hw
    rw [hw] at h
    simp only [ne_eq, not_true_eq_false, if_false, Option.some.injEq] at h
    have hhdr : hdr = encUint 42 keys.length := by
      unfold encodeInteger at henc
      simp only at henc
      split at henc
      · cases henc
      · simp only [Option.some.injEq] at henc
        rw [← henc, hnum, Nat.mod_eq_of_lt (by omega)]
        rfl
    refine ⟨keys, ?_, h2, ?_, ?_⟩
    · intro k
      rw [h3 k]
      simp
    · rw [← h]
      simp [raft_entry_new, hnum, ht]
    · rw [← h, hhdr]
      exact ⟨_, rfl⟩

/-! ## Migration: the DeleteUnlockKeys entry -/

/-- Claim C17, as amended: the DeleteUnlockKeys entry that
`transferKeysResponse` submits on the status reply `OK` is built from
`req->r.migrate_keys.keys`, the whole key list of the request: its payload
begins with `'*' k '\n'` and the `k` listed keys, each followed by a NUL byte,
where the listed keys are exactly the keys of the request, each once, in
lexicographic order, whether they existed locally or not
(`keys_serialized` is not read). -/
theorem delete_entry_lists_requested_keys (fill : Nat → Nat) (rand e : Int)
    (req : migrate_keys_t) (calls : List MigrateCall) (hn : req.keys.length < 2 ^ 64)
    (h : transferKeysResponse fill rand e req
      (some { type := redis_reply_type.REDIS_REPLY_STATUS, str := [79, 75] }) = some calls) :
    ∃ (entry : raft_entry_t) (listed : List (List Nat)),
      submittedEntries calls = [(raft_logtype.RAFT_LOGTYPE_DELETE_UNLOCK_KEYS, entry)] ∧
      (∀ k, k ∈ listed ↔ k ∈ req.keys) ∧
      listed.Pairwise (fun a b => keyLt a b = true) ∧
      encUint 42 listed.length ++ keysBytes listed <+: entry.data := by
  cases hser : RaftRedisLockKeysSerialize fill req.keys with
  | none =>
    simp [transferKeysResponse, raftAppendRaftDeleteEntry, hser] at h
  | some entry =>
    obtain ⟨calls', hc, hsub⟩ := transferKeysResponse_on_OK fill rand e req entry hser
    rw [hc] at h
    simp only [Option.some.injEq] at h
    subst h
    obtain ⟨listed, hmem, hsorted, _, hpre⟩ :=
      RaftRedisLockKeysSerialize_some fill req.keys entry hn hser
    exact ⟨entry, listed, hsub, hmem, hsorted, hpre⟩

theorem delete_entry_lists_requested_keys_witness :
    ∃ (entry : raft_entry_t) (listed : List (List Nat)),
      submittedEntries
          [MigrateCall.ConnAsyncTerminate,
           MigrateCall.raft_recv_entry 42 raft_logtype.RAFT_LOGTYPE_DELETE_UNLOCK_KEYS
             { data_len := 12, data := [42, 51, 10, 107, 49, 0, 107, 50, 0, 107, 51, 0] },
           MigrateCall.redisAsyncDisconnect]
        = [(raft_logtype.RAFT_LOGTYPE_DELETE_UNLOCK_KEYS, entry)] ∧
      (∀ k, k ∈ listed ↔ k ∈ [[107, 49], [107, 50], [107, 51]]) ∧
      listed.Pairwise (fun a b => keyLt a b = true) ∧
      encUint 42 listed.length ++ keysBytes listed <+: entry.data :=
  delete_entry_lists_requested_keys (fun _ => 0) 42 0
    { keys := [[107, 49], [107, 50], [107, 51]],
      keys_serialized := [some [1, 1], some [2, 2], none],
      num_serialized_keys := 2, migrate_term := 5 }
    [MigrateCall.ConnAsyncTerminate,
     MigrateCall.raft_recv_entry 42 raft_logtype.RAFT_LOGTYPE_DELETE_UNLOCK_KEYS
       { data_len := 12, data := [42, 51, 10, 107, 49, 0, 107, 50, 0, 107, 51, 0] },
     MigrateCall.redisAsyncDisconnect]
    (by decide) (by decide)

/-- Claim C17 fails as stated: for the keys `k1`, `k2`, `k3` with `k3` missing
locally, the entry submitted on `OK` has the payload `"*3\nk1\0k2\0k3\0"`: it
lists `k3` as well. -/
theorem delete_entry_counterexample :
    transferKeysResponse (fun _ => 0) 42 0
        { keys := [[107, 49], [107, 50], [107, 51]],
          keys_serialized := [some [1, 1], some [2, 2], none],
          num_serialized_keys := 2, migrate_term := 5 }
        (some { type := redis_reply_type.REDIS_REPLY_STATUS, str := [79, 75] })
      = some [MigrateCall.ConnAsyncTerminate,
              MigrateCall.raft_recv_entry 42 raft_logtype.RAFT_LOGTYPE_DELETE_UNLOCK_KEYS
                { data_len := 12,
                  data := [42, 51, 10, 107, 49, 0, 107, 50, 0, 107, 51, 0] },
              MigrateCall.redisAsyncDisconnect] := by
  decide

/-! ## Node ids -/

theorem cmd_raft_addnode_valid_id (StringToLongLong : List Nat → Option Int)
    (parse_node_addr : List Nat → Option node_addr_t)
    (client : Nat) (argv : List (List Nat)) (req : addnode_req_t)
    (h : (cmd_raft_addnode StringToLongLong parse_node_addr client argv).2 = some req) :
    req.id > 0 := by
  rcases argv with _ | ⟨a0, _ | ⟨a1, _ | ⟨a2, _ | ⟨a3, r⟩⟩⟩⟩
  · cases h
  · cases h
  · cases h
  · simp only [cmd_raft_addnode] at h
    cases hs : StringToLongLong a1 with
    | none => rw [hs] at h; cases h
    | some node_id =>
      rw [hs] at h
      simp only at h
      by_cases hv : VALID_NODE_ID node_id = true
      · have hn : ¬ ¬ VALID_NODE_ID node_id = true := fun hc => hc hv
        rw [if_neg hn] at h
        cases hp : parse_node_addr a2 with
        | none => rw [hp] at h; cases h
        | some node_addr =>
          rw [hp] at h
          simp only [Option.some.injEq] at h
          rw [← h]
          simpa [VALID_NODE_ID] using hv
      · rw [if_pos hv] at h; cases h
  · cases h

theorem takeWhile_colon (idtext addrtext : List Nat) (hcolon : 58 ∉ idtext) :
    (idtext ++ 58 :: addrtext).takeWhile (fun c => decide (c ≠ 58)) = idtext := by
  induction idtext with
  | nil => simp [List.takeWhile]
  | cons c cs ih =>
    have hc : c ≠ 58 := fun h => hcolon (by rw [h]; exact List.mem_cons_self _ _)
    have hcs : 58 ∉ cs := fun h => hcolon (List.mem_cons_of_mem _ h)
    simp only [List.cons_append, List.takeWhile_cons, hc, ne_eq, not_false_eq_true,
      decide_True, if_true]
    simpa using ih hcs

theorem dropWhile_colon (idtext addrtext : List Nat) (hcolon : 58 ∉ idtext) :
    ((idtext ++ 58 :: addrtext).dropWhile (fun c => decide (c ≠ 58))).drop 1 = addrtext := by
  induction idtext with
  | nil => simp [List.dropWhile]
  | cons c cs ih =>
    have hc : c ≠ 58 := fun h => hcolon (by rw [h]; exact List.mem_cons_self _ _)
    have hcs : 58 ∉ cs := fun h => hcolon (List.mem_cons_of_mem _ h)
    simp only [List.cons_append, List.dropWhile_cons, hc, ne_eq, not_false_eq_true,
      decide_True, if_true]
    simpa using ih hcs

theorem RedisModule_OnLoad_local_id (StringToLongLong : List Nat → Option Int)
    (strtoul : List Nat → Nat) (parse_node_addr : List Nat → Option node_addr_t)
    (module_ok setup_ok : Bool) (argv : List (List Nat)) (enqueued : List addnode_req_t)
    (h : RedisModule_OnLoad StringToLongLong strtoul parse_node_addr module_ok setup_ok argv
      = some (true, enqueued)) :
    ∃ arg0 peers id, argv = arg0 :: peers ∧ StringToLongLong arg0 = some id ∧ id > 0 := by
  unfold RedisModule_OnLoad at h
  split at h
  · cases h
  · split at h
    · cases h
    · rename_i arg0 peers
      split at h
      · cases h
      · rename_i id hid
        split at h
        · cases h
        · rename_i hpos
          exact ⟨arg0, peers, id, rfl, hid, by omega⟩

/-- Claim C18, at the failing input: the module is loaded with a valid local
node id and one peer argument `id:addr` whose id text makes `strtoul` return
0 (the text `0`, or a text that is not a number); `RedisModule_OnLoad` does
not test the value, enqueues an AddNode request with node id 0 and returns
`REDISMODULE_OK`. -/
theorem onLoad_enqueues_node_id_zero (StringToLongLong : List Nat → Option Int)
    (strtoul : List Nat → Nat) (parse_node_addr : List Nat → Option node_addr_t)
    (arg0 idtext addrtext : List Nat) (id : Int) (addr : node_addr_t)
    (hid : StringToLongLong arg0 = some id) (hpos : id > 0)
    (hcolon : 58 ∉ idtext) (hzero : strtoul idtext = 0)
    (haddr : parse_node_addr addrtext = some addr) :
    RedisModule_OnLoad StringToLongLong strtoul parse_node_addr true true
        [arg0, idtext ++ 58 :: addrtext]
      = some (true, [{ client := none, id := 0, addr := addr }]) := by
  have htake := takeWhile_colon idtext addrtext hcolon
  have hdrop := dropWhile_colon idtext addrtext hcolon
  have hmem : ¬ (58 ∉ idtext ++ 58 :: addrtext) := by simp
  have hnot : ¬ id ≤ 0 := by omega
  unfold RedisModule_OnLoad
  simp only [hid, hnot, if_false, not_true_eq_false]
  rw [onLoadPeers, if_neg hmem, hdrop, haddr]
  simp only [htake, hzero]
  rfl

theorem onLoad_enqueues_node_id_zero_witness :
    readDecimal [49] = some 1 ∧ readLeadingDigits [48] = 0 ∧
    RedisModule_OnLoad readDecimal readLeadingDigits (fun _ => some ⟨[104], 5001⟩) true true
        [[49], [48] ++ 58 :: [104, 58, 53, 48, 48, 49]]
      = some (true, [{ client := none, id := 0, addr := ⟨[104], 5001⟩ }]) :=
  ⟨by decide, by decide,
   onLoad_enqueues_node_id_zero readDecimal readLeadingDigits (fun _ => some ⟨[104], 5001⟩)
    [49] [48] [104, 58, 53, 48, 48, 49] 1 ⟨[104], 5001⟩ (by decide) (by decide) (by decide)
    (by decide) rfl⟩

/-! ## The string codec of `serialization_utils.c` -/

theorem utils_calcIntSerializedLen_exact {v : Nat} (h : v < 2 ^ 64) :
    Utils.calcIntSerializedLen v = (decimal v).length + 2 := by
  unfold Utils.calcIntSerializedLen
  by_cases h1 : v < 10
  · rw [if_pos h1]
    have := decimal_length_le 0 v (by omega); have := decimal_length_pos v; omega
  rw [if_neg h1]
  by_cases h2 : v < 100
  · rw [if_pos h2]
    have := decimal_length_le 1 v (by omega)
    have := decimal_length_ge 1 v (by omega)
    omega
  rw [if_neg h2]
  by_cases h3 : v < 1000
  · rw [if_pos h3]
    have := decimal_length_le 2 v (by omega)
    have := decimal_length_ge 2 v (by omega)
    omega
  rw [if_neg h3]
  by_cases h4 : v < 10000
  · rw [if_pos h4]
    have := decimal_length_le 3 v (by omega)
    have := decimal_length_ge 3 v (by omega)
    omega
  rw [if_neg h4]
  by_cases h5 : v < 100000
  · rw [if_pos h5]
    have := decimal_length_le 4 v (by omega)
    have := decimal_length_ge 4 v (by omega)
    omega
  rw [if_neg h5]
  by_cases h6 : v < 1000000
  · rw [if_pos h6]
    have := decimal_length_le 5 v (by omega)
    have := decimal_length_ge 5 v (by omega)
    omega
  rw [if_neg h6]
  by_cases h7 : v < 10000000
  · rw [if_pos h7]
    have := decimal_length_le 6 v (by omega)
    have := decimal_length_ge 6 v (by omega)
    omega
  rw [if_neg h7]
  by_cases h8 : v < 100000000
  · rw [if_pos h8]
    have := decimal_length_le 7 v (by omega)
    have := decimal_length_ge 7 v (by omega)
    omega
  rw [if_neg h8]
  by_cases h9 : v < 1000000000
  · rw [if_pos h9]
    have := decimal_length_le 8 v (by omega)
    have := decimal_length_ge 8 v (by omega)
    omega
  rw [if_neg h9]
  by_cases h10 : v < 10000000000
  · rw [if_pos h10]
    have := decimal_length_le 9 v (by omega)
    have := decimal_length_ge 9 v (by omega)
    omega
  rw [if_neg h10]
  by_cases h11 : v < 100000000000
  · rw [if_pos h11]
    have := decimal_length_le 10 v (by omega)
    have := decimal_length_ge 10 v (by omega)
    omega
  rw [if_neg h11]
  by_cases h12 : v < 1000000000000
  · rw [if_pos h12]
    have := decimal_length_le 11 v (by omega)
    have := decimal_length_ge 11 v (by omega)
    omega
  rw [if_neg h12]
  by_cases h13 : v < 10000000000000
  · rw [if_pos h13]
    have := decimal_length_le 12 v (by omega)
    have := decimal_length_ge 12 v (by omega)
    omega
  rw [if_neg h13]
  by_cases h14 : v < 100000000000000
  · rw [if_pos h14]
    have := decimal_length_le 13 v (by omega)
    have := decimal_length_ge 13 v (by omega)
    omega
  rw [if_neg h14]
  by_cases h15 : v < 1000000000000000
  · rw [if_pos h15]
    have := decimal_length_le 14 v (by omega)
    have := decimal_length_ge 14 v (by omega)
    omega
  rw [if_neg h15]
  by_cases h16 : v < 10000000000000000
  · rw [if_pos h16]
    have := decimal_length_le 15 v (by omega)
    have := decimal_length_ge 15 v (by omega)
    omega
  rw [if_neg h16]
  by_cases h17 : v < 100000000000000000
  · rw [if_pos h17]
    have := decimal_length_le 16 v (by omega)
    have := decimal_length_ge 16 v (by omega)
    omega
  rw [if_neg h17]
  by_cases h18 : v < 1000000000000000000
  · rw [if_pos h18]
    have := decimal_length_le 17 v (by omega)
    have := decimal_length_ge 17 v (by omega)
    omega
  rw [if_neg h18]
  by_cases h19 : v < 10000000000000000000
  · rw [if_pos h19]
    have := decimal_length_le 18 v (by omega)
    have := decimal_length_ge 18 v (by omega)
    omega
  rw [if_neg h19]
  have := decimal_length_le 19 v (by omega)
  have := decimal_length_ge 19 v (by omega)
  omega

theorem encodeInteger_some {pfx sz v : Nat} {hdr : List Nat}
    (h : encodeInteger pfx sz v = some hdr) : hdr = encUint pfx (v % 2 ^ 64) := by
  unfold encodeInteger at h
  simp only at h
  split at h
  · cases h
  · simp only [Option.some.injEq] at h
    rw [← h]; rfl

theorem utils_calcSerializeStringSize_eq (str : Option (List Nat)) :
    Utils.calcSerializeStringSize str
      = Utils.calcIntSerializedLen (str.getD []).length + (str.getD []).length + 1 := by
  cases str with
  | none => rfl
  | some s => rfl

theorem utils_decodeString_encField (e rest : List Nat) (h31 : (encField e).length < 2 ^ 31)
    (he : e.length < 2 ^ 64) :
    Utils.decodeString (encField e ++ rest) = some (((encField e).length : Int), e) := by
  have hb : encField e ++ rest = encUint 36 e.length ++ (e ++ 10 :: rest) := by
    simp [encField]
  have hl : (encField e).length = (encUint 36 e.length).length + e.length + 1 := by
    simp [encField]; omega
  unfold Utils.decodeString
  rw [hb, decodeInteger_encUint]
  simp only [List.drop_left, Nat.mod_eq_of_lt he]
  have hnot : ¬ (e.length ≥ (e ++ 10 :: rest).length) := by simp
  rw [if_neg hnot, List.take_left, toInt_of_lt (by omega), hl]

/-- Claim C19, as amended: for every string `s` (`NULL` counting as the empty
string) and every buffer size `sz` below `2 ^ 31`, `encodeString` succeeds
exactly when `sz >= calcSerializeStringSize(s)`; when it succeeds it returns
`calcSerializeStringSize(s)` and writes `'$' len '\n' bytes '\n'`, and
`decodeString` applied to these bytes (whatever follows them) returns the same
byte count and a string equal to `s`; otherwise it returns `-1`. -/
theorem encodeString_roundtrip (sz : Nat) (str : Option (List Nat)) (hsz : sz < 2 ^ 31) :
    (Utils.calcSerializeStringSize str ≤ sz →
      Utils.encodeString sz str
          = some ((Utils.calcSerializeStringSize str : Int), encField (str.getD [])) ∧
      ∀ rest : List Nat,
        Utils.decodeString (encField (str.getD []) ++ rest)
          = some ((Utils.calcSerializeStringSize str : Int), str.getD [])) ∧
    (sz < Utils.calcSerializeStringSize str → Utils.encodeString sz str = none) := by
  unfold Utils.encodeString
  rw [utils_calcSerializeStringSize_eq]
  generalize str.getD [] = e
  have hfl : (encField e).length = (encUint 36 e.length).length + e.length + 1 := by
    simp [encField]; omega
  refine ⟨?_, ?_⟩
  · intro hle
    have he : e.length < 2 ^ 64 := by omega
    have hex := utils_calcIntSerializedLen_exact he
    have hul := encUint_length 36 e.length
    have hcalc : Utils.calcIntSerializedLen e.length + e.length + 1 = (encField e).length := by
      omega
    refine ⟨?_, ?_⟩
    · rw [encodeInteger_ok 36 he (by omega) hsz]
      have hnot : ¬ (e.length ≥ sz - (encUint 36 e.length).length) := by omega
      simp only [hnot, if_false]
      rw [toInt_of_lt (by omega), hcalc, hfl]
      rfl
    · intro rest
      rw [hcalc]
      exact utils_decodeString_encField e rest (by omega) he
  · intro hlt
    cases henc : encodeInteger 36 sz e.length with
    | none => rfl
    | some hdr =>
      have hh := encodeInteger_some henc
      have hge : e.length ≥ sz - hdr.length := by
        by_cases he : e.length < 2 ^ 64
        · rw [Nat.mod_eq_of_lt he] at hh
          have hex := utils_calcIntSerializedLen_exact he
          have hul := encUint_length 36 e.length
          rw [hh]
          omega
        · omega
      simp only [hge, if_true]

theorem encodeString_roundtrip_witness :
    Utils.calcSerializeStringSize (some [83, 69, 84]) ≤ 7 ∧
    Utils.encodeString 7 (some [83, 69, 84])
      = some ((Utils.calcSerializeStringSize (some [83, 69, 84]) : Int),
              encField ((some [83, 69, 84] : Option (List Nat)).getD [])) ∧
    Utils.encodeString 6 (some [83, 69, 84]) = none :=
  ⟨by decide,
   ((encodeString_roundtrip 7 (some [83, 69, 84]) (by decide)).1 (by decide)).1,
   (encodeString_roundtrip 6 (some [83, 69, 84]) (by decide)).2 (by decide)⟩

/-- Claim C19 fails as stated: for the string `"a"` and the buffer size
`2 ^ 31`, which is at least `calcSerializeStringSize("a") = 5`,
`(int) sz` is negative, `encodeInteger` returns `-1`, and so does
`encodeString`. -/
theorem encodeString_counterexample :
    Utils.calcSerializeStringSize (some [97]) = 5 ∧
    Utils.encodeString (2 ^ 31) (some [97]) = none := by
  decide

/-! ## Key-lock format: round trip -/

theorem takeWhile_nul (key rest : List Nat) (h : 0 ∉ key) :
    (key ++ 0 :: rest).takeWhile (fun c => decide (c ≠ 0)) = key := by
  induction key with
  | nil => simp [List.takeWhile]
  | cons c cs ih =>
    have hc : c ≠ 0 := fun e => h (by rw [e]; exact List.mem_cons_self _ _)
    have hcs : 0 ∉ cs := fun e => h (List.mem_cons_of_mem _ e)
    simp only [List.cons_append, List.takeWhile_cons, hc, ne_eq, not_false_eq_true,
      decide_True, if_true]
    simpa using ih hcs

theorem lockKeysRead_keysBytes (keys : List (List Nat)) (hnul : ∀ k ∈ keys, 0 ∉ k) :
    ∀ rest : List Nat, lockKeysRead keys.length (keysBytes keys ++ rest) = some keys := by
  induction keys with
  | nil => intro rest; rfl
  | cons k ks ih =>
    intro rest
    have hk : 0 ∉ k := hnul k (List.mem_cons_self _ _)
    have e : keysBytes (k :: ks) ++ rest = k ++ 0 :: (keysBytes ks ++ rest) := by
      simp [keysBytes]
    have hmem : ¬ (0 ∉ k ++ 0 :: (keysBytes ks ++ rest)) := by simp
    have hd : (k ++ 0 :: (keysBytes ks ++ rest)).drop (k.length + 1)
        = keysBytes ks ++ rest := by
      rw [← List.drop_drop, List.drop_left]
      rfl
    rw [List.length_cons, lockKeysRead, e, if_neg hmem, takeWhile_nul k _ hk, hd,
      ih (fun x hx => hnul x (List.mem_cons_of_mem _ hx))]

theorem keysBytes_length (keys : List (List Nat)) :
    (keysBytes keys).length = keysSize keys := by
  induction keys with
  | nil => rfl
  | cons k ks ih => simp [keysBytes, keysSize, ih]; omega

theorem length_le_keysSize (keys : List (List Nat)) : keys.length ≤ keysSize keys := by
  induction keys with
  | nil => simp [keysSize]
  | cons k ks ih => simp only [keysSize, List.length_cons]; omega

theorem sorted_keys_unique (l1 l2 : List (List Nat))
    (h1 : l1.Pairwise (fun a b => keyLt a b = true))
    (h2 : l2.Pairwise (fun a b => keyLt a b = true))
    (hmem : ∀ k, k ∈ l1 ↔ k ∈ l2) : l1 = l2 := by
  have nodup : ∀ l : List (List Nat), l.Pairwise (fun a b => keyLt a b = true) → l.Nodup := by
    intro l hl
    refine List.Pairwise.imp_of_mem ?_ hl
    intro a b _ _ hab heq
    rw [heq, keyLt_irrefl] at hab
    cases hab
  have hperm : l1.Perm l2 := (List.perm_ext_iff_of_nodup (nodup l1 h1) (nodup l2 h2)).2 hmem
  have hanti : ∀ a b : List Nat, keyLt a b = true → keyLt b a = true → a = b := by
    intro a b hab hba
    have := keyLt_trans a b a hab hba
    rw [keyLt_irrefl] at this
    cases this
  haveI : IsAntisymm (List Nat) (fun a b => keyLt a b = true) := ⟨hanti⟩
  exact List.eq_of_perm_of_sorted hperm h1 h2

theorem lockKeysCollect_listed (argv listed : List (List Nat))
    (hmem : ∀ k, k ∈ listed ↔ k ∈ argv)
    (hsorted : listed.Pairwise (fun a b => keyLt a b = true)) :
    lockKeysCollect argv ([], 0, 0) = (listed, keysSize listed, listed.length) := by
  obtain ⟨h1, h2, h3⟩ := lockKeysCollect_spec argv [] List.Pairwise.nil
  have h0 : (([] : List (List Nat)), keysSize [], ([] : List (List Nat)).length)
      = (([] : List (List Nat)), 0, 0) := rfl
  rw [h0] at h1 h2 h3
  generalize lockKeysCollect argv ([], 0, 0) = st at h1 h2 h3
  obtain ⟨keys, total, num⟩ := st
  simp only [Prod.mk.injEq] at h1
  simp only at h2 h3
  have hk : keys = listed := by
    apply sorted_keys_unique keys listed h2 hsorted
    intro k
    rw [h3 k, hmem k]
    simp
  rw [h1.1, h1.2, hk]

theorem RaftRedisLockKeysSerialize_ok (fill : Nat → Nat) (argv listed : List (List Nat))
    (hmem : ∀ k, k ∈ listed ↔ k ∈ argv)
    (hsorted : listed.Pairwise (fun a b => keyLt a b = true))
    (hhdr : (encUint 42 listed.length).length < keysSize listed)
    (h31 : keysSize listed < 2 ^ 31) :
    RaftRedisLockKeysSerialize fill argv
      = some { data_len := calcIntSerializedLen listed.length + keysSize listed,
               data := encUint 42 listed.length ++ keysBytes listed ++
                 ((List.range (calcIntSerializedLen listed.length + keysSize listed)).map
                   fill).drop ((encUint 42 listed.length).length + (keysBytes listed).length) } := by
  have hn : listed.length < 2 ^ 64 := by
    have := length_le_keysSize listed
    omega
  unfold RaftRedisLockKeysSerialize
  rw [lockKeysCollect_listed argv listed hmem hsorted]
  simp only
  rw [encodeInteger_ok 42 hn hhdr h31]
  have hw := lockKeysWrite_spec listed 0
  rw [Nat.add_zero] at hw
  simp only [hw, ne_eq, not_true_eq_false, if_false, raft_entry_new]

/-- Claim C21, as amended: for every argv of keys none of which holds a NUL
byte, with `listed` the distinct keys of argv in lexicographic order, when
the listed keys with their NUL bytes take more bytes than the `'*' k '\n'`
header and fewer than `2 ^ 31`, `RaftRedisLockKeysSerialize` returns an
entry, and `RaftRedisLockKeysDeserialize` applied to its payload returns
`num_keys` equal to the number of distinct keys and the distinct keys
themselves, byte for byte, in lexicographic order. -/
theorem lockKeys_roundtrip (fill : Nat → Nat) (argv listed : List (List Nat))
    (hmem : ∀ k, k ∈ listed ↔ k ∈ argv)
    (hsorted : listed.Pairwise (fun a b => keyLt a b = true))
    (hnul : ∀ k ∈ argv, 0 ∉ k)
    (hhdr : (encUint 42 listed.length).length < keysSize listed)
    (h31 : keysSize listed < 2 ^ 31) :
    ∃ e, RaftRedisLockKeysSerialize fill argv = some e ∧
      e.data.length = e.data_len ∧
      RaftRedisLockKeysDeserialize e.data = some (listed.length, listed) := by
  have hn : listed.length < 2 ^ 64 := by
    have := length_le_keysSize listed
    omega
  have hcalc := encUint_length_le_calc 42 hn
  have hkb := keysBytes_length listed
  refine ⟨_, RaftRedisLockKeysSerialize_ok fill argv listed hmem hsorted hhdr h31, ?_, ?_⟩
  · simp only [List.length_append, List.length_drop, List.length_map, List.length_range]
    omega
  · unfold RaftRedisLockKeysDeserialize
    simp only [List.append_assoc]
    rw [decodeInteger_encUint]
    simp only [List.drop_left, Nat.mod_eq_of_lt hn]
    rw [lockKeysRead_keysBytes listed (fun k hk => hnul k ((hmem k).1 hk))]

theorem lockKeys_roundtrip_witness :
    ∃ e, RaftRedisLockKeysSerialize (fun _ => 0) [[98], [97], [97], [99]] = some e ∧
      e.data.length = e.data_len ∧
      RaftRedisLockKeysDeserialize e.data
        = some ([[97], [98], [99]].length, [[97], [98], [99]]) :=
  lockKeys_roundtrip (fun _ => 0) [[98], [97], [97], [99]] [[97], [98], [99]]
    (by intro k; simp only [List.mem_cons, List.mem_singleton, List.not_mem_nil, or_false]; tauto)
    (by decide) (by decide) (by decide) (by decide)

/-- Claim C21 fails as stated: for the keys `"a\0b"` and `"c"` the payload is
`"*2\na\0b\0c\0"`, and `RaftRedisLockKeysDeserialize`, which cuts the keys
with `strlen`, returns the two strings `"a"` and `"b"`. -/
theorem lockKeys_roundtrip_counterexample :
    RaftRedisLockKeysSerialize (fun _ => 0) [[97, 0, 98], [99]]
      = some { data_len := 9, data := [42, 50, 10, 97, 0, 98, 0, 99, 0] } ∧
    RaftRedisLockKeysDeserialize [42, 50, 10, 97, 0, 98, 0, 99, 0]
      = some (2, [[97], [98]]) := by
  decide

/-! ## Serializer: when its assertions hold -/

theorem encodeInteger_none (pfx : Nat) {sz v : Nat} (hv : v < 2 ^ 64)
    (hlen : sz ≤ (encUint pfx v).length) (hsz : sz < 2 ^ 31) :
    encodeInteger pfx sz v = none := by
  unfold encodeInteger
  rw [Nat.mod_eq_of_lt hv, toInt_of_lt hsz]
  have : ((sz : Int) ≤ ((pfx :: (decimal v ++ [10])).length : Int)) := by
    have e : (pfx :: (decimal v ++ [10])).length = (encUint pfx v).length := rfl
    rw [e]; omega
  simp only [this, if_true]

theorem commandsSize_pos {cmds : List RaftRedisCommand} (h : cmds ≠ []) :
    3 ≤ commandsSize cmds := by
  cases cmds with
  | nil => exact absurd rfl h
  | cons cmd rest =>
    have := calcIntSerializedLen_ge (cmd.length + 1)
    simp only [commandsSize, calcSerializedSize]; omega

theorem encodeCommands_exact (cmds : List RaftRedisCommand) :
    ∀ sz : Nat, commandsSize cmds ≤ sz → sz < 2 ^ 31 →
      (encCommands cmds).length ≤ commandsSize cmds ∧
      encodeCommands cmds sz =
        if cmds.getLast? ≠ some [] ∨ (encCommands cmds).length < sz then
          some (encCommands cmds, sz - (encCommands cmds).length)
        else none := by
  induction cmds with
  | nil => intro sz _ _; simp [encodeCommands, encCommands, commandsSize]
  | cons cmd cmds ih =>
    intro sz hsz h31
    simp only [commandsSize, calcSerializedSize] at hsz ⊢
    have hcalc := calcIntSerializedLen_ge (cmd.length + 1)
    have hv : cmd.length < 2 ^ 64 := by
      have := length_le_argsSize cmd
      omega
    have hhdr := encUint_length_le_calc 42 hv
    have hmono := calcIntSerializedLen_succ cmd.length
    obtain ⟨hae, hal⟩ := encodeArgs_ok cmd (sz - (encUint 42 cmd.length).length)
      (by omega) (by omega)
    obtain ⟨ihl, ihe⟩ := ih
      (sz - (encUint 42 cmd.length).length - (encFields cmd).length) (by omega) (by omega)
    have hlen := encCommands_cons_length cmd cmds
    refine ⟨by omega, ?_⟩
    have e1 : encUint 42 cmd.length ++ encFields cmd ++ encCommands cmds
        = encCommands (cmd :: cmds) := rfl
    by_cases hlt : (encUint 42 cmd.length).length < sz
    · rw [encodeCommands, encodeInteger_ok 42 hv hlt h31]
      simp only [hae, ihe]
      cases cmds with
      | nil =>
        have hgood : [cmd].getLast? ≠ some [] ∨ (encCommands [cmd]).length < sz := by
          by_cases hc : cmd = []
          · right
            subst hc
            exact hlt
          · left
            simpa using hc
        have hnil : ([] : List RaftRedisCommand).getLast? ≠ some [] ∨
            (encCommands []).length
              < sz - (encUint 42 cmd.length).length - (encFields cmd).length := by
          left; simp
        rw [if_pos hgood, if_pos hnil]
        simp only [e1]
        have e2 : sz - (encUint 42 cmd.length).length - (encFields cmd).length
              - (encCommands []).length
            = sz - (encCommands [cmd]).length := by
          omega
        rw [e2]
      | cons c cs =>
        have hlast : (cmd :: c :: cs).getLast? = (c :: cs).getLast? := by simp
        by_cases hgood : (c :: cs).getLast? ≠ some [] ∨
            (encCommands (c :: cs)).length
              < sz - (encUint 42 cmd.length).length - (encFields cmd).length
        · have hgood2 : (cmd :: c :: cs).getLast? ≠ some [] ∨
              (encCommands (cmd :: c :: cs)).length < sz := by
            rcases hgood with h | h
            · left; rw [hlast]; exact h
            · right; omega
          rw [if_pos hgood, if_pos hgood2]
          simp only [e1]
          have e2 : sz - (encUint 42 cmd.length).length - (encFields cmd).length
                - (encCommands (c :: cs)).length
              = sz - (encCommands (cmd :: c :: cs)).length := by
            omega
          rw [e2]
        · have hgood2 : ¬ ((cmd :: c :: cs).getLast? ≠ some [] ∨
              (encCommands (cmd :: c :: cs)).length < sz) := by
            intro h
            apply hgood
            rcases h with h | h
            · left; rw [← hlast]; exact h
            · right; omega
          rw [if_neg hgood, if_neg hgood2]
    · have hargs : argsSize cmd = 0 := by omega
      have hrest : commandsSize cmds = 0 := by omega
      have hc : cmd = [] := by
        by_contra hne
        have := argsSize_pos hne
        omega
      have hcs : cmds = [] := by
        by_contra hne
        have := commandsSize_pos hne
        omega
      subst hc hcs
      rw [encodeCommands, encodeInteger_none 42 hv (by omega) h31]
      have hbad : ¬ (([[]] : List RaftRedisCommand).getLast? ≠ some [] ∨
          (encCommands [[]]).length < sz) := by
        intro h
        rcases h with h | h
        · exact h rfl
        · exact hlt h
      rw [if_neg hbad]

/-- Claim C22, as amended: for every command array whose reserved size is
below `2 ^ 31`, `RaftRedisCommandArraySerialize` passes all its assertions
exactly when the array is not empty and either its last command has at least
one argument or the bytes to write are fewer than the reserved size; it then
returns the entry of the reserved size that begins with the bytes written,
and in every case the bytes to write are at most the reserved size.  For the
empty array, and for a last command with no argument when the reserved size
has no slack, an `assert(n != -1)` fails. -/
theorem serialize_assertions (fill : Nat → Nat) (a : RaftRedisCommandArray)
    (h31 : serializedSize a < 2 ^ 31) :
    (encArray a).length ≤ serializedSize a ∧
    RaftRedisCommandArraySerialize fill a =
      if a ≠ [] ∧ (a.getLast? ≠ some [] ∨ (encArray a).length < serializedSize a) then
        some { data_len := serializedSize a,
               data := encArray a ++
                 ((List.range (serializedSize a)).map fill).drop (encArray a).length }
      else none := by
  have hsz : serializedSize a = calcIntSerializedLen a.length + commandsSize a := rfl
  have hv : a.length < 2 ^ 64 := by
    have := length_le_commandsSize a
    omega
  have hhdr := encUint_length_le_calc 42 hv
  have hcalc := calcIntSerializedLen_ge a.length
  have hlen : (encArray a).length
      = (encUint 42 a.length).length + (encCommands a).length := by
    simp [encArray]
  obtain ⟨hcl, hce⟩ := encodeCommands_exact a
    (serializedSize a - (encUint 42 a.length).length) (by omega) (by omega)
  refine ⟨by omega, ?_⟩
  by_cases ha : a = []
  · subst ha
    have hbad : ¬ (([] : RaftRedisCommandArray) ≠ [] ∧
        (([] : RaftRedisCommandArray).getLast? ≠ some [] ∨
          (encArray []).length < serializedSize [])) := fun h => h.1 rfl
    rw [if_neg hbad]
    unfold RaftRedisCommandArraySerialize
    simp only []
    have he : encodeInteger 42 (serializedSize []) ([] : RaftRedisCommandArray).length
        = none := by decide
    rw [he]
  · have hpos := commandsSize_pos ha
    unfold RaftRedisCommandArraySerialize
    simp only []
    rw [encodeInteger_ok 42 hv (by omega) h31]
    by_cases hgood : a.getLast? ≠ some [] ∨
        (encCommands a).length < serializedSize a - (encUint 42 a.length).length
    · have hgood2 : a ≠ [] ∧
          (a.getLast? ≠ some [] ∨ (encArray a).length < serializedSize a) := by
        refine ⟨ha, ?_⟩
        rcases hgood with h | h
        · left; exact h
        · right; omega
      rw [if_pos hgood] at hce
      rw [if_pos hgood2]
      simp only [hce, raft_entry_new]
      rw [← hlen]
      rfl
    · have hgood2 : ¬ (a ≠ [] ∧
          (a.getLast? ≠ some [] ∨ (encArray a).length < serializedSize a)) := by
        intro h
        apply hgood
        rcases h.2 with h | h
        · left; exact h
        · right; omega
      rw [if_neg hgood] at hce
      rw [if_neg hgood2]
      simp only [hce]

theorem serialize_assertions_witness :
    serializedSize [[], [[1]]] < 2 ^ 31 ∧
    ((encArray [[], [[1]]]).length ≤ serializedSize [[], [[1]]] ∧
     RaftRedisCommandArraySerialize (fun _ => 0) [[], [[1]]] =
      if ([[], [[1]]] : RaftRedisCommandArray) ≠ [] ∧
          (([[], [[1]]] : RaftRedisCommandArray).getLast? ≠ some [] ∨
            (encArray [[], [[1]]]).length < serializedSize [[], [[1]]]) then
        some { data_len := serializedSize [[], [[1]]],
               data := encArray [[], [[1]]] ++
                 ((List.range (serializedSize [[], [[1]]])).map (fun _ => 0)).drop
                   (encArray [[], [[1]]]).length }
      else none) :=
  ⟨by decide, serialize_assertions (fun _ => 0) [[], [[1]]] (by decide)⟩

/-- Claim C22 fails as stated: for the empty array the reserved size is 3 and
the count header `"*0\n"` takes 3 bytes, so `encodeInteger` returns `-1` and
the first `assert (n != -1)` fails; for the array of a one-argument command
followed by a command with zero arguments the reserved size is 14, and the
header of the last command is refused with 3 bytes left.  A command with zero
arguments that is not the last one is serialized. -/
theorem serialize_assertions_counterexample :
    RaftRedisCommandArraySerialize (fun _ => 0) [] = none ∧
    serializedSize [[[1]], []] = 14 ∧
    RaftRedisCommandArraySerialize (fun _ => 0) [[[1]], []] = none ∧
    RaftRedisCommandArraySerialize (fun _ => 0) [[], [[1]]]
      = some { data_len := 14,
               data := [42, 50, 10, 42, 48, 10, 42, 49, 10, 36, 49, 10, 1, 10] } := by
  decide

end RedisRaft
